import Mathlib

/-! Go-Simple-Sql-Interpreter: a shallow embedding of `main.go`.

The interpreter reads one statement per line and maps it onto a bbolt
key-value store: one bucket per table, schema keys `col:<name>`, data keys
`<rowId>:<column>`.

Modelling conventions.

* A Go `string` is a `List Char` (`Str`), the list of its code points.  The byte
  offsets of the code (`parts[0][7:]`, `query[whereIndex+6:]`) are character
  offsets in the model; the two coincide when the text before the offset is
  ASCII.  White space is that of `unicode.IsSpace`; upper-casing is the ASCII
  one.
* A runtime panic (index or slice bounds out of range) is the value `none` of
  an `Option`: the Go process aborts there, nothing is printed by the
  interpreter, and the enclosing bbolt transaction is rolled back.
* A bbolt bucket is a list of key/value pairs kept in ascending byte order of
  the keys, together with its sequence counter (a `uint64`).  `ForEach` visits the
  pairs that are in the bucket when the iteration starts, in key order.
  Failures of the storage engine itself (I/O errors, oversized keys) are not
  modelled.
* A Go `map[string]...` is an association list; Go leaves the iteration order
  of a map unspecified, the model iterates in order of first insertion.
-/

set_option autoImplicit false

/-- A Go string, as its sequence of characters. -/
abbrev Str := List Char

namespace strings

/-- Go `unicode.IsSpace`: in Latin-1 the characters `\t`, `\n`, `\v`, `\f`, `\r`, space,
U+0085 and U+00A0; beyond Latin-1 the code points with the White_Space property. -/
def isSpace (c : Char) : Bool :=
  c == ' ' || c == '\t' || c == '\n' || c == '\x0b' || c == '\x0c' || c == '\r' ||
  c.toNat == 0x85 || c.toNat == 0xA0 || c.toNat == 0x1680 ||
  (decide (0x2000 ≤ c.toNat) && decide (c.toNat ≤ 0x200A)) ||
  c.toNat == 0x2028 || c.toNat == 0x2029 || c.toNat == 0x202F || c.toNat == 0x205F ||
  c.toNat == 0x3000

/-- Go `strings.ToUpper`. -/
def ToUpper (s : Str) : Str := s.map Char.toUpper

/-- Go `strings.HasPrefix s p`. -/
def HasPrefix : Str → Str → Bool
  | _, [] => true
  | [], _ :: _ => false
  | c :: s, p :: ps => c == p && HasPrefix s ps

/-- Go `strings.TrimPrefix s p`. -/
def TrimPrefix (s p : Str) : Str :=
  if HasPrefix s p then s.drop p.length else s

/-- Go `strings.HasSuffix s p`. -/
def HasSuffix (s p : Str) : Bool := HasPrefix s.reverse p.reverse

/-- Go `strings.TrimSuffix s p`. -/
def TrimSuffix (s p : Str) : Str :=
  if HasSuffix s p then s.take (s.length - p.length) else s

/-- Position of the first occurrence of `sep` in `s`, if there is one. -/
def indexOf (sep : Str) : Str → Option Nat
  | [] => if sep = [] then some 0 else none
  | c :: s =>
    if HasPrefix (c :: s) sep then some 0
    else match indexOf sep s with
      | some i => some (i + 1)
      | none => none

/-- Go `strings.Index s sep`: `-1` when `sep` does not occur in `s`. -/
def Index (s sep : Str) : Int :=
  match indexOf sep s with
  | some i => (i : Int)
  | none => -1

/-- Go `strings.Contains s sep`. -/
def Contains (s sep : Str) : Bool := (indexOf sep s).isSome

/-- The loop of Go `genSplit`: at most `n` cuts at occurrences of `sep`, left to right. -/
def genSplit (sep : Str) : Nat → Str → List Str
  | 0, s => [s]
  | n + 1, s =>
    match indexOf sep s with
    | none => [s]
    | some m => s.take m :: genSplit sep n (s.drop (m + sep.length))

/-- Go `strings.SplitN s sep n` for `n ≥ 0` and a non-empty separator. -/
def SplitN (s sep : Str) (n : Nat) : List Str :=
  if n = 0 then [] else genSplit sep (n - 1) s

/-- Go `strings.Split s sep` for a non-empty separator: `genSplit` caps the number of
pieces at `len(s) + 1`. -/
def Split (s sep : Str) : List Str := genSplit sep s.length s

/-- Go `strings.TrimSpace`. -/
def TrimSpace (s : Str) : Str :=
  ((s.dropWhile isSpace).reverse.dropWhile isSpace).reverse

/-- Go `strings.TrimLeftFunc(s, unicode.IsSpace)`, the first pass of `TrimSpace`. -/
def trimLeft (s : Str) : Str := s.dropWhile isSpace

/-- Go `strings.TrimRightFunc(s, unicode.IsSpace)`, the second pass of `TrimSpace`. -/
def trimRight (s : Str) : Str := (s.reverse.dropWhile isSpace).reverse

/-- Scanner of `strings.Fields`: `cur` is the field being read. -/
def fieldsAux : Str → Str → List Str
  | cur, [] => if cur = [] then [] else [cur]
  | cur, c :: s =>
    if isSpace c then
      (if cur = [] then fieldsAux [] s else cur :: fieldsAux [] s)
    else fieldsAux (cur ++ [c]) s

/-- Go `strings.Fields`. -/
def Fields (s : Str) : List Str := fieldsAux [] s

/-- Go `strings.Join xs sep`. -/
def Join : List Str → Str → Str
  | [], _ => []
  | [x], _ => x
  | x :: y :: rest, sep => x ++ sep ++ Join (y :: rest) sep

end strings

/-- Go `s[n:]`: a panic when `n > len(s)`. -/
def sliceFrom (s : Str) (n : Nat) : Option Str :=
  if n ≤ s.length then some (s.drop n) else none

/-- Go `xs[i]`: a panic when `i` is out of range. -/
def index {α : Type} (xs : List α) (i : Nat) : Option α := xs.get? i

/-- Go `fmt.Sprintf("%d", n)` for an unsigned integer. -/
def itoa (n : Nat) : Str := Nat.toDigits 10 n


/-! ## The bbolt store -/

namespace bolt

/-- Byte-wise order of keys (`bytes.Compare k1 k2 < 0`), the iteration order of a bucket. -/
def keyLt : Str → Str → Bool
  | [], [] => false
  | [], _ :: _ => true
  | _ :: _, [] => false
  | a :: s, b :: t => decide (a.toNat < b.toNat) || (a == b && keyLt s t)

/-- Sorted insertion of a key/value pair; an existing pair with that key is replaced. -/
def putKV (k v : Str) : List (Str × Str) → List (Str × Str)
  | [] => [(k, v)]
  | (k1, v1) :: rest =>
    if k = k1 then (k, v) :: rest
    else if keyLt k k1 then (k, v) :: (k1, v1) :: rest
    else (k1, v1) :: putKV k v rest

/-- A bucket: its key/value pairs in key order and its sequence counter. -/
structure Bucket where
  /-- The pairs of the bucket, in ascending key order. -/
  kvs : List (Str × Str)
  /-- The bucket's sequence counter (`uint64`). -/
  sequence : Nat
  deriving DecidableEq, Repr

/-- The pairs of a bucket are strictly ascending in key order. -/
def Bucket.WF (b : Bucket) : Prop :=
  b.kvs.Pairwise (fun p q => keyLt p.1 q.1 = true)

instance (b : Bucket) : Decidable b.WF := by
  unfold Bucket.WF; infer_instance

/-- `Bucket.Get`: the value stored under a key. -/
def Bucket.Get (b : Bucket) (k : Str) : Option Str := b.kvs.lookup k

/-- `Bucket.Put`. -/
def Bucket.Put (b : Bucket) (k v : Str) : Bucket := { b with kvs := putKV k v b.kvs }

/-- `Bucket.Delete`: removing an absent key is not an error. -/
def Bucket.Delete (b : Bucket) (k : Str) : Bucket :=
  { b with kvs := b.kvs.filter (fun p => p.1 ≠ k) }

/-- `Bucket.NextSequence`: increments the `uint64` counter and returns it. -/
def Bucket.NextSequence (b : Bucket) : Bucket × Nat :=
  ({ b with sequence := (b.sequence + 1) % 2 ^ 64 }, (b.sequence + 1) % 2 ^ 64)

/-- The buckets of an open database file (what a transaction sees), by name. -/
abbrev DB := List (Str × Bucket)

/-- Go `tx.Bucket(name)`: `none` is `nil`. -/
def txBucket (tx : DB) (name : Str) : Option Bucket := tx.lookup name

/-- Write a bucket back under its name. -/
def txSetBucket (name : Str) (b : Bucket) : DB → DB
  | [] => [(name, b)]
  | (n, b1) :: rest => if n = name then (n, b) :: rest else (n, b1) :: txSetBucket name b rest

/-- `txCreateBucketIfNotExists`: the bucket of that name, a new empty one if there is none. -/
def txCreateBucketIfNotExists (tx : DB) (name : Str) : Bucket :=
  match txBucket tx name with
  | some b => b
  | none => { kvs := [], sequence := 0 }

/-- `txDeleteBucket`: `none` is the error `bucket not found`. -/
def txDeleteBucket (tx : DB) (name : Str) : Option DB :=
  match txBucket tx name with
  | some _ => some (tx.filter (fun p => p.1 ≠ name))
  | none => none

end bolt

open strings bolt

/-! ## Go maps -/

/-- Go `m[k]` with presence flag. -/
def mapGet? {β : Type} (m : List (Str × β)) (k : Str) : Option β := m.lookup k

/-- Go `m[k] = v`. -/
def mapSet {β : Type} (k : Str) (v : β) : List (Str × β) → List (Str × β)
  | [] => [(k, v)]
  | (k1, v1) :: rest => if k1 = k then (k1, v) :: rest else (k1, v1) :: mapSet k v rest

/-- Go `row[k]` on a `map[string]string`: the empty string when the key is absent. -/
def rowGet (row : List (Str × Str)) (k : Str) : Str := (mapGet? row k).getD []

/-- The materialized rows of a scan: row id ↦ (column ↦ value). -/
abbrev Rows := List (Str × List (Str × Str))

/-! ## The interpreter -/

/-- What a statement prints: a line of text, or a rendered table (headers and rows). -/
inductive Output where
  | line (s : Str)
  | table (headers : List Str) (rows : List (List Str))
  deriving DecidableEq, Repr

/-- Result of running a statement: `none` is a runtime panic; otherwise the value of
`currentDB` afterwards (`none` is `nil`) and what was printed. -/
abbrev Run := Option (Option DB × Output)

/-- The loop of `createTable` over the column definitions. -/
def createTableLoop (b : Bucket) : List Str → Option Bucket
  | [] => some b
  | col :: rest =>
    match index (Fields (TrimSpace col)) 0 with
    | none => none
    | some colName => createTableLoop (b.Put ("col:".toList ++ colName) col) rest

/-- The update transaction of `createTable`. -/
def createTableTx (tableName : Str) (columns : List Str) (tx : DB) : Option DB :=
  match createTableLoop (txCreateBucketIfNotExists tx tableName) columns with
  | none => none
  | some b => some (txSetBucket tableName b tx)

/-- Go `createTable`. -/
def createTable (currentDB : Option DB) (query : Str) : Run :=
  match currentDB with
  | none => some (none, .line "No database selected".toList)
  | some db =>
    let parts := SplitN query "(".toList 2
    if parts.length < 2 then some (some db, .line "Invalid CREATE TABLE syntax".toList)
    else
      match index parts 0, index parts 1 with
      | some p0, some p1 =>
        match index (Fields p0) 2 with
        | none => none
        | some tableName =>
          let columnsPart := TrimSuffix p1 ")".toList
          let columns := Split columnsPart ",".toList
          match createTableTx tableName columns db with
          | none => none
          | some db1 => some (some db1, .line ("Table ".toList ++ tableName ++ " created".toList))
      | _, _ => none

/-- The loop of `insertIntoTable` over the columns: `i` is the loop index. -/
def insertLoop (id : Nat) (values : List Str) : Bucket → Nat → List Str → Option Bucket
  | b, _, [] => some b
  | b, i, col :: rest =>
    match index values i with
    | none => none
    | some value =>
      insertLoop id values (b.Put (itoa id ++ ":".toList ++ TrimSpace col) (TrimSpace value))
        (i + 1) rest

/-- The update transaction of `insertIntoTable`: `some (.error e)` is a returned error (the
transaction is rolled back). -/
def insertTx (tableName : Str) (columns values : List Str) (tx : DB) : Option (Except Str DB) :=
  match txBucket tx tableName with
  | none => some (.error ("table ".toList ++ tableName ++ " does not exist".toList))
  | some b =>
    match insertLoop (b.NextSequence).2 values (b.NextSequence).1 0 columns with
    | none => none
    | some b1 => some (.ok (txSetBucket tableName b1 tx))

/-- Go `insertIntoTable`. -/
def insertIntoTable (currentDB : Option DB) (query : Str) : Run :=
  match currentDB with
  | none => some (none, .line "No database selected".toList)
  | some db =>
    let parts := SplitN query "(".toList 2
    if parts.length < 2 then some (some db, .line "Invalid INSERT syntax".toList)
    else
      match index parts 0, index parts 1 with
      | some p0, some p1 =>
        match index (Fields p0) 2 with
        | none => none
        | some tableName =>
          let columnsPart := SplitN p1 ")".toList 2
          match index columnsPart 0, index columnsPart 1 with
          | some cp0, some cp1 =>
            let columns := Split cp0 ",".toList
            let valuesPart := SplitN cp1 "(".toList 2
            match index valuesPart 1 with
            | none => none
            | some vp1 =>
              let values := Split (TrimSuffix vp1 ")".toList) ",".toList
              match insertTx tableName columns values db with
              | none => none
              | some (.error e) =>
                some (some db, .line ("Error inserting into table: ".toList ++ e))
              | some (.ok db1) =>
                some (some db1, .line ("Record inserted into table ".toList ++ tableName))
          | _, _ => none
      | _, _ => none

/-- Go `parseSelectQuery`: columns, table name and WHERE clause. -/
def parseSelectQuery (query : Str) : Option (List Str × Str × Str) :=
  let parts := SplitN query "FROM".toList 2
  match index parts 0 with
  | none => none
  | some p0 =>
    match sliceFrom p0 7 with
    | none => none
    | some c0 =>
      let columnsPart := TrimSpace c0
      match index parts 1 with
      | none => none
      | some p1 =>
        let tableAndWhere := TrimSpace p1
        let columns := (Split columnsPart ",".toList).map TrimSpace
        if Contains tableAndWhere "WHERE".toList then
          let whereParts := SplitN tableAndWhere "WHERE".toList 2
          match index whereParts 0, index whereParts 1 with
          | some w0, some w1 => some (columns, TrimSpace w0, TrimSpace w1)
          | _, _ => none
        else some (columns, tableAndWhere, [])

/-- The inner loop of `filterRows`: does the row pass every condition? -/
def matchRow (row : List (Str × Str)) : List Str → Bool
  | [] => true
  | condition :: rest =>
    match SplitN (TrimSpace condition) "=".toList 2 with
    | [c, v] => if rowGet row (TrimSpace c) ≠ TrimSpace v then false else matchRow row rest
    | _ => matchRow row rest

/-- Go `filterRows`. -/
def filterRows (rows : Rows) (whereClause : Str) : Rows :=
  if whereClause = [] then rows
  else rows.filter (fun r => matchRow r.2 (Split whereClause "AND".toList))

/-- The first `ForEach` of `selectFromTable`: the names under the `col:` keys, in key order. -/
def allHeaders (b : Bucket) : List Str :=
  b.kvs.filterMap (fun p =>
    if HasPrefix p.1 "col:".toList then some (TrimPrefix p.1 "col:".toList) else none)

/-- The header list of `selectFromTable`; the set `selectedColumns` has the same members. -/
def selectHeaders (columns all : List Str) : List Str :=
  match columns with
  | [] => all
  | c :: _ => if c = "*".toList then all else columns

/-- How the scans decode a key: the row id and the column of a data key; `none` for a schema
key (prefix `col:`) and for a key without `:`. -/
def keyCell (k : Str) : Option (Str × Str) :=
  if HasPrefix k "col:".toList then none
  else
    match Split k ":".toList with
    | id :: col :: _ => some (id, col)
    | _ => none

/-- The value that materialized rows hold for a row id and a column, if any. -/
def cellGet (rows : Rows) (id col : Str) : Option Str :=
  match mapGet? rows id with
  | none => none
  | some row => mapGet? row col

/-- One callback of the second `ForEach` of `selectFromTable`. -/
def scanStep (selectedColumns : List Str) (rows : Rows) (k v : Str) : Rows :=
  if !HasPrefix k "col:".toList then
    match Split k ":".toList with
    | id :: col :: _ =>
      if selectedColumns.contains col then
        mapSet id (mapSet col v ((mapGet? rows id).getD [])) rows
      else rows
    | _ => rows
  else rows

/-- The second `ForEach` of `selectFromTable`: the materialized rows. -/
def scanRows (selectedColumns : List Str) (b : Bucket) : Rows :=
  b.kvs.foldl (fun rows p => scanStep selectedColumns rows p.1 p.2) []

/-- The rows that `selectFromTable` keeps, by row id. -/
def selectRows (b : Bucket) (columns : List Str) (whereClause : Str) : Rows :=
  filterRows (scanRows (selectHeaders columns (allHeaders b)) b) whereClause

/-- The view transaction of `selectFromTable` on an existing bucket: headers and row data. -/
def selectView (b : Bucket) (columns : List Str) (whereClause : Str) : Output :=
  let headers := selectHeaders columns (allHeaders b)
  .table headers ((selectRows b columns whereClause).map (fun r => headers.map (rowGet r.2)))

/-- Go `selectFromTable`. -/
def selectFromTable (currentDB : Option DB) (query : Str) : Run :=
  match currentDB with
  | none => some (none, .line "No database selected".toList)
  | some db =>
    match parseSelectQuery query with
    | none => none
    | some (columns, tableName, whereClause) =>
      match txBucket db tableName with
      | none =>
        some (some db, .line ("Error selecting from table: table ".toList ++ tableName
          ++ " does not exist".toList))
      | some b => some (some db, selectView b columns whereClause)

/-- The `ForEach` of `updateTable`, over the pairs present when it starts. -/
def updateLoop (condition setColumn setValue : Str) (b : Bucket) : List (Str × Str) → Option Bucket
  | [] => some b
  | (k, _) :: rest =>
    if !HasPrefix k "col:".toList then
      let parts := Split k ":".toList
      match index parts 0, index parts 1 with
      | some id, some col =>
        if col = condition then
          updateLoop condition setColumn setValue (b.Put (id ++ ":".toList ++ setColumn) setValue) rest
        else updateLoop condition setColumn setValue b rest
      | _, _ => none
    else updateLoop condition setColumn setValue b rest

/-- Go `updateTable`. -/
def updateTable (currentDB : Option DB) (query : Str) : Run :=
  match currentDB with
  | none => some (none, .line "No database selected".toList)
  | some db =>
    let parts := Split query "SET".toList
    match index parts 1, index parts 0 with
    | some updatePart, some p0 =>
      match index (Fields p0) 1 with
      | none => none
      | some tableName =>
        let updateParts := Fields updatePart
        match index updateParts 0, index updateParts 2 with
        | some setColumn, some u2 =>
          let setValue := TrimSuffix u2 ";".toList
          let whereIndex := Index query "WHERE".toList
          match sliceFrom query (whereIndex + 6).toNat with
          | none => none
          | some condition =>
            match txBucket db tableName with
            | none =>
              some (some db, .line ("Error updating table: table ".toList ++ tableName
                ++ " does not exist".toList))
            | some b =>
              match updateLoop condition setColumn setValue b b.kvs with
              | none => none
              | some b1 =>
                some (some (txSetBucket tableName b1 db),
                  .line ("Table ".toList ++ tableName ++ " updated".toList))
        | _, _ => none
    | _, _ => none

/-- The `ForEach` of `deleteFromTable`, over the pairs present when it starts. -/
def deleteLoop (condition : Str) (b : Bucket) : List (Str × Str) → Option Bucket
  | [] => some b
  | (k, _) :: rest =>
    if !HasPrefix k "col:".toList then
      let parts := Split k ":".toList
      match index parts 1 with
      | some col =>
        if col = condition then deleteLoop condition (b.Delete k) rest
        else deleteLoop condition b rest
      | none => none
    else deleteLoop condition b rest

/-- Go `deleteFromTable`. -/
def deleteFromTable (currentDB : Option DB) (query : Str) : Run :=
  match currentDB with
  | none => some (none, .line "No database selected".toList)
  | some db =>
    let parts := Split query "FROM".toList
    match index parts 1 with
    | none => none
    | some p1 =>
      match index (Fields p1) 0 with
      | none => none
      | some tableName =>
        let whereIndex := Index query "WHERE".toList
        match sliceFrom query (whereIndex + 6).toNat with
        | none => none
        | some condition =>
          match txBucket db tableName with
          | none =>
            some (some db, .line ("Error deleting from table: table ".toList ++ tableName
              ++ " does not exist".toList))
          | some b =>
            match deleteLoop condition b b.kvs with
            | none => none
            | some b1 =>
              some (some (txSetBucket tableName b1 db),
                .line ("Records deleted from table ".toList ++ tableName))

/-- Go `dropTable`. -/
def dropTable (currentDB : Option DB) (tableName : Str) : Run :=
  match currentDB with
  | none => some (none, .line "No database selected".toList)
  | some db =>
    match txDeleteBucket db tableName with
    | none => some (some db, .line "Error dropping table: bucket not found".toList)
    | some db1 => some (some db1, .line ("Table ".toList ++ tableName ++ " dropped".toList))

/-! ## The session: database files and the global `currentDB` -/

/-- The process state: the database files under `Dbs/` by name, and the name of the file
that the global handle `currentDB` has open (`none` is `nil`).  bbolt commits each
transaction to the file, so the open database is the content of its file. -/
structure Session where
  /-- The database files, by name. -/
  files : List (Str × DB)
  /-- The file that `currentDB` has open. -/
  currentDB : Option Str
  deriving DecidableEq, Repr

/-- The buckets of the open database, `none` when `currentDB` is `nil`. -/
def Session.db (s : Session) : Option DB :=
  match s.currentDB with
  | none => none
  | some name => some ((s.files.lookup name).getD [])

/-- Commit the buckets of the open database to its file. -/
def Session.commit (s : Session) (db : Option DB) : Session :=
  match s.currentDB, db with
  | some name, some d => { s with files := mapSet name d s.files }
  | _, _ => s

/-- Go `bolt.Open` after closing the previous handle: the file is created when it is missing. -/
def Session.open (s : Session) (name : Str) : Session :=
  { files := if (s.files.lookup name).isSome then s.files else s.files ++ [(name, [])],
    currentDB := some name }

/-- Go `createDatabase`. -/
def createDatabase (s : Session) (name : Str) : Session × Output :=
  (s.open name, .line ("Database ".toList ++ name ++ " created and selected".toList))

/-- Go `useDatabase`. -/
def useDatabase (s : Session) (name : Str) : Session × Output :=
  (s.open name, .line ("Using database ".toList ++ name))

/-- Run a statement function against the open database and commit what it returns. -/
def Session.run (s : Session) (f : Option DB → Run) : Option (Session × Output) :=
  match f s.db with
  | none => none
  | some (db, out) => some (s.commit db, out)

/-- Go `processQuery`: `none` is a runtime panic. -/
def processQuery (s : Session) (query : Str) : Option (Session × Output) :=
  let parts := Fields query
  if parts.length = 0 then some (s, .line "No command provided".toList)
  else
    match index parts 0 with
    | none => none
    | some p0 =>
      let command := ToUpper p0
      if command = "CREATE".toList then
        if parts.length > 1 ∧ (index parts 1).map ToUpper = some "DATABASE".toList then
          match index parts 2 with
          | none => none
          | some name => some (createDatabase s name)
        else if parts.length > 1 ∧ (index parts 1).map ToUpper = some "TABLE".toList then
          s.run (fun db => createTable db query)
        else some (s, .line "Invalid CREATE command".toList)
      else if command = "USE".toList then
        match index parts 1 with
        | none => none
        | some name => some (useDatabase s name)
      else if command = "INSERT".toList then s.run (fun db => insertIntoTable db query)
      else if command = "SELECT".toList then s.run (fun db => selectFromTable db query)
      else if command = "UPDATE".toList then s.run (fun db => updateTable db query)
      else if command = "DELETE".toList then s.run (fun db => deleteFromTable db query)
      else if command = "DROP".toList then
        if parts.length > 1 ∧ (index parts 1).map ToUpper = some "TABLE".toList then
          match index parts 2 with
          | none => none
          | some name => s.run (fun db => dropTable db name)
        else some (s, .line "Invalid DROP command".toList)
      else some (s, .line "Unknown command".toList)

/-- Go `main`: the read-eval-print loop over the input lines, until `EXIT` or the end of the
input; `none` is a runtime panic. -/
def mainLoop (s : Session) : List Str → Option (Session × List Output)
  | [] => some (s, [])
  | line :: rest =>
    let query := TrimSpace line
    if ToUpper query = "EXIT".toList then some (s, [])
    else
      match processQuery s query with
      | none => none
      | some (s1, out) =>
        match mainLoop s1 rest with
        | none => none
        | some (s2, outs) => some (s2, out :: outs)

/-! ## Statement shapes, reachable databases and the key-shape invariant -/

/-- A column name or literal as written in a WHERE condition: a non-empty text without
surrounding white space that does not contain the keyword `AND`. -/
def whereOperand (x : Str) : Prop :=
  x ≠ [] ∧ TrimSpace x = x ∧ Contains x "AND".toList = false

instance (x : Str) : Decidable (whereOperand x) := by
  unfold whereOperand; infer_instance

/-- The WHERE clause `c = v AND c2 = v2`. -/
def whereAnd (c v c2 v2 : Str) : Str :=
  c ++ " = ".toList ++ v ++ " AND ".toList ++ c2 ++ " = ".toList ++ v2

/-- The WHERE clause `c1 = v1 AND .. AND cn = vn` of the pairs `(ci, vi)`. -/
def whereConj (ps : List (Str × Str)) : Str :=
  Join (ps.map (fun p => p.1 ++ " = ".toList ++ p.2)) " AND ".toList

/-- A table name as the statements can name it: a non-empty text without white space and
without `(`, that does not contain the keyword `WHERE`. -/
def tableToken (t : Str) : Prop :=
  t ≠ [] ∧ (∀ ch ∈ t, isSpace ch = false) ∧ '(' ∉ t ∧ Contains t "WHERE".toList = false

instance (t : Str) : Decidable (tableToken t) := by
  unfold tableToken; infer_instance

/-- The statement `CREATE TABLE t (d1,..,dn)`. -/
def createTableStmt (t : Str) (ds : List Str) : Str :=
  "CREATE TABLE ".toList ++ t ++ " (".toList ++ Join ds ",".toList ++ ")".toList

/-- The statement `SELECT * FROM t`. -/
def selectAllStmt (t : Str) : Str := "SELECT * FROM ".toList ++ t

/-- The statement `SELECT c1,..,cn FROM t`. -/
def selectStmt (cs : List Str) (t : Str) : Str :=
  "SELECT ".toList ++ Join cs ",".toList ++ " FROM ".toList ++ t

/-- The statement `SELECT c1,..,cn FROM t WHERE cond`. -/
def selectWhereStmt (cs : List Str) (t cond : Str) : Str :=
  selectStmt cs t ++ " WHERE ".toList ++ cond

/-- The statement `UPDATE t SET c = v WHERE cond`. -/
def updateStmt (t c v cond : Str) : Str :=
  "UPDATE ".toList ++ t ++ " SET ".toList ++ c ++ " = ".toList ++ v ++ " WHERE ".toList ++ cond

/-- The statement `DELETE FROM t WHERE cond`. -/
def deleteStmt (t cond : Str) : Str :=
  "DELETE FROM ".toList ++ t ++ " WHERE ".toList ++ cond

/-- The column name of a column definition: its first white-space-delimited token (the empty
text when there is none, where `createTable` panics). -/
def columnName (d : Str) : Str := (Fields (TrimSpace d)).headD []

/-- A text free of the characters `,`, `(`, `)` and `:`. -/
def plainText (x : Str) : Prop := ',' ∉ x ∧ '(' ∉ x ∧ ')' ∉ x ∧ ':' ∉ x

instance (x : Str) : Decidable (plainText x) := by
  unfold plainText; infer_instance

/-- The statement `INSERT INTO t (c1,..,cN) VALUES (v1,..,vN)`. -/
def insertStmt (t : Str) (cs vs : List Str) : Str :=
  "INSERT INTO ".toList ++ t ++ " (".toList ++ Join cs ",".toList ++ ") VALUES (".toList
    ++ Join vs ",".toList ++ ")".toList

/-- No table of the database has used up its `uint64` sequence counter: the next draw does
not wrap around. -/
def sequencesBelowMax (db : DB) : Prop := ∀ p ∈ db, p.2.sequence + 1 < 2 ^ 64

instance (db : DB) : Decidable (sequencesBelowMax db) := by
  unfold sequencesBelowMax; infer_instance

/-- The databases that CREATE TABLE, INSERT, UPDATE and DELETE statements produce from an
empty database, as long as no sequence counter wraps around: each step is a run of the
statement function that does not panic. -/
inductive Reachable : DB → Prop where
  | empty : Reachable []
  | create {db db1 : DB} {query : Str} {out : Output} :
      Reachable db → createTable (some db) query = some (some db1, out) → Reachable db1
  | insert {db db1 : DB} {query : Str} {out : Output} :
      Reachable db → sequencesBelowMax db →
        insertIntoTable (some db) query = some (some db1, out) → Reachable db1
  | update {db db1 : DB} {query : Str} {out : Output} :
      Reachable db → updateTable (some db) query = some (some db1, out) → Reachable db1
  | delete {db db1 : DB} {query : Str} {out : Output} :
      Reachable db → deleteFromTable (some db) query = some (some db1, out) → Reachable db1

/-- The shape of a key in a bucket whose sequence counter is `s`: a schema key `col:<name>`
with a name free of white space, or a data key `<n>:<rest>` whose `<n>` is the numeral of a
row id between 1 and `s`. -/
def keyShape (s : Nat) (k : Str) : Prop :=
  (∃ n : Str, k = "col:".toList ++ n ∧ ∀ ch ∈ n, isSpace ch = false) ∨
  (∃ (n : Nat) (rest : Str), 1 ≤ n ∧ n ≤ s ∧ k = itoa n ++ ':' :: rest)

/-- Every key of the bucket has the shape of a schema key or of a data key of a drawn row
id. -/
def KeyInv (b : Bucket) : Prop := ∀ p ∈ b.kvs, keyShape b.sequence p.1

/-- A session with no database file and no database selected. -/
def freshSession : Session := { files := [], currentDB := none }

/-- The `users` bucket after `CREATE TABLE users (name text, age text)` and
`INSERT INTO users (name,age) VALUES (Alice,30)`. -/
def usersBucket : Bucket :=
  { kvs := [("1:age".toList, "30".toList), ("1:name".toList, "Alice".toList),
      ("col:age".toList, " age text".toList), ("col:name".toList, "name text".toList)],
    sequence := 1 }

/-- A database holding the `users` table only. -/
def usersDB : DB := [("users".toList, usersBucket)]

/-- A session that has the database `d` with the `users` table selected. -/
def usersSession : Session := { files := [("d".toList, usersDB)], currentDB := some "d".toList }


/-! ## Lemmas on the string functions -/

namespace strings

theorem HasPrefix_nil (s : Str) : HasPrefix s [] = true := by
  cases s <;> rfl

theorem HasPrefix_cons_cons (a b : Char) (s p : Str) :
    HasPrefix (a :: s) (b :: p) = (a == b && HasPrefix s p) := rfl

theorem HasPrefix_append_self (p s : Str) : HasPrefix (p ++ s) p = true := by
  induction p with
  | nil => exact HasPrefix_nil _
  | cons a p ih => simp [HasPrefix_cons_cons, ih]

/-- A match of `sep` that starts inside `x` and is followed by a character outside `sep`
lies within `x`. -/
theorem HasPrefix_of_append_cons {ch : Char} {y : Str} :
    ∀ (x sep : Str), ch ∉ sep → HasPrefix (x ++ ch :: y) sep = true → HasPrefix x sep = true := by
  intro x
  induction x with
  | nil =>
    intro sep hch h
    cases sep with
    | nil => rfl
    | cons p ps =>
      simp [HasPrefix_cons_cons] at h
      exact absurd (h.1 ▸ List.mem_cons_self _ _) hch
  | cons a x ih =>
    intro sep hch h
    cases sep with
    | nil => rfl
    | cons p ps =>
      simp only [List.cons_append, HasPrefix_cons_cons, Bool.and_eq_true] at h ⊢
      exact ⟨h.1, ih ps (fun hm => hch (List.mem_cons_of_mem _ hm)) h.2⟩

theorem indexOf_nil_sep {sep : Str} (h : sep ≠ []) : indexOf sep [] = none := by
  simp [indexOf, h]

theorem indexOf_cons (sep : Str) (a : Char) (s : Str) :
    indexOf sep (a :: s) =
      if HasPrefix (a :: s) sep then some 0 else (indexOf sep s).map (fun i => i + 1) := by
  rw [indexOf]
  cases indexOf sep s <;> rfl

theorem indexOf_of_HasPrefix {sep s : Str} (h : HasPrefix s sep = true) :
    indexOf sep s = some 0 := by
  cases s with
  | nil =>
    cases sep with
    | nil => rfl
    | cons p ps => exact absurd h (by simp [HasPrefix])
  | cons a s => rw [indexOf_cons, if_pos h]

theorem indexOf_cons_eq_none {sep : Str} {a : Char} {s : Str} :
    indexOf sep (a :: s) = none ↔ HasPrefix (a :: s) sep = false ∧ indexOf sep s = none := by
  rw [indexOf_cons]
  by_cases h : HasPrefix (a :: s) sep = true
  · simp [h]
  · cases hi : indexOf sep s <;> simp [h]

/-- Searching past a part `x` without a match that ends in a character outside `sep`. -/
theorem indexOf_append_cons {sep : Str} {ch : Char} (hch : ch ∉ sep) (hsep : sep ≠ []) (y : Str) :
    ∀ x : Str, indexOf sep x = none →
      indexOf sep (x ++ ch :: y) = (indexOf sep y).map (fun i => i + (x.length + 1)) := by
  have hhead : HasPrefix (ch :: y) sep = false := by
    cases sep with
    | nil => exact absurd rfl hsep
    | cons p ps =>
      have : ch ≠ p := fun e => hch (e ▸ List.mem_cons_self _ _)
      simp [HasPrefix_cons_cons, this]
  intro x
  induction x with
  | nil =>
    intro _
    show indexOf sep (ch :: y) = _
    rw [indexOf_cons]
    cases hi : indexOf sep y <;> simp [hhead]
  | cons a x ih =>
    intro hx
    rw [indexOf_cons_eq_none] at hx
    have hpre : HasPrefix (a :: x ++ ch :: y) sep = false := by
      cases h : HasPrefix (a :: x ++ ch :: y) sep with
      | false => rfl
      | true =>
        have := HasPrefix_of_append_cons (a :: x) sep hch h
        rw [hx.1] at this
        exact absurd this (by simp)
    show indexOf sep (a :: (x ++ ch :: y)) = _
    have hpre2 : HasPrefix (a :: (x ++ ch :: y)) sep = false := hpre
    rw [indexOf_cons, ih hx.2]
    cases hi : indexOf sep y <;> simp [hpre2]
    omega

/-- The first occurrence of a one-character separator. -/
theorem indexOf_single {ch : Char} (y : Str) :
    ∀ x : Str, ch ∉ x → indexOf [ch] (x ++ ch :: y) = some x.length := by
  intro x
  induction x with
  | nil => intro _; simp [indexOf, HasPrefix_cons_cons, HasPrefix_nil]
  | cons a x ih =>
    intro h
    have ha : a ≠ ch := fun e => h (e ▸ List.mem_cons_self _ _)
    have hx : ch ∉ x := fun hm => h (List.mem_cons_of_mem _ hm)
    show indexOf [ch] (a :: (x ++ ch :: y)) = _
    rw [indexOf_cons]
    simp [HasPrefix_cons_cons, ha, ih hx]

theorem indexOf_single_none {ch : Char} : ∀ x : Str, ch ∉ x → indexOf [ch] x = none := by
  intro x
  induction x with
  | nil => intro _; simp [indexOf]
  | cons a x ih =>
    intro h
    have ha : a ≠ ch := fun e => h (e ▸ List.mem_cons_self _ _)
    have hx : ch ∉ x := fun hm => h (List.mem_cons_of_mem _ hm)
    rw [indexOf_cons]
    simp [HasPrefix_cons_cons, ha, ih hx]

theorem genSplit_none {sep : Str} {s : Str} (h : indexOf sep s = none) (n : Nat) :
    genSplit sep n s = [s] := by
  cases n <;> simp [genSplit, h]

theorem genSplit_some {sep : Str} {s : Str} {m : Nat} (h : indexOf sep s = some m) (n : Nat) :
    genSplit sep (n + 1) s = s.take m :: genSplit sep n (s.drop (m + sep.length)) := by
  simp [genSplit, h]

theorem genSplit_single {ch : Char} {x : Str} (hx : ch ∉ x) (y : Str) (n : Nat) :
    genSplit [ch] (n + 1) (x ++ ch :: y) = x :: genSplit [ch] n y := by
  rw [genSplit_some (indexOf_single y x hx)]
  simp

theorem indexOf_lt_length {sep : Str} (hsep : sep ≠ []) :
    ∀ (s : Str) (m : Nat), indexOf sep s = some m → m < s.length := by
  intro s
  induction s with
  | nil => intro m h; simp [indexOf, hsep] at h
  | cons a s ih =>
    intro m h
    rw [indexOf_cons] at h
    by_cases hp : HasPrefix (a :: s) sep = true
    · simp [hp] at h; subst h; simp
    · cases hi : indexOf sep s with
      | none => simp [hp, hi] at h
      | some i =>
        simp [hp, hi] at h
        subst h
        simpa using ih i hi

/-- With at least `len(s)` cuts allowed, the number allowed does not matter. -/
theorem genSplit_fuel {sep : Str} (hsep : sep ≠ []) :
    ∀ (n m : Nat) (s : Str), s.length ≤ n → s.length ≤ m → genSplit sep n s = genSplit sep m s := by
  intro n
  induction n with
  | zero =>
    intro m s hn _
    have : s = [] := List.eq_nil_of_length_eq_zero (Nat.le_zero.mp hn)
    subst this
    rw [genSplit_none (indexOf_nil_sep hsep), genSplit_none (indexOf_nil_sep hsep)]
  | succ n ih =>
    intro m s hn hm
    cases hi : indexOf sep s with
    | none => rw [genSplit_none hi, genSplit_none hi]
    | some i =>
      have hlt := indexOf_lt_length hsep s i hi
      cases m with
      | zero => omega
      | succ m =>
        rw [genSplit_some hi, genSplit_some hi]
        have hl : (s.drop (i + sep.length)).length ≤ s.length - 1 := by
          have : 0 < sep.length := List.length_pos.mpr hsep
          simp only [List.length_drop]; omega
        rw [ih m _ (by omega) (by omega)]

theorem Split_single_cons {ch : Char} {x : Str} (hx : ch ∉ x) (y : Str) :
    Split (x ++ ch :: y) [ch] = x :: Split y [ch] := by
  unfold Split
  have hlen : (x ++ ch :: y).length = (x.length + y.length) + 1 := by simp; omega
  rw [hlen, genSplit_single hx]
  rw [genSplit_fuel (List.cons_ne_nil _ _) _ y.length y (by omega) (Nat.le_refl _)]

theorem Split_single_none {ch : Char} {x : Str} (hx : ch ∉ x) : Split x [ch] = [x] :=
  genSplit_none (indexOf_single_none x hx) _

/-- Splitting a joined list of separator-free pieces gives the pieces back. -/
theorem Split_Join_single {ch : Char} :
    ∀ xs : List Str, xs ≠ [] → (∀ x ∈ xs, ch ∉ x) → Split (Join xs [ch]) [ch] = xs := by
  intro xs
  induction xs with
  | nil => intro h; exact absurd rfl h
  | cons x rest ih =>
    intro _ hall
    cases rest with
    | nil => exact Split_single_none (hall x (List.mem_cons_self _ _))
    | cons y rest =>
      show Split (x ++ [ch] ++ Join (y :: rest) [ch]) [ch] = _
      rw [List.append_assoc, List.singleton_append,
        Split_single_cons (hall x (List.mem_cons_self _ _)),
        ih (List.cons_ne_nil _ _) (fun z hz => hall z (List.mem_cons_of_mem _ hz))]

end strings

/-! ## Lemmas on `TrimSpace` -/

namespace strings

theorem dropWhile_length_eq {p : Char → Bool} :
    ∀ l : Str, (l.dropWhile p).length = l.length → l.dropWhile p = l := by
  intro l
  cases l with
  | nil => intro _; rfl
  | cons a l =>
    intro h
    by_cases hp : p a = true
    · rw [List.dropWhile_cons_of_pos hp] at h
      have := (List.dropWhile_sublist p (l := l)).length_le
      simp only [List.length_cons] at h
      omega
    · exact List.dropWhile_cons_of_neg hp

theorem dropWhile_cons_self {p : Char → Bool} {a : Char} {l : Str}
    (h : (a :: l).dropWhile p = a :: l) : p a = false := by
  by_cases hp : p a = true
  · rw [List.dropWhile_cons_of_pos hp] at h
    have := (List.dropWhile_sublist p (l := l)).length_le
    rw [h] at this
    simp only [List.length_cons] at this
    omega
  · simpa using hp

theorem dropWhile_append_or {p : Char → Bool} (y : Str) :
    ∀ x : Str, (x.dropWhile p = [] ∧ (x ++ y).dropWhile p = y.dropWhile p) ∨
      (x.dropWhile p ≠ [] ∧ (x ++ y).dropWhile p = x.dropWhile p ++ y) := by
  intro x
  induction x with
  | nil => left; exact ⟨rfl, rfl⟩
  | cons a x ih =>
    by_cases hp : p a = true
    · simp only [List.cons_append, List.dropWhile_cons_of_pos hp]
      exact ih
    · right
      rw [List.cons_append, List.dropWhile_cons_of_neg hp, List.dropWhile_cons_of_neg hp]
      exact ⟨List.cons_ne_nil _ _, rfl⟩

theorem TrimSpace_nil : TrimSpace [] = [] := rfl

theorem TrimSpace_cons_space {ch : Char} (h : isSpace ch = true) (x : Str) :
    TrimSpace (ch :: x) = TrimSpace x := by
  unfold TrimSpace
  rw [List.dropWhile_cons_of_pos h]

theorem TrimSpace_append_space {ch : Char} (h : isSpace ch = true) (x : Str) :
    TrimSpace (x ++ [ch]) = TrimSpace x := by
  unfold TrimSpace
  rcases dropWhile_append_or (p := isSpace) [ch] x with ⟨h1, h2⟩ | ⟨_, h2⟩
  · rw [h2, h1, List.dropWhile_cons_of_pos h]
    rfl
  · rw [h2, List.reverse_append, List.reverse_singleton, List.singleton_append,
      List.dropWhile_cons_of_pos h]

theorem TrimSpace_fixed {x : Str} (h : TrimSpace x = x) :
    x.dropWhile isSpace = x ∧ x.reverse.dropWhile isSpace = x.reverse := by
  have h1 := (List.dropWhile_sublist isSpace (l := x)).length_le
  have h2 := (List.dropWhile_sublist isSpace (l := (x.dropWhile isSpace).reverse)).length_le
  have h3 : (TrimSpace x).length = x.length := by rw [h]
  unfold TrimSpace at h3
  simp only [List.length_reverse] at h2 h3
  have hx : x.dropWhile isSpace = x := dropWhile_length_eq x (by omega)
  rw [hx] at h3
  refine ⟨hx, dropWhile_length_eq _ ?_⟩
  simp only [List.length_reverse]
  exact h3

theorem TrimSpace_head {x : Str} (h : TrimSpace x = x) {a : Char} {m : Str} (hx : x = a :: m) :
    isSpace a = false := by
  have := (TrimSpace_fixed h).1
  subst hx
  exact dropWhile_cons_self this

theorem TrimSpace_last {x : Str} (h : TrimSpace x = x) {z : Char} {m : Str} (hx : x = m ++ [z]) :
    isSpace z = false := by
  have := (TrimSpace_fixed h).2
  subst hx
  rw [List.reverse_append, List.reverse_singleton, List.singleton_append] at this
  exact dropWhile_cons_self this

/-- A text whose first and last characters are not white space is its own trimming. -/
theorem TrimSpace_of_edges {a z : Char} (ha : isSpace a = false) (hz : isSpace z = false)
    {x m1 m2 : Str} (h1 : x = a :: m1) (h2 : x = m2 ++ [z]) : TrimSpace x = x := by
  unfold TrimSpace
  have e1 : x.dropWhile isSpace = x := by
    rw [h1]; exact List.dropWhile_cons_of_neg (by simp [ha])
  rw [e1]
  have e2 : x.reverse.dropWhile isSpace = x.reverse := by
    rw [h2, List.reverse_append, List.reverse_singleton, List.singleton_append]
    exact List.dropWhile_cons_of_neg (by simp [hz])
  rw [e2, List.reverse_reverse]

/-- Joining two trimmed non-empty texts around a middle part gives a trimmed text. -/
theorem TrimSpace_sandwich {x y : Str} (mid : Str) (hx : TrimSpace x = x) (hxne : x ≠ [])
    (hy : TrimSpace y = y) (hyne : y ≠ []) : TrimSpace (x ++ mid ++ y) = x ++ mid ++ y := by
  obtain ⟨a, m1, rfl⟩ := List.exists_cons_of_ne_nil hxne
  rcases List.eq_nil_or_concat y with e | ⟨m2, z, e⟩
  · exact absurd e hyne
  · rw [List.concat_eq_append] at e
    have ha := TrimSpace_head hx rfl
    have hz := TrimSpace_last hy e
    have h1 : a :: m1 ++ mid ++ y = a :: (m1 ++ mid ++ y) := by simp
    have h2 : a :: m1 ++ mid ++ y = (a :: m1 ++ mid ++ m2) ++ [z] := by rw [e]; simp
    exact TrimSpace_of_edges ha hz h1 h2

end strings

/-! ## Lemmas on `Fields`, `TrimSuffix` and the key order -/

namespace strings

theorem fieldsAux_word (s : Str) :
    ∀ (w cur : Str), (∀ ch ∈ w, isSpace ch = false) → fieldsAux cur (w ++ s) = fieldsAux (cur ++ w) s := by
  intro w
  induction w with
  | nil => intro cur _; simp
  | cons a w ih =>
    intro cur h
    have ha : isSpace a = false := h a (List.mem_cons_self _ _)
    show fieldsAux cur (a :: (w ++ s)) = _
    rw [fieldsAux]
    simp only [ha, Bool.false_eq_true, if_false]
    rw [ih _ (fun ch hch => h ch (List.mem_cons_of_mem _ hch))]
    simp

/-- A word followed by a space is the first field. -/
theorem Fields_word_space {w : Str} (hw : ∀ ch ∈ w, isSpace ch = false) (hne : w ≠ []) (s : Str) :
    Fields (w ++ ' ' :: s) = w :: Fields s := by
  unfold Fields
  rw [fieldsAux_word _ w [] hw, List.nil_append, fieldsAux]
  simp [isSpace, hne]

theorem Fields_nil : Fields [] = [] := rfl

/-- The fields of a text have no white space. -/
theorem fieldsAux_no_space :
    ∀ (s cur : Str), (∀ ch ∈ cur, isSpace ch = false) →
      ∀ f ∈ fieldsAux cur s, ∀ ch ∈ f, isSpace ch = false := by
  intro s
  induction s with
  | nil =>
    intro cur hcur f hf
    rw [fieldsAux] at hf
    by_cases h : cur = []
    · simp [h] at hf
    · simp only [h, if_false, List.mem_singleton] at hf
      subst hf; exact hcur
  | cons a s ih =>
    intro cur hcur f hf
    rw [fieldsAux] at hf
    by_cases ha : isSpace a = true
    · simp only [ha, if_true] at hf
      by_cases h : cur = []
      · simp only [h, if_true] at hf
        exact ih [] (by simp) f hf
      · simp only [h, if_false, List.mem_cons] at hf
        rcases hf with e | hf
        · subst e; exact hcur
        · exact ih [] (by simp) f hf
    · simp only [ha, if_false] at hf
      refine ih (cur ++ [a]) ?_ f hf
      intro ch hch
      rcases List.mem_append.mp hch with h | h
      · exact hcur ch h
      · rw [List.mem_singleton] at h; subst h; simpa using ha

theorem Fields_no_space (s : Str) : ∀ f ∈ Fields s, ∀ ch ∈ f, isSpace ch = false :=
  fieldsAux_no_space s [] (by simp)

theorem TrimSuffix_append_single (x : Str) (ch : Char) : TrimSuffix (x ++ [ch]) [ch] = x := by
  unfold TrimSuffix HasSuffix
  rw [List.reverse_append]
  simp [HasPrefix_cons_cons, HasPrefix_nil]

/-- A non-empty text without white space is its own trimming. -/
theorem TrimSpace_no_space {x : Str} (h : ∀ ch ∈ x, isSpace ch = false) : TrimSpace x = x := by
  rcases List.eq_nil_or_concat x with e | ⟨m2, z, e⟩
  · subst e; rfl
  · rw [List.concat_eq_append] at e
    cases hx : x with
    | nil => rfl
    | cons a m1 =>
      rw [← hx]
      exact TrimSpace_of_edges (h a (by rw [hx]; exact List.mem_cons_self _ _))
        (h z (by rw [e]; simp)) hx e

end strings

theorem char_toNat_inj {a b : Char} (h : a.toNat = b.toNat) : a = b := by
  have := congrArg Char.ofNat h
  simpa using this

namespace bolt

theorem keyLt_cons (a b : Char) (s t : Str) :
    keyLt (a :: s) (b :: t) = (decide (a.toNat < b.toNat) || (a == b && keyLt s t)) := rfl

theorem keyLt_trans : ∀ (a b c : Str), keyLt a b = true → keyLt b c = true → keyLt a c = true := by
  intro a
  induction a with
  | nil =>
    intro b c hab hbc
    cases b with
    | nil => simp [keyLt] at hab
    | cons y b =>
      cases c with
      | nil => simp [keyLt] at hbc
      | cons z c => rfl
  | cons x a ih =>
    intro b c hab hbc
    cases b with
    | nil => simp [keyLt] at hab
    | cons y b =>
      cases c with
      | nil => simp [keyLt] at hbc
      | cons z c =>
        rw [keyLt_cons] at hab hbc ⊢
        simp only [Bool.or_eq_true, decide_eq_true_eq, Bool.and_eq_true, beq_iff_eq] at hab hbc ⊢
        rcases hab with h1 | ⟨e1, h1⟩
        · rcases hbc with h2 | ⟨e2, _⟩
          · left; omega
          · left; rw [← e2]; exact h1
        · rcases hbc with h2 | ⟨e2, h2⟩
          · left; rw [e1]; exact h2
          · right; exact ⟨e1.trans e2, ih b c h1 h2⟩

theorem keyLt_total : ∀ (a b : Str), a ≠ b → keyLt a b = false → keyLt b a = true := by
  intro a
  induction a with
  | nil =>
    intro b hne h
    cases b with
    | nil => exact absurd rfl hne
    | cons y b => simp [keyLt] at h
  | cons x a ih =>
    intro b hne h
    cases b with
    | nil => rfl
    | cons y b =>
      rw [keyLt_cons] at h ⊢
      simp only [Bool.or_eq_false_iff, decide_eq_false_iff_not, Bool.and_eq_false_imp,
        beq_iff_eq] at h
      simp only [Bool.or_eq_true, decide_eq_true_eq, Bool.and_eq_true, beq_iff_eq]
      by_cases e : x = y
      · right
        subst e
        exact ⟨rfl, ih b (fun e2 => hne (by rw [e2])) (h.2 rfl)⟩
      · left
        have : x.toNat ≠ y.toNat := fun e2 => e (char_toNat_inj e2)
        omega

theorem keyLt_append_left (p : Str) (a b : Str) : keyLt (p ++ a) (p ++ b) = keyLt a b := by
  induction p with
  | nil => rfl
  | cons c p ih => simp [keyLt_cons, ih]

theorem mem_putKV {k v : Str} {p : Str × Str} :
    ∀ l : List (Str × Str), p ∈ putKV k v l → p = (k, v) ∨ p ∈ l := by
  intro l
  induction l with
  | nil => intro h; simp [putKV] at h; exact Or.inl h
  | cons q l ih =>
    obtain ⟨k1, v1⟩ := q
    intro h
    rw [putKV] at h
    by_cases e : k = k1
    · rw [if_pos e] at h
      rcases List.mem_cons.mp h with h1 | h1
      · exact Or.inl h1
      · exact Or.inr (List.mem_cons_of_mem _ h1)
    · rw [if_neg e] at h
      by_cases hlt : keyLt k k1 = true
      · rw [if_pos hlt] at h
        rcases List.mem_cons.mp h with h1 | h1
        · exact Or.inl h1
        · exact Or.inr h1
      · rw [if_neg hlt] at h
        rcases List.mem_cons.mp h with h1 | h1
        · exact Or.inr (h1 ▸ List.mem_cons_self _ _)
        · rcases ih h1 with h2 | h2
          · exact Or.inl h2
          · exact Or.inr (List.mem_cons_of_mem _ h2)

theorem mem_putKV_self (k v : Str) : ∀ l : List (Str × Str), (k, v) ∈ putKV k v l := by
  intro l
  induction l with
  | nil => simp [putKV]
  | cons q l ih =>
    obtain ⟨k1, v1⟩ := q
    rw [putKV]
    split
    · exact List.mem_cons_self _ _
    · split
      · exact List.mem_cons_self _ _
      · exact List.mem_cons_of_mem _ ih

theorem mem_putKV_of_mem {k v : Str} {p : Str × Str} (hne : p.1 ≠ k) :
    ∀ l : List (Str × Str), p ∈ l → p ∈ putKV k v l := by
  intro l
  induction l with
  | nil => intro h; simp at h
  | cons q l ih =>
    obtain ⟨k1, v1⟩ := q
    intro h
    rw [putKV]
    rcases List.mem_cons.mp h with e | h
    · subst e
      have : ¬ k = k1 := fun e => hne e.symm
      simp only [this, if_false]
      split
      · exact List.mem_cons_of_mem _ (List.mem_cons_self _ _)
      · exact List.mem_cons_self _ _
    · split
      · exact List.mem_cons_of_mem _ h
      · split
        · exact List.mem_cons_of_mem _ (List.mem_cons_of_mem _ h)
        · exact List.mem_cons_of_mem _ (ih h)

/-- `Put` keeps the pairs in strictly ascending key order. -/
theorem putKV_sorted (k v : Str) :
    ∀ l : List (Str × Str), l.Pairwise (fun p q => keyLt p.1 q.1 = true) →
      (putKV k v l).Pairwise (fun p q => keyLt p.1 q.1 = true) := by
  intro l
  induction l with
  | nil => intro _; simp [putKV]
  | cons q l ih =>
    obtain ⟨k1, v1⟩ := q
    intro h
    rw [List.pairwise_cons] at h
    rw [putKV]
    by_cases e : k = k1
    · simp only [e, if_true]
      exact List.pairwise_cons.mpr ⟨h.1, h.2⟩
    · simp only [e, if_false]
      by_cases hlt : keyLt k k1 = true
      · simp only [hlt, if_true]
        refine List.pairwise_cons.mpr ⟨?_, List.pairwise_cons.mpr h⟩
        intro p hp
        rcases List.mem_cons.mp hp with e2 | hp
        · rw [e2]; exact hlt
        · exact keyLt_trans _ _ _ hlt (h.1 p hp)
      · simp only [hlt, if_false]
        refine List.pairwise_cons.mpr ⟨?_, ih h.2⟩
        intro p hp
        rcases mem_putKV l hp with e2 | hp
        · rw [e2]
          exact keyLt_total k k1 e (by simpa using hlt)
        · exact h.1 p hp

theorem putKV_keys_perm (k v : Str) :
    ∀ l : List (Str × Str), k ∉ l.map Prod.fst →
      ((putKV k v l).map Prod.fst).Perm (k :: l.map Prod.fst) := by
  intro l
  induction l with
  | nil => intro _; simp [putKV]
  | cons q l ih =>
    obtain ⟨k1, v1⟩ := q
    intro h
    simp only [List.map_cons, List.mem_cons, not_or] at h
    rw [putKV]
    simp only [h.1, if_false]
    split
    · exact List.Perm.refl _
    · simp only [List.map_cons]
      exact ((ih h.2).cons k1).trans (List.Perm.swap _ _ _)

end bolt

/-! ## Lemmas on Go maps and on the row scan -/

theorem mapGet?_nil {β : Type} (k : Str) : mapGet? ([] : List (Str × β)) k = none := rfl

theorem mapGet?_cons {β : Type} (k k1 : Str) (v1 : β) (m : List (Str × β)) :
    mapGet? ((k1, v1) :: m) k = if k = k1 then some v1 else mapGet? m k := by
  unfold mapGet?
  by_cases h : k = k1
  · simp [List.lookup, h]
  · have : (k == k1) = false := by simpa using h
    simp [List.lookup, h, this]

theorem mapGet?_mapSet_self {β : Type} (k : Str) (v : β) :
    ∀ m : List (Str × β), mapGet? (mapSet k v m) k = some v := by
  intro m
  induction m with
  | nil => simp [mapSet, mapGet?_cons]
  | cons p m ih =>
    obtain ⟨k1, v1⟩ := p
    by_cases h : k1 = k
    · simp [mapSet, h, mapGet?_cons]
    · have h2 : k ≠ k1 := fun e => h e.symm
      simp [mapSet, h, mapGet?_cons, h2, ih]

theorem mapGet?_mapSet_ne {β : Type} {k k2 : Str} (v : β) (hne : k2 ≠ k) :
    ∀ m : List (Str × β), mapGet? (mapSet k v m) k2 = mapGet? m k2 := by
  intro m
  induction m with
  | nil => simp [mapSet, mapGet?_cons, hne, mapGet?_nil]
  | cons p m ih =>
    obtain ⟨k1, v1⟩ := p
    by_cases h : k1 = k
    · subst h; simp [mapSet, mapGet?_cons, hne]
    · simp [mapSet, h, mapGet?_cons, ih]

theorem map_fst_mapSet {β : Type} (k : Str) (v : β) :
    ∀ m : List (Str × β), (mapSet k v m).map Prod.fst =
      if k ∈ m.map Prod.fst then m.map Prod.fst else m.map Prod.fst ++ [k] := by
  intro m
  induction m with
  | nil => simp [mapSet]
  | cons p m ih =>
    obtain ⟨k1, v1⟩ := p
    by_cases h : k1 = k
    · subst h; simp only [mapSet, if_true, List.map_cons, List.mem_cons, true_or]
    · have h2 : k ≠ k1 := fun e => h e.symm
      simp only [mapSet, h, if_false, List.map_cons, ih, List.mem_cons, h2, false_or]
      split <;> rfl

theorem mapGet?_mem {β : Type} {k : Str} {v : β} :
    ∀ m : List (Str × β), mapGet? m k = some v → (k, v) ∈ m := by
  intro m
  induction m with
  | nil => intro h; simp [mapGet?_nil] at h
  | cons p m ih =>
    obtain ⟨k1, v1⟩ := p
    intro h
    rw [mapGet?_cons] at h
    by_cases hk : k = k1
    · simp [hk] at h; subst h; subst hk; exact List.mem_cons_self _ _
    · simp [hk] at h; exact List.mem_cons_of_mem _ (ih h)

theorem mapGet?_of_mem {β : Type} {k : Str} {v : β} :
    ∀ m : List (Str × β), (m.map Prod.fst).Nodup → (k, v) ∈ m → mapGet? m k = some v := by
  intro m
  induction m with
  | nil => intro _ h; simp at h
  | cons p m ih =>
    obtain ⟨k1, v1⟩ := p
    intro hnd h
    rw [mapGet?_cons]
    simp only [List.map_cons, List.nodup_cons] at hnd
    rcases List.mem_cons.mp h with h1 | h2
    · cases h1; simp
    · have hne : k ≠ k1 := by
        intro e
        exact hnd.1 (List.mem_map.mpr ⟨(k, v), h2, e ▸ rfl⟩)
      rw [if_neg hne]
      exact ih hnd.2 h2

theorem mapGet?_isSome_iff {β : Type} (k : Str) :
    ∀ m : List (Str × β), (mapGet? m k).isSome = true ↔ k ∈ m.map Prod.fst := by
  intro m
  induction m with
  | nil => simp [mapGet?_nil]
  | cons p m ih =>
    obtain ⟨k1, v1⟩ := p
    rw [mapGet?_cons]
    by_cases hk : k = k1
    · simp only [hk, if_true, Option.isSome_some, List.map_cons, List.mem_cons, true_or]
    · simp only [hk, if_false, ih, List.map_cons, List.mem_cons, false_or]

theorem scanStep_eq (sel : List Str) (rows : Rows) (k v : Str) :
    scanStep sel rows k v =
      match keyCell k with
      | some (id, col) =>
        if col ∈ sel then mapSet id (mapSet col v ((mapGet? rows id).getD [])) rows else rows
      | none => rows := by
  unfold scanStep keyCell
  by_cases hp : HasPrefix k "col:".toList = true
  · simp only [hp, Bool.not_true, if_true]
    rfl
  · simp only [hp, Bool.not_eq_true] at hp ⊢
    simp only [hp, Bool.not_false, if_true]
    split <;> simp_all

/-- One step of the scan changes the cell it decodes from the key, if that column is
selected, and no other. -/
theorem cellGet_scanStep (sel : List Str) (rows : Rows) (k v id col : Str) :
    cellGet (scanStep sel rows k v) id col =
      if keyCell k = some (id, col) ∧ col ∈ sel then some v else cellGet rows id col := by
  rw [scanStep_eq]
  cases hk : keyCell k with
  | none => simp
  | some c =>
    obtain ⟨id1, col1⟩ := c
    by_cases hsel : col1 ∈ sel
    · simp only [hsel, if_true]
      by_cases hid : id = id1
      · subst hid
        by_cases hcol : col = col1
        · subst hcol
          simp [cellGet, mapGet?_mapSet_self, hsel]
        · have : ¬ (some (id, col1) = some (id, col) ∧ col ∈ sel) := by
            intro h; simp at h; exact hcol h.1.symm
          simp only [this, if_false]
          simp only [cellGet, mapGet?_mapSet_self, mapGet?_mapSet_ne v hcol]
          cases mapGet? rows id <;> simp [mapGet?_nil]
      · have : ¬ (some (id1, col1) = some (id, col) ∧ col ∈ sel) := by
          intro h; simp at h; exact hid h.1.1.symm
        simp only [this, if_false]
        simp only [cellGet, mapGet?_mapSet_ne _ hid]
    · have : ¬ (some (id1, col1) = some (id, col) ∧ col ∈ sel) := by
        intro h; simp at h; exact hsel (h.1.2 ▸ h.2)
      simp only [hsel, this, if_false]

/-- One step of the scan adds the row id it decodes from the key, if that column is selected. -/
theorem ids_scanStep (sel : List Str) (rows : Rows) (k v : Str) :
    (scanStep sel rows k v).map Prod.fst =
      match keyCell k with
      | some (id, col) =>
        if col ∈ sel ∧ id ∉ rows.map Prod.fst then rows.map Prod.fst ++ [id]
        else rows.map Prod.fst
      | none => rows.map Prod.fst := by
  rw [scanStep_eq]
  cases hk : keyCell k with
  | none => simp
  | some c =>
    obtain ⟨id1, col1⟩ := c
    by_cases hsel : col1 ∈ sel
    · simp only [hsel, if_true, map_fst_mapSet, true_and]
      by_cases hm : id1 ∈ rows.map Prod.fst <;> simp [hm]
    · simp [hsel]

theorem ids_scan_nodup (sel : List Str) :
    ∀ (kvs : List (Str × Str)) (rows : Rows), (rows.map Prod.fst).Nodup →
      ((kvs.foldl (fun rows p => scanStep sel rows p.1 p.2) rows).map Prod.fst).Nodup := by
  intro kvs
  induction kvs with
  | nil => intro rows h; exact h
  | cons p kvs ih =>
    intro rows h
    rw [List.foldl_cons]
    apply ih
    rw [ids_scanStep]
    cases hk : keyCell p.1 with
    | none => exact h
    | some c =>
      obtain ⟨id, col⟩ := c
      show (if col ∈ sel ∧ id ∉ rows.map Prod.fst then rows.map Prod.fst ++ [id]
        else rows.map Prod.fst).Nodup
      split
      · next hc =>
        rw [List.nodup_append]
        refine ⟨h, List.nodup_singleton _, ?_⟩
        intro a ha hb
        rw [List.mem_singleton] at hb
        exact hc.2 (hb ▸ ha)
      · exact h

theorem ids_scan_mem (sel : List Str) (id : Str) :
    ∀ (kvs : List (Str × Str)) (rows : Rows),
      id ∈ (kvs.foldl (fun rows p => scanStep sel rows p.1 p.2) rows).map Prod.fst ↔
        id ∈ rows.map Prod.fst ∨
          ∃ p ∈ kvs, ∃ col, keyCell p.1 = some (id, col) ∧ col ∈ sel := by
  intro kvs
  induction kvs with
  | nil => intro rows; simp
  | cons p kvs ih =>
    intro rows
    rw [List.foldl_cons, ih, ids_scanStep]
    constructor
    · rintro (h | ⟨q, hq, col, hk, hc⟩)
      · cases hk : keyCell p.1 with
        | none => rw [hk] at h; exact Or.inl h
        | some c =>
          obtain ⟨id1, col1⟩ := c
          rw [hk] at h
          by_cases hc : col1 ∈ sel ∧ id1 ∉ rows.map Prod.fst
          · simp only [hc, and_self, not_false_eq_true, if_true, List.mem_append,
              List.mem_singleton] at h
            rcases h with h | h
            · exact Or.inl h
            · subst h
              exact Or.inr ⟨p, List.mem_cons_self _ _, col1, hk, hc.1⟩
          · simp only [hc, if_false] at h
            exact Or.inl h
      · exact Or.inr ⟨q, List.mem_cons_of_mem _ hq, col, hk, hc⟩
    · rintro (h | ⟨q, hq, col, hk, hc⟩)
      · left
        cases hk : keyCell p.1 with
        | none => exact h
        | some c =>
          obtain ⟨id1, col1⟩ := c
          show id ∈ (if col1 ∈ sel ∧ id1 ∉ rows.map Prod.fst then rows.map Prod.fst ++ [id1]
            else rows.map Prod.fst)
          split
          · exact List.mem_append_left _ h
          · exact h
      · rcases List.mem_cons.mp hq with e | hq
        · subst e
          left
          rw [hk]
          show id ∈ (if col ∈ sel ∧ id ∉ rows.map Prod.fst then rows.map Prod.fst ++ [id]
            else rows.map Prod.fst)
          by_cases hm : id ∈ rows.map Prod.fst
          · simp only [hm, not_true_eq_false, and_false, if_false]
          · simp only [hc, hm, not_false_eq_true, and_self, if_true, List.mem_append,
              List.mem_singleton, or_true]
        · exact Or.inr ⟨q, hq, col, hk, hc⟩

theorem cellGet_scan_sound (sel : List Str) (id col val : Str) :
    ∀ (kvs : List (Str × Str)) (rows : Rows),
      cellGet (kvs.foldl (fun rows p => scanStep sel rows p.1 p.2) rows) id col = some val →
        cellGet rows id col = some val ∨
          ∃ p ∈ kvs, keyCell p.1 = some (id, col) ∧ col ∈ sel ∧ p.2 = val := by
  intro kvs
  induction kvs with
  | nil => intro rows h; exact Or.inl h
  | cons p kvs ih =>
    intro rows h
    rw [List.foldl_cons] at h
    rcases ih _ h with h1 | ⟨q, hq, hk, hc, hv⟩
    · rw [cellGet_scanStep] at h1
      by_cases hc : keyCell p.1 = some (id, col) ∧ col ∈ sel
      · rw [if_pos hc] at h1
        exact Or.inr ⟨p, List.mem_cons_self _ _, hc.1, hc.2, Option.some.inj h1⟩
      · rw [if_neg hc] at h1
        exact Or.inl h1
    · exact Or.inr ⟨q, List.mem_cons_of_mem _ hq, hk, hc, hv⟩

theorem cellGet_scan_complete (sel : List Str) (id col : Str) :
    ∀ (kvs : List (Str × Str)) (rows : Rows),
      ((cellGet rows id col).isSome = true ∨
          ∃ p ∈ kvs, keyCell p.1 = some (id, col) ∧ col ∈ sel) →
        (cellGet (kvs.foldl (fun rows p => scanStep sel rows p.1 p.2) rows) id col).isSome
          = true := by
  intro kvs
  induction kvs with
  | nil =>
    intro rows h
    rcases h with h | ⟨q, hq, _⟩
    · exact h
    · simp at hq
  | cons p kvs ih =>
    intro rows h
    rw [List.foldl_cons]
    apply ih
    rw [cellGet_scanStep]
    by_cases hc : keyCell p.1 = some (id, col) ∧ col ∈ sel
    · left; rw [if_pos hc]; rfl
    · rw [if_neg hc]
      rcases h with h | ⟨q, hq, hk, hs⟩
      · exact Or.inl h
      · rcases List.mem_cons.mp hq with e | hq
        · subst e; exact absurd ⟨hk, hs⟩ hc
        · exact Or.inr ⟨q, hq, hk, hs⟩

theorem cellGet_of_mem {rows : Rows} {id col val : Str} {row : List (Str × Str)}
    (hnd : (rows.map Prod.fst).Nodup) (hrow : (id, row) ∈ rows)
    (hval : mapGet? row col = some val) : cellGet rows id col = some val := by
  unfold cellGet
  rw [mapGet?_of_mem rows hnd hrow]
  exact hval

theorem filterRows_nil (rows : Rows) : filterRows rows [] = rows := by
  simp [filterRows]

theorem filterRows_sublist (rows : Rows) (w : Str) : (filterRows rows w).Sublist rows := by
  unfold filterRows
  split
  · exact List.Sublist.refl _
  · exact List.filter_sublist _

/-! ## Parsing of the statement shapes -/

theorem index_cons_zero {α : Type} (a : α) (l : List α) : index (a :: l) 0 = some a := rfl

theorem index_cons_succ {α : Type} (a : α) (l : List α) (n : Nat) :
    index (a :: l) (n + 1) = index l n := rfl

theorem index_nil {α : Type} (n : Nat) : index ([] : List α) n = none := rfl

theorem SplitN_two_single {ch : Char} {x : Str} (hx : ch ∉ x) (y : Str) :
    SplitN (x ++ ch :: y) [ch] 2 = [x, y] := by
  show genSplit [ch] 1 (x ++ ch :: y) = _
  rw [genSplit_single hx]
  rfl

theorem txSetBucket_eq_mapSet (name : Str) (b : Bucket) :
    ∀ db : DB, txSetBucket name b db = mapSet name b db := by
  intro db
  induction db with
  | nil => rfl
  | cons p db ih =>
    obtain ⟨n, b1⟩ := p
    simp only [txSetBucket, mapSet, ih]

theorem txBucket_txSetBucket (name : Str) (b : Bucket) (db : DB) :
    txBucket (txSetBucket name b db) name = some b := by
  rw [txSetBucket_eq_mapSet]
  exact mapGet?_mapSet_self name b db

theorem Fields_three_words {w1 w2 t : Str} (h1 : ∀ ch ∈ w1, isSpace ch = false) (n1 : w1 ≠ [])
    (h2 : ∀ ch ∈ w2, isSpace ch = false) (n2 : w2 ≠ [])
    (ht : ∀ ch ∈ t, isSpace ch = false) (nt : t ≠ []) :
    Fields (w1 ++ ' ' :: (w2 ++ ' ' :: (t ++ [' ']))) = [w1, w2, t] := by
  rw [Fields_word_space h1 n1, Fields_word_space h2 n2, Fields_word_space ht nt, Fields_nil]

theorem createTable_stmt (db : DB) (t : Str) (ds : List Str) (ht : tableToken t) :
    createTable (some db) (createTableStmt t ds) =
      match createTableTx t (Split (Join ds ",".toList) ",".toList) db with
      | none => none
      | some db1 => some (some db1, .line ("Table ".toList ++ t ++ " created".toList)) := by
  have e : createTableStmt t ds =
      ("CREATE".toList ++ ' ' :: ("TABLE".toList ++ ' ' :: (t ++ [' ']))) ++
        '(' :: (Join ds ",".toList ++ [')']) := by
    simp [createTableStmt]
  have hp : '(' ∉ ("CREATE".toList ++ ' ' :: ("TABLE".toList ++ ' ' :: (t ++ [' ']))) := by
    have := ht.2.2.1
    simp [this]
  have hf : Fields ("CREATE".toList ++ ' ' :: ("TABLE".toList ++ ' ' :: (t ++ [' ']))) =
      ["CREATE".toList, "TABLE".toList, t] :=
    Fields_three_words (by decide) (by decide) (by decide) (by decide) ht.2.1 ht.1
  have hs : SplitN (createTableStmt t ds) "(".toList 2 =
      ["CREATE".toList ++ ' ' :: ("TABLE".toList ++ ' ' :: (t ++ [' '])),
        Join ds ",".toList ++ [')']] := by
    rw [e]; exact SplitN_two_single hp _
  have hts : TrimSuffix (Join ds ",".toList ++ [')']) ")".toList = Join ds ",".toList :=
    TrimSuffix_append_single _ _
  unfold createTable
  simp only [hs, index_cons_zero, index_cons_succ, hf, hts]
  rfl

theorem SplitN_FROM_selectAll (t : Str) :
    SplitN (selectAllStmt t) "FROM".toList 2 = ["SELECT * ".toList, ' ' :: t] := by
  have hA : (' ' : Char) ∉ "FROM".toList := by decide
  have hne : "FROM".toList ≠ [] := by decide
  have e : selectAllStmt t =
      "SELECT".toList ++ ' ' :: ("*".toList ++ ' ' :: ("FROM".toList ++ ' ' :: t)) := by
    simp [selectAllStmt]
  have i1 : indexOf "FROM".toList (selectAllStmt t) = some 9 := by
    rw [e, indexOf_append_cons hA hne _ _ (by decide),
      indexOf_append_cons hA hne _ _ (by decide),
      indexOf_of_HasPrefix (HasPrefix_append_self _ _)]
    rfl
  show genSplit "FROM".toList 1 (selectAllStmt t) = _
  rw [genSplit_some i1]
  simp [selectAllStmt, genSplit]

theorem parseSelectQuery_selectAll (t : Str) (ht : tableToken t) :
    parseSelectQuery (selectAllStmt t) = some (["*".toList], t, []) := by
  have ht1 : TrimSpace (' ' :: t) = t := by
    rw [TrimSpace_cons_space (by decide), TrimSpace_no_space ht.2.1]
  have hc : (Split (TrimSpace "* ".toList) ",".toList).map TrimSpace = ["*".toList] := by decide
  have hs : sliceFrom "SELECT * ".toList 7 = some "* ".toList := by decide
  unfold parseSelectQuery
  simp only [SplitN_FROM_selectAll, index_cons_zero, index_cons_succ, hs, ht1, hc, ht.2.2.2]
  rfl

/-! ## SELECT with a conjunctive filter -/

theorem indexOf_AND_equality {c v : Str} (hc : indexOf "AND".toList c = none)
    (hv : indexOf "AND".toList v = none) :
    indexOf "AND".toList (c ++ " = ".toList ++ v) = none := by
  have e : c ++ " = ".toList ++ v = c ++ ' ' :: (['='] ++ ' ' :: v) := by simp
  have hA : (' ' : Char) ∉ "AND".toList := by decide
  have hne : "AND".toList ≠ [] := by decide
  rw [e, indexOf_append_cons hA hne _ c hc,
    indexOf_append_cons hA hne _ ['='] (by decide), hv]
  rfl

theorem Split_whereAnd {c v c2 v2 : Str} (hc : whereOperand c) (hv : whereOperand v)
    (hc2 : whereOperand c2) (hv2 : whereOperand v2) :
    Split (whereAnd c v c2 v2) "AND".toList =
      [c ++ " = ".toList ++ v ++ [' '], ' ' :: (c2 ++ " = ".toList ++ v2)] := by
  have hA : (' ' : Char) ∉ "AND".toList := by decide
  have hne : "AND".toList ≠ [] := by decide
  have n1 : indexOf "AND".toList (c ++ " = ".toList ++ v) = none :=
    indexOf_AND_equality (by simpa [Contains] using hc.2.2) (by simpa [Contains] using hv.2.2)
  have n2 : indexOf "AND".toList (c2 ++ " = ".toList ++ v2) = none :=
    indexOf_AND_equality (by simpa [Contains] using hc2.2.2) (by simpa [Contains] using hv2.2.2)
  have e : whereAnd c v c2 v2 =
      (c ++ " = ".toList ++ v) ++ ' ' :: ("AND".toList ++ ' ' :: (c2 ++ " = ".toList ++ v2)) := by
    simp [whereAnd]
  have i1 : indexOf "AND".toList (whereAnd c v c2 v2) =
      some ((c ++ " = ".toList ++ v).length + 1) := by
    rw [e, indexOf_append_cons hA hne _ _ n1]
    have : indexOf "AND".toList ("AND".toList ++ ' ' :: (c2 ++ " = ".toList ++ v2)) = some 0 :=
      indexOf_of_HasPrefix (HasPrefix_append_self _ _)
    rw [this]
    simp
  have i2 : indexOf "AND".toList (' ' :: (c2 ++ " = ".toList ++ v2)) = none := by
    have := indexOf_append_cons hA hne (c2 ++ " = ".toList ++ v2) [] (by decide)
    rw [List.nil_append] at this
    rw [this, n2]
    rfl
  unfold Split
  have hlen : (whereAnd c v c2 v2).length = ((whereAnd c v c2 v2).length - 1) + 1 := by
    have : 0 < (whereAnd c v c2 v2).length := by rw [e]; simp
    omega
  rw [hlen, genSplit_some i1]
  have t1 : (whereAnd c v c2 v2).take ((c ++ " = ".toList ++ v).length + 1) =
      c ++ " = ".toList ++ v ++ [' '] := by
    rw [e]
    have : (c ++ " = ".toList ++ v) ++ ' ' :: ("AND".toList ++ ' ' :: (c2 ++ " = ".toList ++ v2))
        = (c ++ " = ".toList ++ v ++ [' ']) ++
          ("AND".toList ++ ' ' :: (c2 ++ " = ".toList ++ v2)) := by simp
    rw [this]
    have hl : (c ++ " = ".toList ++ v).length + 1 = (c ++ " = ".toList ++ v ++ [' ']).length := by
      simp only [List.length_append, List.length_cons, List.length_nil]
    rw [hl, List.take_left]
  have t2 : (whereAnd c v c2 v2).drop ((c ++ " = ".toList ++ v).length + 1 + "AND".toList.length)
      = ' ' :: (c2 ++ " = ".toList ++ v2) := by
    rw [e]
    have : (c ++ " = ".toList ++ v) ++ ' ' :: ("AND".toList ++ ' ' :: (c2 ++ " = ".toList ++ v2))
        = (c ++ " = ".toList ++ v ++ [' '] ++ "AND".toList) ++
          (' ' :: (c2 ++ " = ".toList ++ v2)) := by simp
    rw [this]
    have hl : (c ++ " = ".toList ++ v).length + 1 + "AND".toList.length =
        (c ++ " = ".toList ++ v ++ [' '] ++ "AND".toList).length := by
      simp only [List.length_append, List.length_cons, List.length_nil]
    rw [hl, List.drop_left]
  rw [t1, t2, genSplit_none i2]

/-- A condition that trims to `c = v` compares the row cell at `c` with `v`. -/
theorem matchRow_equality {c v cond : Str} (row : List (Str × Str)) (rest : List Str)
    (hcond : TrimSpace cond = c ++ " = ".toList ++ v) (heq : '=' ∉ c)
    (hc : TrimSpace c = c) (hv : TrimSpace v = v) :
    matchRow row (cond :: rest) = (decide (rowGet row c = v) && matchRow row rest) := by
  have e : c ++ " = ".toList ++ v = (c ++ [' ']) ++ '=' :: (' ' :: v) := by simp
  have hs : SplitN (TrimSpace cond) "=".toList 2 = [c ++ [' '], ' ' :: v] := by
    rw [hcond, e]
    show genSplit ['='] 1 _ = _
    rw [genSplit_single (by simpa using heq)]
    rfl
  have t1 : TrimSpace (c ++ [' ']) = c := by rw [TrimSpace_append_space (by decide), hc]
  have t2 : TrimSpace (' ' :: v) = v := by rw [TrimSpace_cons_space (by decide), hv]
  rw [matchRow, hs]
  simp only [t1, t2]
  by_cases h : rowGet row c = v <;> simp [h]

theorem whereAnd_ne_nil (c v c2 v2 : Str) : whereAnd c v c2 v2 ≠ [] := by
  intro h
  have : (whereAnd c v c2 v2).length = 0 := by rw [h]; rfl
  simp [whereAnd] at this

theorem rowGet_eq_some {row : List (Str × Str)} {c v : Str} (h : rowGet row c = v)
    (hv : v ≠ []) : mapGet? row c = some v := by
  unfold rowGet at h
  cases hg : mapGet? row c with
  | none => rw [hg] at h; exact absurd h.symm hv
  | some w => rw [hg] at h; exact congrArg some h

/-- C4 (counterexample): a conjunct with an empty literal is passed by a row that has no
projected cell in that column, and a literal that contains the letters `AND` is cut there.
After `INSERT INTO t (a,b) VALUES (1,2)`, the statement `SELECT a FROM t WHERE a = 1 AND b =`
renders row 1, whose stored cell at `b` is `2`; after `INSERT INTO t (a,b) VALUES (BR,2)`,
`SELECT a,b FROM t WHERE a = BRANDY AND b = 2` renders row 2, whose stored cell at `a` is
`BR`. -/
theorem selectFromTable_conjunctive_filter_unsound :
    mainLoop freshSession
      ["CREATE DATABASE d".toList, "CREATE TABLE t (a,b)".toList,
       "INSERT INTO t (a,b) VALUES (1,2)".toList, "SELECT a FROM t WHERE a = 1 AND b =".toList,
       "INSERT INTO t (a,b) VALUES (BR,2)".toList,
       "SELECT a,b FROM t WHERE a = BRANDY AND b = 2".toList] =
    some ({ files := [("d".toList, [("t".toList,
              Bucket.mk [("1:a".toList, "1".toList), ("1:b".toList, "2".toList),
                ("2:a".toList, "BR".toList), ("2:b".toList, "2".toList),
                ("col:a".toList, "a".toList), ("col:b".toList, "b".toList)] 2)])],
            currentDB := some "d".toList },
      [.line "Database d created and selected".toList, .line "Table t created".toList,
       .line "Record inserted into table t".toList, .table ["a".toList] [["1".toList]],
       .line "Record inserted into table t".toList,
       .table ["a".toList, "b".toList] [["BR".toList, "2".toList]]]) := by
  decide

/-- C4 (amended): for every table state, every projection list and every WHERE clause
`c = v AND c2 = v2` whose column names and literals are non-empty, have no surrounding white
space and do not contain `AND`, the names being free of `=`: `selectFromTable` renders the
headers and a list of lines, and every rendered line is the line of a satisfying row id.  That
is, there is a row id `id` with a stored data key decoding to `id` and column `c` with value
`v`, and one decoding to `id` and column `c2` with value `v2`, such that the line has one cell
per header, the cell under a header `c` is `v`, the cell under a header `c2` is `v2`, and the
cell under each header `h` is the value of a stored data key decoding to `id` and `h`, or is
empty when no stored key decodes to `id` and `h`. -/
theorem selectFromTable_conjunctive_filter_sound
    (db : DB) (query : Str) (columns : List Str) (tableName : Str) (b : Bucket)
    (c v c2 v2 : Str)
    (hq : parseSelectQuery query = some (columns, tableName, whereAnd c v c2 v2))
    (hb : txBucket db tableName = some b)
    (hc : whereOperand c) (hv : whereOperand v) (hc2 : whereOperand c2) (hv2 : whereOperand v2)
    (hceq : '=' ∉ c) (hc2eq : '=' ∉ c2) :
    ∃ data : List (List Str),
      selectFromTable (some db) query =
        some (some db, .table (selectHeaders columns (allHeaders b)) data) ∧
      ∀ line ∈ data, ∃ id : Str,
        (∃ k, (k, v) ∈ b.kvs ∧ keyCell k = some (id, c)) ∧
        (∃ k, (k, v2) ∈ b.kvs ∧ keyCell k = some (id, c2)) ∧
        List.Forall₂
          (fun h cell =>
            (h = c → cell = v) ∧ (h = c2 → cell = v2) ∧
            ((∃ k, (k, cell) ∈ b.kvs ∧ keyCell k = some (id, h)) ∨
              (cell = [] ∧ ∀ p ∈ b.kvs, keyCell p.1 ≠ some (id, h))))
          (selectHeaders columns (allHeaders b)) line := by
  refine ⟨(selectRows b columns (whereAnd c v c2 v2)).map
    (fun r => (selectHeaders columns (allHeaders b)).map (rowGet r.2)), ?_, ?_⟩
  · simp only [selectFromTable, hq, hb, selectView]
  · intro line hline
    obtain ⟨r, hr, rfl⟩ := List.mem_map.mp hline
    unfold selectRows filterRows at hr
    rw [if_neg (whereAnd_ne_nil c v c2 v2), List.mem_filter, Split_whereAnd hc hv hc2 hv2] at hr
    obtain ⟨hmem, hmatch⟩ := hr
    have m1 : TrimSpace (c ++ " = ".toList ++ v ++ [' ']) = c ++ " = ".toList ++ v := by
      rw [TrimSpace_append_space (by decide)]
      exact TrimSpace_sandwich _ hc.2.1 hc.1 hv.2.1 hv.1
    have m2 : TrimSpace (' ' :: (c2 ++ " = ".toList ++ v2)) = c2 ++ " = ".toList ++ v2 := by
      rw [TrimSpace_cons_space (by decide)]
      exact TrimSpace_sandwich _ hc2.2.1 hc2.1 hv2.2.1 hv2.1
    rw [matchRow_equality r.2 _ m1 hceq hc.2.1 hv.2.1,
      matchRow_equality r.2 _ m2 hc2eq hc2.2.1 hv2.2.1] at hmatch
    simp only [Bool.and_eq_true, decide_eq_true_eq] at hmatch
    have hnd := ids_scan_nodup (selectHeaders columns (allHeaders b)) b.kvs [] List.nodup_nil
    have hrow : mapGet? (scanRows (selectHeaders columns (allHeaders b)) b) r.1 = some r.2 :=
      mapGet?_of_mem _ hnd hmem
    have key : ∀ col val, mapGet? r.2 col = some val →
        ∃ k, (k, val) ∈ b.kvs ∧ keyCell k = some (r.1, col) := by
      intro col val hg
      have hcell : cellGet (scanRows (selectHeaders columns (allHeaders b)) b) r.1 col = some val :=
        cellGet_of_mem hnd hmem hg
      rcases cellGet_scan_sound _ _ _ _ b.kvs [] hcell with h0 | ⟨p, hp, hk, _, hval⟩
      · simp [cellGet, mapGet?_nil] at h0
      · exact ⟨p.1, by rw [← hval]; exact hp, hk⟩
    refine ⟨r.1, key c v (rowGet_eq_some hmatch.1 hv.1), key c2 v2 (rowGet_eq_some hmatch.2.1 hv2.1),
      ?_⟩
    rw [List.forall₂_map_right_iff, List.forall₂_same]
    intro h hsel
    refine ⟨fun e => by rw [e]; exact hmatch.1, fun e => by rw [e]; exact hmatch.2.1, ?_⟩
    cases hg : mapGet? r.2 h with
    | some val =>
      left
      have e : rowGet r.2 h = val := by unfold rowGet; rw [hg]; rfl
      rw [e]
      exact key h val hg
    | none =>
      right
      refine ⟨by unfold rowGet; rw [hg]; rfl, ?_⟩
      intro p hp hk
      have hsome := cellGet_scan_complete (selectHeaders columns (allHeaders b)) r.1 h b.kvs []
        (Or.inr ⟨p, hp, hk, hsel⟩)
      have hcell : cellGet (scanRows (selectHeaders columns (allHeaders b)) b) r.1 h = none := by
        unfold cellGet
        rw [hrow]
        exact hg
      unfold scanRows at hcell
      rw [hcell] at hsome
      exact absurd hsome (by simp)

/-- C4 (witness): the amended statement at `SELECT name,age FROM users WHERE name = Alice AND
age = 30` on the `users` table. -/
theorem selectFromTable_conjunctive_filter_sound_witness :
    ∃ data : List (List Str),
      selectFromTable (some usersDB)
          "SELECT name,age FROM users WHERE name = Alice AND age = 30".toList =
        some (some usersDB,
          .table (selectHeaders ["name".toList, "age".toList] (allHeaders usersBucket)) data) ∧
      ∀ line ∈ data, ∃ id : Str,
        (∃ k, (k, "Alice".toList) ∈ usersBucket.kvs ∧ keyCell k = some (id, "name".toList)) ∧
        (∃ k, (k, "30".toList) ∈ usersBucket.kvs ∧ keyCell k = some (id, "age".toList)) ∧
        List.Forall₂
          (fun h cell =>
            (h = "name".toList → cell = "Alice".toList) ∧
            (h = "age".toList → cell = "30".toList) ∧
            ((∃ k, (k, cell) ∈ usersBucket.kvs ∧ keyCell k = some (id, h)) ∨
              (cell = [] ∧ ∀ p ∈ usersBucket.kvs, keyCell p.1 ≠ some (id, h))))
          (selectHeaders ["name".toList, "age".toList] (allHeaders usersBucket)) line :=
  selectFromTable_conjunctive_filter_sound usersDB
    "SELECT name,age FROM users WHERE name = Alice AND age = 30".toList
    ["name".toList, "age".toList] "users".toList usersBucket
    "name".toList "Alice".toList "age".toList "30".toList
    (by decide) (by decide) (by decide) (by decide) (by decide) (by decide) (by decide)
    (by decide)

/-! ## SELECT without a WHERE clause -/

/-- C5 (counterexample): a row id with a stored cell gets no output row when none of its
cells is in a selected column.  After `CREATE TABLE t (a,b)`, `INSERT INTO t (a) VALUES (x)`
and `INSERT INTO t (b) VALUES (y)` the bucket holds the keys `1:a` and `2:b`, and
`SELECT a FROM t` renders one row only, that of row id 1. -/
theorem selectFromTable_without_where_skips_row :
    mainLoop freshSession
      ["CREATE DATABASE d".toList, "CREATE TABLE t (a,b)".toList,
       "INSERT INTO t (a) VALUES (x)".toList, "INSERT INTO t (b) VALUES (y)".toList,
       "SELECT a FROM t".toList] =
    some ({ files := [("d".toList, [("t".toList,
              Bucket.mk [("1:a".toList, "x".toList), ("2:b".toList, "y".toList),
                ("col:a".toList, "a".toList), ("col:b".toList, "b".toList)] 2)])],
            currentDB := some "d".toList },
      [.line "Database d created and selected".toList, .line "Table t created".toList,
       .line "Record inserted into table t".toList, .line "Record inserted into table t".toList,
       .table ["a".toList] [["x".toList]]]) := by
  decide

/-- C5 (amended): for every table state and every projection list, `selectFromTable` on a
statement without a WHERE clause renders the header list and exactly one output row for each
row id that has at least one data key whose column is among the headers: the rendered rows are
the image of a list of materialized rows whose ids are pairwise distinct and are exactly the
ids decoded from such keys. -/
theorem selectFromTable_without_where_one_row_per_selected_id
    (db : DB) (query : Str) (columns : List Str) (tableName : Str) (b : Bucket)
    (hq : parseSelectQuery query = some (columns, tableName, []))
    (hb : txBucket db tableName = some b) :
    ∃ rows : Rows,
      selectFromTable (some db) query =
        some (some db, .table (selectHeaders columns (allHeaders b))
          (rows.map (fun r => (selectHeaders columns (allHeaders b)).map (rowGet r.2)))) ∧
      (rows.map Prod.fst).Nodup ∧
      ∀ id, id ∈ rows.map Prod.fst ↔
        ∃ k v col, (k, v) ∈ b.kvs ∧ keyCell k = some (id, col) ∧
          col ∈ selectHeaders columns (allHeaders b) := by
  refine ⟨scanRows (selectHeaders columns (allHeaders b)) b, ?_, ?_, ?_⟩
  · simp only [selectFromTable, hq, hb, selectView, selectRows, filterRows_nil]
  · exact ids_scan_nodup _ b.kvs [] List.nodup_nil
  · intro id
    unfold scanRows
    rw [ids_scan_mem]
    constructor
    · rintro (h | ⟨p, hp, col, hk, hc⟩)
      · simp at h
      · exact ⟨p.1, p.2, col, hp, hk, hc⟩
    · rintro ⟨k, v, col, hp, hk, hc⟩
      exact Or.inr ⟨(k, v), hp, col, hk, hc⟩

/-- C5 (witness): the amended statement at `SELECT name FROM users` on the `users` table. -/
theorem selectFromTable_without_where_one_row_per_selected_id_witness :
    ∃ rows : Rows,
      selectFromTable (some usersDB) "SELECT name FROM users".toList =
        some (some usersDB, .table (selectHeaders ["name".toList] (allHeaders usersBucket))
          (rows.map (fun r =>
            (selectHeaders ["name".toList] (allHeaders usersBucket)).map (rowGet r.2)))) ∧
      (rows.map Prod.fst).Nodup ∧
      ∀ id, id ∈ rows.map Prod.fst ↔
        ∃ k v col, (k, v) ∈ usersBucket.kvs ∧ keyCell k = some (id, col) ∧
          col ∈ selectHeaders ["name".toList] (allHeaders usersBucket) :=
  selectFromTable_without_where_one_row_per_selected_id usersDB "SELECT name FROM users".toList
    ["name".toList] "users".toList usersBucket (by decide) (by decide)

/-! ## CREATE TABLE and the header list of `SELECT *` -/

theorem createTableLoop_eq :
    ∀ (ds : List Str) (b : Bucket), (∀ d ∈ ds, Fields (TrimSpace d) ≠ []) →
      createTableLoop b ds =
        some (ds.foldl (fun b d => b.Put ("col:".toList ++ columnName d) d) b) := by
  intro ds
  induction ds with
  | nil => intro b _; rfl
  | cons d ds ih =>
    intro b h
    have hd := h d (List.mem_cons_self _ _)
    obtain ⟨f, fs, hf⟩ := List.exists_cons_of_ne_nil hd
    rw [createTableLoop]
    have hn : columnName d = f := by simp [columnName, hf]
    simp only [hf, index_cons_zero]
    rw [ih _ (fun d1 h1 => h d1 (List.mem_cons_of_mem _ h1)), List.foldl_cons, hn]

theorem foldl_Put_kvs (key : Str → Str) :
    ∀ (ds : List Str) (b : Bucket),
      (ds.foldl (fun b d => b.Put (key d) d) b).kvs =
        ds.foldl (fun l d => putKV (key d) d l) b.kvs := by
  intro ds
  induction ds with
  | nil => intro b; rfl
  | cons d ds ih => intro b; rw [List.foldl_cons, ih, List.foldl_cons]; rfl

theorem foldl_putKV_sorted (key : Str → Str) :
    ∀ (ds : List Str) (l : List (Str × Str)), l.Pairwise (fun p q => keyLt p.1 q.1 = true) →
      (ds.foldl (fun l d => putKV (key d) d l) l).Pairwise (fun p q => keyLt p.1 q.1 = true) := by
  intro ds
  induction ds with
  | nil => intro l h; exact h
  | cons d ds ih => intro l h; exact ih _ (putKV_sorted _ _ l h)

theorem foldl_putKV_keys_perm (key : Str → Str) :
    ∀ (ds : List Str) (l : List (Str × Str)), (ds.map key).Nodup →
      (∀ d ∈ ds, key d ∉ l.map Prod.fst) →
      ((ds.foldl (fun l d => putKV (key d) d l) l).map Prod.fst).Perm
        (l.map Prod.fst ++ ds.map key) := by
  intro ds
  induction ds with
  | nil => intro l _ _; simp
  | cons d ds ih =>
    intro l hnd hfresh
    rw [List.map_cons, List.nodup_cons] at hnd
    have hd : key d ∉ l.map Prod.fst := hfresh d (List.mem_cons_self _ _)
    have hp := putKV_keys_perm (key d) d l hd
    rw [List.foldl_cons]
    refine (ih (putKV (key d) d l) hnd.2 ?_).trans ?_
    · intro d1 h1 hm
      rcases List.mem_cons.mp (hp.mem_iff.mp hm) with e | hm
      · exact hnd.1 (e ▸ List.mem_map_of_mem key h1)
      · exact hfresh d1 (List.mem_cons_of_mem _ h1) hm
    · rw [List.map_cons]
      exact (hp.append_right _).trans (List.perm_middle.symm)

theorem allHeaders_of_schema_keys (b : Bucket)
    (h : ∀ p ∈ b.kvs, ∃ n, p.1 = "col:".toList ++ n) :
    allHeaders b = b.kvs.map (fun p => p.1.drop 4) ∧ scanRows (allHeaders b) b = [] := by
  obtain ⟨l, sq⟩ := b
  simp only at h
  constructor
  · unfold allHeaders
    show l.filterMap _ = l.map _
    induction l with
    | nil => rfl
    | cons p l ih =>
      obtain ⟨n, hn⟩ := h p (List.mem_cons_self _ _)
      have hpre : HasPrefix p.1 "col:".toList = true := by rw [hn]; exact HasPrefix_append_self _ _
      rw [List.filterMap_cons, List.map_cons, ih (fun q hq => h q (List.mem_cons_of_mem _ hq))]
      simp only [hpre, if_true, TrimPrefix]
      rfl
  · unfold scanRows
    show l.foldl _ [] = []
    generalize allHeaders { kvs := l, sequence := sq } = sel
    induction l with
    | nil => rfl
    | cons p l ih =>
      obtain ⟨n, hn⟩ := h p (List.mem_cons_self _ _)
      have hpre : HasPrefix p.1 "col:".toList = true := by rw [hn]; exact HasPrefix_append_self _ _
      rw [List.foldl_cons]
      have : scanStep sel [] p.1 p.2 = [] := by
        rw [scanStep_eq]
        have : keyCell p.1 = none := by unfold keyCell; rw [if_pos hpre]
        rw [this]
      rw [this]
      exact ih (fun q hq => h q (List.mem_cons_of_mem _ hq))

/-- C7 (counterexample): the header list of `SELECT *` comes from the iteration of the bucket,
which is in byte order of the keys `col:<name>`; after `CREATE TABLE users (name text, age
text)` the statement `SELECT * FROM users` renders the headers `age, name`. -/
theorem select_star_headers_not_in_declaration_order :
    mainLoop freshSession
      ["CREATE DATABASE d".toList, "CREATE TABLE users (name text, age text)".toList,
       "SELECT * FROM users".toList] =
    some ({ files := [("d".toList, [("users".toList,
              Bucket.mk [("col:age".toList, " age text".toList),
                ("col:name".toList, "name text".toList)] 0)])],
            currentDB := some "d".toList },
      [.line "Database d created and selected".toList, .line "Table users created".toList,
       .table ["age".toList, "name".toList] []]) := by
  decide

/-- C7 (amended): for every `CREATE TABLE t (d1,..,dn)` (n ≥ 1, comma-free definitions that
each have a column name, the names pairwise distinct) executed on a database without table
`t`, the statement succeeds and `SELECT * FROM t` then renders no row and a header list that
holds exactly the declared column names, in ascending byte order of the names (the iteration
order of the bucket), not in declaration order. -/
theorem createTable_select_star_headers_sorted
    (db : DB) (t : Str) (ds : List Str)
    (ht : tableToken t) (hds : ds ≠ []) (hcomma : ∀ d ∈ ds, ',' ∉ d)
    (hname : ∀ d ∈ ds, Fields (TrimSpace d) ≠ [])
    (hnd : (ds.map columnName).Nodup) (habs : txBucket db t = none) :
    ∃ db1 hs,
      createTable (some db) (createTableStmt t ds) =
        some (some db1, .line ("Table ".toList ++ t ++ " created".toList)) ∧
      selectFromTable (some db1) (selectAllStmt t) = some (some db1, .table hs []) ∧
      hs.Perm (ds.map columnName) ∧
      hs.Pairwise (fun a b => keyLt a b = true) := by
  let key : Str → Str := fun d => "col:".toList ++ columnName d
  let b0 : Bucket := { kvs := [], sequence := 0 }
  let b1 : Bucket := ds.foldl (fun b d => b.Put (key d) d) b0
  have hkvs : b1.kvs = ds.foldl (fun l d => putKV (key d) d l) [] := foldl_Put_kvs key ds b0
  have hkeynd : (ds.map key).Nodup := by
    have := hnd.map (List.append_right_injective "col:".toList)
    rwa [List.map_map] at this
  have hperm : (b1.kvs.map Prod.fst).Perm (ds.map key) := by
    rw [hkvs]
    have := foldl_putKV_keys_perm key ds [] hkeynd (by simp)
    simpa using this
  have hsorted : b1.kvs.Pairwise (fun p q => keyLt p.1 q.1 = true) := by
    rw [hkvs]
    exact foldl_putKV_sorted key ds [] List.Pairwise.nil
  have hform : ∀ p ∈ b1.kvs, ∃ n, p.1 = "col:".toList ++ n := by
    intro p hp
    have := hperm.mem_iff.mp (List.mem_map_of_mem Prod.fst hp)
    obtain ⟨d, _, hd⟩ := List.mem_map.mp this
    exact ⟨columnName d, hd.symm⟩
  obtain ⟨hall, hscan⟩ := allHeaders_of_schema_keys b1 hform
  have htx : createTableTx t ds db = some (txSetBucket t b1 db) := by
    unfold createTableTx txCreateBucketIfNotExists
    rw [habs]
    show (match createTableLoop b0 ds with
      | none => none
      | some b => some (txSetBucket t b db)) = _
    rw [createTableLoop_eq ds b0 hname]
  refine ⟨txSetBucket t b1 db, allHeaders b1, ?_, ?_, ?_, ?_⟩
  · have hsp : Split (Join ds ",".toList) ",".toList = ds := Split_Join_single ds hds hcomma
    rw [createTable_stmt db t ds ht, hsp, htx]
  · unfold selectFromTable
    simp only [parseSelectQuery_selectAll t ht, txBucket_txSetBucket, selectView, selectRows,
      filterRows_nil]
    have hsel : selectHeaders ["*".toList] (allHeaders b1) = allHeaders b1 := by
      simp [selectHeaders]
    rw [hsel, hscan]
    rfl
  · rw [hall]
    have h1 : b1.kvs.map (fun p => p.1.drop 4) = (b1.kvs.map Prod.fst).map (List.drop 4) := by
      rw [List.map_map]; rfl
    have h2 : ds.map columnName = (ds.map key).map (List.drop 4) := by
      rw [List.map_map]
      apply List.map_congr_left
      intro d _
      show columnName d = List.drop 4 ("col:".toList ++ columnName d)
      rfl
    rw [h1, h2]
    exact hperm.map _
  · rw [hall, List.pairwise_map]
    refine hsorted.imp_of_mem ?_
    intro p q hp hq hlt
    obtain ⟨n1, e1⟩ := hform p hp
    obtain ⟨n2, e2⟩ := hform q hq
    rw [e1, e2] at hlt ⊢
    rw [keyLt_append_left] at hlt
    exact hlt

/-- C7 (witness): the amended statement at `CREATE TABLE users (name text, age text)` on an
empty database. -/
theorem createTable_select_star_headers_sorted_witness :
    ∃ db1 hs,
      createTable (some [])
          (createTableStmt "users".toList ["name text".toList, " age text".toList]) =
        some (some db1, .line ("Table ".toList ++ "users".toList ++ " created".toList)) ∧
      selectFromTable (some db1) (selectAllStmt "users".toList) =
        some (some db1, .table hs []) ∧
      hs.Perm (["name text".toList, " age text".toList].map columnName) ∧
      hs.Pairwise (fun a b => keyLt a b = true) :=
  createTable_select_star_headers_sorted [] "users".toList
    ["name text".toList, " age text".toList]
    (by decide) (by decide) (by decide) (by decide) (by decide) (by decide)

/-! ## Decimal numerals -/

theorem digitChar_isDigit (m : Nat) (h : m < 10) : (Nat.digitChar m).isDigit = true := by
  interval_cases m <;> rfl

theorem digitChar_value (m : Nat) (h : m < 10) : (Nat.digitChar m).toNat - 48 = m := by
  interval_cases m <;> rfl

theorem toDigitsCore_isDigit :
    ∀ (fuel n : Nat) (ds : List Char), (∀ c ∈ ds, c.isDigit = true) →
      ∀ c ∈ Nat.toDigitsCore 10 fuel n ds, c.isDigit = true := by
  intro fuel
  induction fuel with
  | zero => intro n ds h; simpa [Nat.toDigitsCore] using h
  | succ fuel ih =>
    intro n ds h
    have hd : ∀ c ∈ Nat.digitChar (n % 10) :: ds, c.isDigit = true := by
      intro c hc
      rcases List.mem_cons.mp hc with e | hc
      · rw [e]; exact digitChar_isDigit _ (Nat.mod_lt _ (by decide))
      · exact h c hc
    rw [Nat.toDigitsCore]
    split
    · exact hd
    · exact ih _ _ hd

theorem itoa_isDigit (n : Nat) : ∀ c ∈ itoa n, c.isDigit = true :=
  toDigitsCore_isDigit _ _ [] (by simp)

/-- Reading a decimal numeral back. -/
theorem toDigitsCore_value :
    ∀ (fuel n : Nat) (ds : List Char), n < fuel →
      (Nat.toDigitsCore 10 fuel n ds).foldl (fun acc c => acc * 10 + (c.toNat - 48)) 0 =
        ds.foldl (fun acc c => acc * 10 + (c.toNat - 48)) n := by
  intro fuel
  induction fuel with
  | zero => intro n ds h; omega
  | succ fuel ih =>
    intro n ds h
    rw [Nat.toDigitsCore]
    have hv := digitChar_value (n % 10) (Nat.mod_lt _ (by decide))
    split
    · next h0 =>
      rw [List.foldl_cons, hv]
      have : n % 10 = n := by omega
      simp [this]
    · next h0 =>
      rw [ih (n / 10) _ (by omega), List.foldl_cons, hv]
      have : n / 10 * 10 + n % 10 = n := by omega
      rw [this]

theorem itoa_injective {n m : Nat} (h : itoa n = itoa m) : n = m := by
  have hn := toDigitsCore_value (n + 1) n [] (by omega)
  have hm := toDigitsCore_value (m + 1) m [] (by omega)
  have e : Nat.toDigitsCore 10 (n + 1) n [] = Nat.toDigitsCore 10 (m + 1) m [] := h
  rw [e, hm] at hn
  simpa using hn.symm

theorem itoa_no_colon (n : Nat) : ':' ∉ itoa n := by
  intro h
  have := itoa_isDigit n _ h
  exact absurd this (by decide)

/-- A data key written by INSERT or UPDATE does not start with `col:`. -/
theorem HasPrefix_itoa_key (n : Nat) (rest : Str) :
    HasPrefix (itoa n ++ ':' :: rest) "col:".toList = false := by
  cases h : itoa n with
  | nil => rfl
  | cons a s =>
    have ha : a.isDigit = true := itoa_isDigit n a (by rw [h]; exact List.mem_cons_self _ _)
    have : a ≠ 'c' := by
      intro e
      rw [e] at ha
      exact absurd ha (by decide)
    show HasPrefix (a :: (s ++ ':' :: rest)) ('c' :: "ol:".toList) = false
    rw [HasPrefix_cons_cons]
    simp [this]

theorem genSplit_ne_nil (sep : Str) : ∀ (n : Nat) (s : Str), genSplit sep n s ≠ [] := by
  intro n s
  cases n with
  | zero => simp [genSplit]
  | succ n =>
    rw [genSplit]
    split <;> simp

/-- The scans decode the row id of a data key `<n>:<rest>` as the numeral of `n`. -/
theorem keyCell_itoa_key (n : Nat) (rest : Str) :
    ∃ col, keyCell (itoa n ++ ':' :: rest) = some (itoa n, col) := by
  unfold keyCell
  have hs : Split (itoa n ++ ':' :: rest) ":".toList = itoa n :: Split rest ":".toList :=
    Split_single_cons (itoa_no_colon n) rest
  rw [HasPrefix_itoa_key, hs]
  cases h : Split rest ":".toList with
  | nil => exact absurd h (genSplit_ne_nil _ _ _)
  | cons col tl => exact ⟨col, rfl⟩

theorem keyCell_itoa_key_plain (n : Nat) {c : Str} (hc : ':' ∉ c) :
    keyCell (itoa n ++ ':' :: c) = some (itoa n, c) := by
  unfold keyCell
  have hs : Split (itoa n ++ ':' :: c) ":".toList = itoa n :: Split c ":".toList :=
    Split_single_cons (itoa_no_colon n) c
  have hc2 : Split c ":".toList = [c] := Split_single_none hc
  rw [HasPrefix_itoa_key, hs, hc2]
  rfl

/-! ## The key-shape invariant of reachable databases -/

theorem createTable_inv {db db1 : DB} {query : Str} {out : Output}
    (h : createTable (some db) query = some (some db1, out)) :
    db1 = db ∨ ∃ name cols b1,
      createTableLoop (txCreateBucketIfNotExists db name) cols = some b1 ∧
      db1 = txSetBucket name b1 db := by
  unfold createTable at h
  simp only at h
  split at h
  · simp only [Option.some.injEq, Prod.mk.injEq] at h
    exact Or.inl h.1.symm
  · split at h
    · split at h
      · exact absurd h (by simp)
      · next tableName _ =>
        unfold createTableTx at h
        split at h
        · exact absurd h (by simp)
        · next db2 hdb2 =>
          split at hdb2
          · exact absurd hdb2 (by simp)
          · next b1 hb1 =>
            simp only [Option.some.injEq, Prod.mk.injEq] at h hdb2
            exact Or.inr ⟨_, _, b1, hb1, by rw [← h.1, ← hdb2]⟩
    · exact absurd h (by simp)

theorem insertIntoTable_inv {db db1 : DB} {query : Str} {out : Output}
    (h : insertIntoTable (some db) query = some (some db1, out)) :
    db1 = db ∨ ∃ name cols vals b b1,
      txBucket db name = some b ∧
      insertLoop (b.NextSequence).2 vals (b.NextSequence).1 0 cols = some b1 ∧
      db1 = txSetBucket name b1 db := by
  unfold insertIntoTable at h
  simp only at h
  split at h
  · simp only [Option.some.injEq, Prod.mk.injEq] at h
    exact Or.inl h.1.symm
  · split at h
    · split at h
      · exact absurd h (by simp)
      · next tableName _ =>
        split at h
        · split at h
          · exact absurd h (by simp)
          · split at h
            · exact absurd h (by simp)
            · simp only [Option.some.injEq, Prod.mk.injEq] at h
              exact Or.inl h.1.symm
            · next db2 hdb2 =>
              unfold insertTx at hdb2
              split at hdb2
              · exact absurd hdb2 (by simp)
              · next b hb =>
                split at hdb2
                · exact absurd hdb2 (by simp)
                · next b1 hb1 =>
                  simp only [Option.some.injEq, Prod.mk.injEq, Except.ok.injEq] at h hdb2
                  exact Or.inr ⟨_, _, _, b, b1, hb, hb1, by rw [← h.1, ← hdb2]⟩
        · exact absurd h (by simp)
    · exact absurd h (by simp)

theorem updateTable_inv {db db1 : DB} {query : Str} {out : Output}
    (h : updateTable (some db) query = some (some db1, out)) :
    db1 = db ∨ ∃ name cond sc sv b b1,
      txBucket db name = some b ∧ updateLoop cond sc sv b b.kvs = some b1 ∧
      db1 = txSetBucket name b1 db := by
  unfold updateTable at h
  simp only at h
  split at h
  · split at h
    · exact absurd h (by simp)
    · split at h
      · split at h
        · exact absurd h (by simp)
        · split at h
          · simp only [Option.some.injEq, Prod.mk.injEq] at h
            exact Or.inl h.1.symm
          · next b hb =>
            split at h
            · exact absurd h (by simp)
            · next b1 hb1 =>
              simp only [Option.some.injEq, Prod.mk.injEq] at h
              exact Or.inr ⟨_, _, _, _, b, b1, hb, hb1, h.1.symm⟩
      · exact absurd h (by simp)
  · exact absurd h (by simp)

theorem deleteFromTable_inv {db db1 : DB} {query : Str} {out : Output}
    (h : deleteFromTable (some db) query = some (some db1, out)) :
    db1 = db ∨ ∃ name cond b b1,
      txBucket db name = some b ∧ deleteLoop cond b b.kvs = some b1 ∧
      db1 = txSetBucket name b1 db := by
  unfold deleteFromTable at h
  simp only at h
  split at h
  · exact absurd h (by simp)
  · split at h
    · exact absurd h (by simp)
    · split at h
      · exact absurd h (by simp)
      · split at h
        · simp only [Option.some.injEq, Prod.mk.injEq] at h
          exact Or.inl h.1.symm
        · next b hb =>
          split at h
          · exact absurd h (by simp)
          · next b1 hb1 =>
            simp only [Option.some.injEq, Prod.mk.injEq] at h
            exact Or.inr ⟨_, _, b, b1, hb, hb1, h.1.symm⟩

theorem keyShape_mono {s s1 : Nat} (h : s ≤ s1) {k : Str} (hk : keyShape s k) : keyShape s1 k := by
  rcases hk with h1 | ⟨n, rest, h1, h2, h3⟩
  · exact Or.inl h1
  · exact Or.inr ⟨n, rest, h1, Nat.le_trans h2 h, h3⟩

theorem KeyInv_Put {b : Bucket} (hb : KeyInv b) {k : Str} (hk : keyShape b.sequence k) (v : Str) :
    KeyInv (b.Put k v) := by
  intro p hp
  rcases mem_putKV b.kvs hp with e | hp
  · rw [e]; exact hk
  · exact hb p hp

theorem KeyInv_Delete {b : Bucket} (hb : KeyInv b) (k : Str) : KeyInv (b.Delete k) := by
  intro p hp
  exact hb p (List.mem_filter.mp hp).1

theorem createTableLoop_KeyInv :
    ∀ (ds : List Str) (b b1 : Bucket), KeyInv b → createTableLoop b ds = some b1 → KeyInv b1 := by
  intro ds
  induction ds with
  | nil =>
    intro b b1 hb h
    rw [createTableLoop] at h
    cases h; exact hb
  | cons d ds ih =>
    intro b b1 hb h
    rw [createTableLoop] at h
    split at h
    · exact absurd h (by simp)
    · next colName hcol =>
      refine ih _ b1 (KeyInv_Put hb (Or.inl ⟨colName, rfl, ?_⟩) d) h
      have hmem : colName ∈ Fields (TrimSpace d) := by
        cases hf : Fields (TrimSpace d) with
        | nil => rw [hf] at hcol; exact absurd hcol (by simp [index_nil])
        | cons f fs =>
          rw [hf, index_cons_zero] at hcol
          cases hcol
          exact List.mem_cons_self _ _
      exact Fields_no_space _ colName hmem

theorem insertLoop_KeyInv (id : Nat) (vals : List Str) (h1 : 1 ≤ id) :
    ∀ (cols : List Str) (b : Bucket) (i : Nat) (b1 : Bucket), KeyInv b → id ≤ b.sequence →
      insertLoop id vals b i cols = some b1 → KeyInv b1 := by
  intro cols
  induction cols with
  | nil =>
    intro b i b1 hb _ h
    rw [insertLoop] at h
    cases h; exact hb
  | cons c cols ih =>
    intro b i b1 hb hid h
    rw [insertLoop] at h
    split at h
    · exact absurd h (by simp)
    · next value _ =>
      refine ih _ _ b1 (KeyInv_Put hb (Or.inr ⟨id, TrimSpace c, h1, hid, ?_⟩) _) hid h
      simp

theorem index_Split_itoa_key (n : Nat) (rest : Str) :
    index (Split (itoa n ++ ':' :: rest) ":".toList) 0 = some (itoa n) := by
  have hs : Split (itoa n ++ ':' :: rest) ":".toList = itoa n :: Split rest ":".toList :=
    Split_single_cons (itoa_no_colon n) rest
  rw [hs, index_cons_zero]

theorem updateLoop_KeyInv (cond sc sv : Str) :
    ∀ (l : List (Str × Str)) (b b1 : Bucket), KeyInv b →
      (∀ p ∈ l, keyShape b.sequence p.1) →
      updateLoop cond sc sv b l = some b1 → KeyInv b1 := by
  intro l
  induction l with
  | nil =>
    intro b b1 hb _ h
    rw [updateLoop] at h
    cases h; exact hb
  | cons p l ih =>
    obtain ⟨k, v⟩ := p
    intro b b1 hb hl h
    have hl2 : ∀ q ∈ l, keyShape b.sequence q.1 := fun q hq => hl q (List.mem_cons_of_mem _ hq)
    rw [updateLoop] at h
    split at h
    · next hpre =>
      simp only at h
      split at h
      · next id col hid _ =>
        split at h
        · refine ih _ b1 (KeyInv_Put hb ?_ sv) hl2 h
          rcases hl (k, v) (List.mem_cons_self _ _) with ⟨n, hn, _⟩ | ⟨n, rest, hn1, hn2, hn3⟩
          · simp only at hn
            rw [hn, HasPrefix_append_self] at hpre
            exact absurd hpre (by simp)
          · simp only at hn3
            rw [hn3, index_Split_itoa_key] at hid
            cases hid
            exact Or.inr ⟨n, sc, hn1, hn2, by simp⟩
        · exact ih b b1 hb hl2 h
      · exact absurd h (by simp)
    · exact ih b b1 hb hl2 h

theorem deleteLoop_KeyInv (cond : Str) :
    ∀ (l : List (Str × Str)) (b b1 : Bucket), KeyInv b →
      deleteLoop cond b l = some b1 → KeyInv b1 := by
  intro l
  induction l with
  | nil =>
    intro b b1 hb h
    rw [deleteLoop] at h
    cases h; exact hb
  | cons p l ih =>
    obtain ⟨k, v⟩ := p
    intro b b1 hb h
    rw [deleteLoop] at h
    split at h
    · simp only at h
      split at h
      · split at h
        · exact ih _ b1 (KeyInv_Delete hb k) h
        · exact ih b b1 hb h
      · exact absurd h (by simp)
    · exact ih b b1 hb h

theorem mem_txSetBucket {name : Str} {b : Bucket} {p : Str × Bucket} :
    ∀ db : DB, p ∈ txSetBucket name b db → p = (name, b) ∨ p ∈ db := by
  intro db
  induction db with
  | nil => intro h; simp [txSetBucket] at h; exact Or.inl h
  | cons q db ih =>
    obtain ⟨n, b0⟩ := q
    intro h
    rw [txSetBucket] at h
    split at h
    · next e =>
      rcases List.mem_cons.mp h with h1 | h1
      · left; rw [h1, e]
      · exact Or.inr (List.mem_cons_of_mem _ h1)
    · rcases List.mem_cons.mp h with h1 | h1
      · exact Or.inr (h1 ▸ List.mem_cons_self _ _)
      · rcases ih h1 with h2 | h2
        · exact Or.inl h2
        · exact Or.inr (List.mem_cons_of_mem _ h2)

theorem txBucket_mem {db : DB} {name : Str} {b : Bucket} (h : txBucket db name = some b) :
    (name, b) ∈ db := mapGet?_mem db h

/-- Every bucket of a reachable database has keys of the two shapes only. -/
theorem Reachable_KeyInv {db : DB} (h : Reachable db) : ∀ p ∈ db, KeyInv p.2 := by
  induction h with
  | empty => intro p hp; simp at hp
  | create _ hrun ih =>
    rcases createTable_inv hrun with e | ⟨name, cols, b1, hloop, e⟩
    · rw [e]; exact ih
    · intro p hp
      rw [e] at hp
      rcases mem_txSetBucket _ hp with e1 | hp
      · rw [e1]
        refine createTableLoop_KeyInv cols _ b1 ?_ hloop
        unfold txCreateBucketIfNotExists
        split
        · next b hb => exact ih _ (txBucket_mem hb)
        · intro q hq; simp at hq
      · exact ih p hp
  | insert _ hseq hrun ih =>
    rcases insertIntoTable_inv hrun with e | ⟨name, cols, vals, b, b1, hb, hloop, e⟩
    · rw [e]; exact ih
    · intro p hp
      rw [e] at hp
      rcases mem_txSetBucket _ hp with e1 | hp
      · rw [e1]
        have hlt : b.sequence + 1 < 2 ^ 64 := hseq _ (txBucket_mem hb)
        have hid : (b.NextSequence).2 = b.sequence + 1 := Nat.mod_eq_of_lt hlt
        have hsq : (b.NextSequence).1.sequence = b.sequence + 1 := Nat.mod_eq_of_lt hlt
        rw [hid] at hloop
        refine insertLoop_KeyInv _ vals (by omega) cols _ 0 b1 ?_ (by rw [hsq]) hloop
        intro q hq
        have hq1 : keyShape b.sequence q.1 := ih _ (txBucket_mem hb) q hq
        exact keyShape_mono (by rw [hsq]; omega) hq1
      · exact ih p hp
  | update _ hrun ih =>
    rcases updateTable_inv hrun with e | ⟨name, cond, sc, sv, b, b1, hb, hloop, e⟩
    · rw [e]; exact ih
    · intro p hp
      rw [e] at hp
      rcases mem_txSetBucket _ hp with e1 | hp
      · rw [e1]
        exact updateLoop_KeyInv cond sc sv b.kvs b b1 (ih _ (txBucket_mem hb))
          (ih _ (txBucket_mem hb)) hloop
      · exact ih p hp
  | delete _ hrun ih =>
    rcases deleteFromTable_inv hrun with e | ⟨name, cond, b, b1, hb, hloop, e⟩
    · rw [e]; exact ih
    · intro p hp
      rw [e] at hp
      rcases mem_txSetBucket _ hp with e1 | hp
      · rw [e1]
        exact deleteLoop_KeyInv cond b.kvs b b1 (ih _ (txBucket_mem hb)) hloop
      · exact ih p hp

/-! ## The table names of reachable databases -/

theorem indexOf_single_take {ch : Char} :
    ∀ (s : Str) (m : Nat), indexOf [ch] s = some m → ch ∉ s.take m := by
  intro s
  induction s with
  | nil => intro m h; simp [indexOf] at h
  | cons a s ih =>
    intro m h
    rw [indexOf_cons] at h
    by_cases hp : HasPrefix (a :: s) [ch] = true
    · rw [if_pos hp] at h
      cases h
      simp
    · rw [if_neg hp] at h
      cases hi : indexOf [ch] s with
      | none => rw [hi] at h; exact absurd h (by simp)
      | some i =>
        rw [hi] at h
        simp only [Option.map_some', Option.some.injEq] at h
        subst h
        rw [List.take_succ_cons]
        intro hm
        rcases List.mem_cons.mp hm with e | hm
        · rw [HasPrefix_cons_cons, HasPrefix_nil] at hp
          simp only [Bool.and_true, beq_iff_eq] at hp
          exact hp e.symm
        · exact ih i hi hm

/-- The fields of a text are non-empty and made of characters of the text. -/
theorem fieldsAux_chars :
    ∀ (s cur : Str), ∀ f ∈ fieldsAux cur s, f ≠ [] ∧ ∀ ch ∈ f, ch ∈ cur ∨ ch ∈ s := by
  intro s
  induction s with
  | nil =>
    intro cur f hf
    rw [fieldsAux] at hf
    by_cases h : cur = []
    · simp [h] at hf
    · simp only [h, if_false, List.mem_singleton] at hf
      subst hf
      exact ⟨h, fun ch hch => Or.inl hch⟩
  | cons a s ih =>
    intro cur f hf
    rw [fieldsAux] at hf
    by_cases ha : isSpace a = true
    · simp only [ha, if_true] at hf
      by_cases h : cur = []
      · simp only [h, if_true] at hf
        obtain ⟨h1, h2⟩ := ih [] f hf
        refine ⟨h1, fun ch hch => ?_⟩
        rcases h2 ch hch with h3 | h3
        · simp at h3
        · exact Or.inr (List.mem_cons_of_mem _ h3)
      · simp only [h, if_false, List.mem_cons] at hf
        rcases hf with e | hf
        · subst e; exact ⟨h, fun ch hch => Or.inl hch⟩
        · obtain ⟨h1, h2⟩ := ih [] f hf
          refine ⟨h1, fun ch hch => ?_⟩
          rcases h2 ch hch with h3 | h3
          · simp at h3
          · exact Or.inr (List.mem_cons_of_mem _ h3)
    · simp only [ha, if_false] at hf
      obtain ⟨h1, h2⟩ := ih (cur ++ [a]) f hf
      refine ⟨h1, fun ch hch => ?_⟩
      rcases h2 ch hch with h3 | h3
      · rcases List.mem_append.mp h3 with h4 | h4
        · exact Or.inl h4
        · rw [List.mem_singleton] at h4
          exact Or.inr (h4 ▸ List.mem_cons_self _ _)
      · exact Or.inr (List.mem_cons_of_mem _ h3)

theorem index_mem {α : Type} {xs : List α} {i : Nat} {x : α} (h : index xs i = some x) :
    x ∈ xs := by
  unfold index at h
  exact List.get?_mem h

/-- A table name that `createTable` writes is non-empty and has no white space and no `(`. -/
theorem createTable_inv_name {db db1 : DB} {query : Str} {out : Output}
    (h : createTable (some db) query = some (some db1, out)) :
    db1 = db ∨ ∃ name b1, db1 = txSetBucket name b1 db ∧
      name ≠ [] ∧ (∀ ch ∈ name, isSpace ch = false) ∧ '(' ∉ name := by
  unfold createTable at h
  simp only at h
  split at h
  · simp only [Option.some.injEq, Prod.mk.injEq] at h
    exact Or.inl h.1.symm
  · split at h
    · next p0 p1 hp0 hp1 =>
      split at h
      · exact absurd h (by simp)
      · next tableName htn =>
        unfold createTableTx at h
        split at h
        · exact absurd h (by simp)
        · next db2 hdb2 =>
          split at hdb2
          · exact absurd hdb2 (by simp)
          · next b1 hb1 =>
            simp only [Option.some.injEq, Prod.mk.injEq] at h hdb2
            refine Or.inr ⟨tableName, b1, by rw [← h.1, ← hdb2], ?_⟩
            have hmem : tableName ∈ Fields p0 := index_mem htn
            have hch := fieldsAux_chars p0 [] tableName hmem
            refine ⟨hch.1, Fields_no_space p0 tableName hmem, ?_⟩
            intro hparen
            have hin : '(' ∈ p0 := by
              rcases hch.2 _ hparen with h3 | h3
              · simp at h3
              · exact h3
            have hsplit : SplitN query "(".toList 2 = genSplit ['('] 1 query := rfl
            rw [hsplit] at hp0 hp1
            cases hi : indexOf ['('] query with
            | none =>
              rw [genSplit_none hi, index_cons_succ, index_nil] at hp1
              exact absurd hp1 (by simp)
            | some m =>
              rw [genSplit_some hi, index_cons_zero] at hp0
              cases hp0
              exact indexOf_single_take query m hi hin
    · exact absurd h (by simp)

theorem Reachable_names {db : DB} (h : Reachable db) :
    ∀ p ∈ db, p.1 ≠ [] ∧ (∀ ch ∈ p.1, isSpace ch = false) ∧ '(' ∉ p.1 := by
  induction h with
  | empty => intro p hp; simp at hp
  | create _ hrun ih =>
    rcases createTable_inv_name hrun with e | ⟨name, b1, e, hname⟩
    · rw [e]; exact ih
    · intro p hp
      rw [e] at hp
      rcases mem_txSetBucket _ hp with e1 | hp
      · rw [e1]; exact hname
      · exact ih p hp
  | insert _ _ hrun ih =>
    rcases insertIntoTable_inv hrun with e | ⟨name, _, _, b, b1, hb, _, e⟩
    · rw [e]; exact ih
    · intro p hp
      rw [e] at hp
      rcases mem_txSetBucket _ hp with e1 | hp
      · rw [e1]; exact ih (name, b) (txBucket_mem hb)
      · exact ih p hp
  | update _ hrun ih =>
    rcases updateTable_inv hrun with e | ⟨name, _, _, _, b, b1, hb, _, e⟩
    · rw [e]; exact ih
    · intro p hp
      rw [e] at hp
      rcases mem_txSetBucket _ hp with e1 | hp
      · rw [e1]; exact ih (name, b) (txBucket_mem hb)
      · exact ih p hp
  | delete _ hrun ih =>
    rcases deleteFromTable_inv hrun with e | ⟨name, _, b, b1, hb, _, e⟩
    · rw [e]; exact ih
    · intro p hp
      rw [e] at hp
      rcases mem_txSetBucket _ hp with e1 | hp
      · rw [e1]; exact ih (name, b) (txBucket_mem hb)
      · exact ih p hp

/-! ## INSERT: parsing and the written cells -/

theorem not_mem_Join {ch : Char} {sep : Str} (hsep : ch ∉ sep) :
    ∀ xs : List Str, (∀ x ∈ xs, ch ∉ x) → ch ∉ Join xs sep := by
  intro xs
  induction xs with
  | nil => intro _; simp [Join]
  | cons x rest ih =>
    intro h
    cases rest with
    | nil => exact h x (List.mem_cons_self _ _)
    | cons y rest =>
      show ch ∉ x ++ sep ++ Join (y :: rest) sep
      intro hm
      rcases List.mem_append.mp hm with hm | hm
      · rcases List.mem_append.mp hm with hm | hm
        · exact h x (List.mem_cons_self _ _) hm
        · exact hsep hm
      · exact ih (fun z hz => h z (List.mem_cons_of_mem _ hz)) hm

theorem insertIntoTable_stmt (db : DB) (t : Str) (cs vs : List Str) (ht : tableToken t)
    (hcs : ∀ c ∈ cs, plainText c) (hvs : ∀ v ∈ vs, plainText v) (hcs0 : cs ≠ [])
    (hvs0 : vs ≠ []) :
    insertIntoTable (some db) (insertStmt t cs vs) =
      match insertTx t cs vs db with
      | none => none
      | some (.error e) => some (some db, .line ("Error inserting into table: ".toList ++ e))
      | some (.ok db1) =>
        some (some db1, .line ("Record inserted into table ".toList ++ t)) := by
  have e : insertStmt t cs vs =
      ("INSERT".toList ++ ' ' :: ("INTO".toList ++ ' ' :: (t ++ [' ']))) ++
        '(' :: (Join cs ",".toList ++
          ')' :: (" VALUES ".toList ++ '(' :: (Join vs ",".toList ++ [')']))) := by
    simp [insertStmt]
  have hp : '(' ∉ ("INSERT".toList ++ ' ' :: ("INTO".toList ++ ' ' :: (t ++ [' ']))) := by
    have := ht.2.2.1
    simp [this]
  have hs1 : SplitN (insertStmt t cs vs) "(".toList 2 =
      ["INSERT".toList ++ ' ' :: ("INTO".toList ++ ' ' :: (t ++ [' '])),
        Join cs ",".toList ++
          ')' :: (" VALUES ".toList ++ '(' :: (Join vs ",".toList ++ [')']))] := by
    rw [e]; exact SplitN_two_single hp _
  have hj : ')' ∉ Join cs ",".toList :=
    not_mem_Join (by decide) cs (fun c hc => (hcs c hc).2.2.1)
  have hs2 : SplitN (Join cs ",".toList ++
        ')' :: (" VALUES ".toList ++ '(' :: (Join vs ",".toList ++ [')']))) ")".toList 2 =
      [Join cs ",".toList, " VALUES ".toList ++ '(' :: (Join vs ",".toList ++ [')'])] :=
    SplitN_two_single hj _
  have hs3 : SplitN (" VALUES ".toList ++ '(' :: (Join vs ",".toList ++ [')'])) "(".toList 2 =
      [" VALUES ".toList, Join vs ",".toList ++ [')']] :=
    SplitN_two_single (by decide) _
  have hts : TrimSuffix (Join vs ",".toList ++ [')']) ")".toList = Join vs ",".toList :=
    TrimSuffix_append_single _ _
  have hf : Fields ("INSERT".toList ++ ' ' :: ("INTO".toList ++ ' ' :: (t ++ [' ']))) =
      ["INSERT".toList, "INTO".toList, t] :=
    Fields_three_words (by decide) (by decide) (by decide) (by decide) ht.2.1 ht.1
  have hc : Split (Join cs ",".toList) ",".toList = cs :=
    Split_Join_single cs hcs0 (fun c hc => (hcs c hc).1)
  have hv : Split (Join vs ",".toList) ",".toList = vs :=
    Split_Join_single vs hvs0 (fun v hv => (hvs v hv).1)
  unfold insertIntoTable
  simp only [hs1, index_cons_zero, index_cons_succ, hf, hs2, hs3, hts, hc, hv]
  rfl

theorem insertLoop_eq (id : Nat) (vals : List Str) :
    ∀ (cols : List Str) (b : Bucket) (i : Nat), i + cols.length ≤ vals.length →
      insertLoop id vals b i cols =
        some ((cols.zip (vals.drop i)).foldl
          (fun b p => b.Put (itoa id ++ ":".toList ++ TrimSpace p.1) (TrimSpace p.2)) b) := by
  intro cols
  induction cols with
  | nil => intro b i _; rfl
  | cons c cols ih =>
    intro b i h
    simp only [List.length_cons] at h
    have hi : i < vals.length := by omega
    have hidx : index vals i = some vals[i] := by
      unfold index
      rw [List.get?_eq_getElem?, List.getElem?_eq_getElem hi]
    have hdrop : vals.drop i = vals[i] :: vals.drop (i + 1) := List.drop_eq_getElem_cons hi
    rw [insertLoop, hidx]
    simp only
    rw [ih _ (i + 1) (by omega), hdrop, List.zip_cons_cons, List.foldl_cons]

theorem foldl_Put_pairs (ps : List (Str × Str)) :
    ∀ b : Bucket,
      (ps.foldl (fun b p => b.Put p.1 p.2) b).kvs = ps.foldl (fun l p => putKV p.1 p.2 l) b.kvs ∧
      (ps.foldl (fun b p => b.Put p.1 p.2) b).sequence = b.sequence := by
  induction ps with
  | nil => intro b; exact ⟨rfl, rfl⟩
  | cons p ps ih =>
    intro b
    rw [List.foldl_cons, List.foldl_cons]
    exact ih (b.Put p.1 p.2)

theorem mem_foldl_putKV {p : Str × Str} :
    ∀ (ps l : List (Str × Str)), p ∈ ps.foldl (fun l q => putKV q.1 q.2 l) l → p ∈ l ∨ p ∈ ps := by
  intro ps
  induction ps with
  | nil => intro l h; exact Or.inl h
  | cons q ps ih =>
    intro l h
    rw [List.foldl_cons] at h
    rcases ih _ h with h1 | h1
    · rcases mem_putKV l h1 with h2 | h2
      · right; rw [h2]; exact List.mem_cons_self _ _
      · exact Or.inl h2
    · exact Or.inr (List.mem_cons_of_mem _ h1)

theorem mem_foldl_putKV_old {p : Str × Str} :
    ∀ (ps l : List (Str × Str)), p ∈ l → p.1 ∉ ps.map Prod.fst →
      p ∈ ps.foldl (fun l q => putKV q.1 q.2 l) l := by
  intro ps
  induction ps with
  | nil => intro l h _; exact h
  | cons q ps ih =>
    intro l h hn
    simp only [List.map_cons, List.mem_cons, not_or] at hn
    rw [List.foldl_cons]
    exact ih _ (mem_putKV_of_mem hn.1 l h) hn.2

theorem mem_foldl_putKV_new :
    ∀ (ps l : List (Str × Str)), (ps.map Prod.fst).Nodup → ∀ q ∈ ps,
      q ∈ ps.foldl (fun l q => putKV q.1 q.2 l) l := by
  intro ps
  induction ps with
  | nil => intro l _ q hq; simp at hq
  | cons p ps ih =>
    intro l hnd q hq
    rw [List.map_cons, List.nodup_cons] at hnd
    rw [List.foldl_cons]
    rcases List.mem_cons.mp hq with e | hq
    · rw [e]
      exact mem_foldl_putKV_old ps _ (mem_putKV_self p.1 p.2 l) hnd.1
    · exact ih _ hnd.2 q hq

/-! ## INSERT followed by `SELECT *` -/

theorem HasPrefix_eq_append :
    ∀ (s p : Str), HasPrefix s p = true → s = p ++ s.drop p.length := by
  intro s p
  induction p generalizing s with
  | nil => intro _; rfl
  | cons a p ih =>
    intro h
    cases s with
    | nil => exact absurd h (by simp [HasPrefix])
    | cons c s =>
      rw [HasPrefix_cons_cons] at h
      simp only [Bool.and_eq_true, beq_iff_eq] at h
      rw [h.1]
      simp only [List.length_cons, List.drop_succ_cons, List.cons_append]
      rw [← ih s h.2]

theorem allHeaders_mem {b : Bucket} {c : Str} :
    c ∈ allHeaders b ↔ ∃ v, ("col:".toList ++ c, v) ∈ b.kvs := by
  unfold allHeaders
  rw [List.mem_filterMap]
  constructor
  · rintro ⟨p, hp, hf⟩
    split at hf
    · next hpre =>
      have e := HasPrefix_eq_append _ _ hpre
      simp only [Option.some.injEq] at hf
      unfold TrimPrefix at hf
      rw [if_pos hpre] at hf
      rw [hf] at e
      exact ⟨p.2, by rw [← e]; exact hp⟩
    · exact absurd hf (by simp)
  · rintro ⟨v, hv⟩
    refine ⟨_, hv, ?_⟩
    have hpre : HasPrefix ("col:".toList ++ c) "col:".toList = true := HasPrefix_append_self _ _
    simp only [hpre, if_true, TrimPrefix]
    rfl

theorem old_key_not_new_id {b : Bucket} (hinv : KeyInv b) {q : Str × Str} (hq : q ∈ b.kvs)
    (col : Str) : keyCell q.1 ≠ some (itoa (b.sequence + 1), col) := by
  intro h
  rcases hinv q hq with ⟨n, hn, _⟩ | ⟨n, rest, _, hn2, hn3⟩
  · unfold keyCell at h
    rw [hn, HasPrefix_append_self] at h
    exact absurd h (by simp)
  · obtain ⟨col1, hc⟩ := keyCell_itoa_key n rest
    rw [hn3, hc] at h
    simp only [Option.some.injEq, Prod.mk.injEq] at h
    have := itoa_injective h.1
    omega

theorem zip_fst_unique :
    ∀ (cs vs : List Str), cs.Nodup → ∀ p ∈ cs.zip vs, ∀ q ∈ cs.zip vs, p.1 = q.1 → p = q := by
  intro cs
  induction cs with
  | nil => intro vs _ p hp; simp at hp
  | cons c cs ih =>
    intro vs hnd p hp q hq e
    cases vs with
    | nil => simp at hp
    | cons v vs =>
      rw [List.nodup_cons] at hnd
      rw [List.zip_cons_cons] at hp hq
      rcases List.mem_cons.mp hp with hp1 | hp1
      · rcases List.mem_cons.mp hq with hq1 | hq1
        · rw [hp1, hq1]
        · have : q.1 ∈ cs := (List.of_mem_zip (a := q.1) (b := q.2) hq1).1
          rw [← e, hp1] at this
          exact absurd this hnd.1
      · rcases List.mem_cons.mp hq with hq1 | hq1
        · have : p.1 ∈ cs := (List.of_mem_zip (a := p.1) (b := p.2) hp1).1
          rw [e, hq1] at this
          exact absurd this hnd.1
        · exact ih vs hnd.2 p hp1 q hq1 e

/-- C6 (counterexample): the round trip fails for a table whose name contains the letters
`WHERE`, and for an insert with no column.  After `CREATE TABLE WHEREHOUSE (a)` and `INSERT
INTO WHEREHOUSE (a) VALUES (1)`, `parseSelectQuery` cuts the table name of `SELECT * FROM
WHEREHOUSE` at `WHERE` and the statement reports that the table with the empty name does not
exist; after `CREATE TABLE t (a)` and `INSERT INTO t () VALUES ()` (the key `1:` is written),
`SELECT * FROM t` renders no row. -/
theorem insert_then_select_all_fails :
    mainLoop freshSession
      ["CREATE DATABASE d".toList, "CREATE TABLE WHEREHOUSE (a)".toList,
       "INSERT INTO WHEREHOUSE (a) VALUES (1)".toList, "SELECT * FROM WHEREHOUSE".toList,
       "CREATE TABLE t (a)".toList, "INSERT INTO t () VALUES ()".toList,
       "SELECT * FROM t".toList] =
    some ({ files := [("d".toList,
              [("WHEREHOUSE".toList,
                Bucket.mk [("1:a".toList, "1".toList), ("col:a".toList, "a".toList)] 1),
               ("t".toList,
                Bucket.mk [("1:".toList, []), ("col:a".toList, "a".toList)] 1)])],
            currentDB := some "d".toList },
      [.line "Database d created and selected".toList,
       .line "Table WHEREHOUSE created".toList,
       .line "Record inserted into table WHEREHOUSE".toList,
       .line "Error selecting from table: table  does not exist".toList,
       .line "Table t created".toList, .line "Record inserted into table t".toList,
       .table ["a".toList] []]) := by
  decide

/-- C6 (amended): insert then select-all round trip.  For every database reachable by CREATE
TABLE, INSERT, UPDATE and DELETE statements (no sequence counter having wrapped around), every
table `t` of it whose name does not contain `WHERE`, and all lists of N ≥ 1 pairwise distinct
declared column names `cs` and N values `vs`, names and values free of `,`, `(`, `)` and `:`:
the statement `INSERT INTO t (c1,..,cN) VALUES (v1,..,vN)` succeeds, and `SELECT * FROM t` then
renders a header list `hs` that holds every `ci`, and a row `hs.map g` whose value `g ci` under
header `ci` is `vi` trimmed of surrounding white space and whose value under every other
header is the empty string. -/
theorem insert_then_select_all_round_trip
    (db : DB) (t : Str) (b : Bucket) (cs vs : List Str)
    (hreach : Reachable db) (hb : txBucket db t = some b)
    (hseq : b.sequence + 1 < 2 ^ 64)
    (hwhere : Contains t "WHERE".toList = false) (hcs0 : cs ≠ [])
    (hlen : cs.length = vs.length)
    (hdecl : ∀ c ∈ cs, c ∈ allHeaders b) (hnd : cs.Nodup)
    (hcs : ∀ c ∈ cs, plainText c) (hvs : ∀ v ∈ vs, plainText v) :
    ∃ (db1 : DB) (hs : List Str) (rows : List (List Str)) (g : Str → Str),
      insertIntoTable (some db) (insertStmt t cs vs) =
        some (some db1, .line ("Record inserted into table ".toList ++ t)) ∧
      selectFromTable (some db1) (selectAllStmt t) = some (some db1, .table hs rows) ∧
      hs.map g ∈ rows ∧
      (∀ c ∈ cs, c ∈ hs) ∧
      (∀ p ∈ cs.zip vs, g p.1 = TrimSpace p.2) ∧
      (∀ h, h ∉ cs → g h = []) := by
  have ht : tableToken t := by
    obtain ⟨h1, h2, h3⟩ := Reachable_names hreach (t, b) (txBucket_mem hb)
    exact ⟨h1, h2, h3, hwhere⟩
  have hinv : KeyInv b := Reachable_KeyInv hreach _ (txBucket_mem hb)
  have hvs0 : vs ≠ [] := by
    intro e
    rw [e] at hlen
    exact hcs0 (List.eq_nil_of_length_eq_zero hlen)
  -- declared names have no white space
  have htrim : ∀ c ∈ cs, TrimSpace c = c := by
    intro c hc
    obtain ⟨v, hv⟩ := allHeaders_mem.mp (hdecl c hc)
    rcases hinv _ hv with ⟨n, hn, hsp⟩ | ⟨n, rest, _, _, hn3⟩
    · have : c = n := List.append_cancel_left hn
      rw [this]
      exact TrimSpace_no_space hsp
    · have h1 : HasPrefix ("col:".toList ++ c) "col:".toList = true := HasPrefix_append_self _ _
      have h2 : ("col:".toList ++ c, v).1 = itoa n ++ ':' :: rest := hn3
      simp only at h2
      rw [h2, HasPrefix_itoa_key] at h1
      exact absurd h1 (by simp)
  -- the bucket after the insert
  let idS : Str := itoa (b.sequence + 1)
  let news : List (Str × Str) :=
    (cs.zip vs).map (fun p => (idS ++ ":".toList ++ TrimSpace p.1, TrimSpace p.2))
  let b2 : Bucket := news.foldl (fun b p => b.Put p.1 p.2) (b.NextSequence).1
  have hid : (b.NextSequence).2 = b.sequence + 1 := Nat.mod_eq_of_lt hseq
  have hloop : insertLoop (b.NextSequence).2 vs (b.NextSequence).1 0 cs = some b2 := by
    rw [insertLoop_eq _ vs cs _ 0 (by omega), hid]
    show some _ = some (List.foldl _ _ (List.map _ _))
    rw [List.foldl_map]
    rfl
  have hkvs : b2.kvs = news.foldl (fun l q => putKV q.1 q.2 l) b.kvs :=
    (foldl_Put_pairs news (b.NextSequence).1).1
  have hnewkey : ∀ q ∈ news, ∃ p ∈ cs.zip vs, p.1 ∈ cs ∧
      q = (idS ++ ':' :: p.1, TrimSpace p.2) := by
    intro q hq
    obtain ⟨p, hp, e⟩ := List.mem_map.mp hq
    have hpc : p.1 ∈ cs := (List.of_mem_zip (a := p.1) (b := p.2) hp).1
    refine ⟨p, hp, hpc, ?_⟩
    rw [← e, htrim p.1 hpc]
    simp
  have hnewcell : ∀ q ∈ news, ∃ p ∈ cs.zip vs, keyCell q.1 = some (idS, p.1) ∧
      q.2 = TrimSpace p.2 := by
    intro q hq
    obtain ⟨p, hp, hpc, e⟩ := hnewkey q hq
    refine ⟨p, hp, ?_, by rw [e]⟩
    rw [e]
    exact keyCell_itoa_key_plain _ (hcs p.1 hpc).2.2.2
  have hnewmem : ∀ p ∈ cs.zip vs, (idS ++ ':' :: p.1, TrimSpace p.2) ∈ news := by
    intro p hp
    have hpc : p.1 ∈ cs := (List.of_mem_zip (a := p.1) (b := p.2) hp).1
    refine List.mem_map.mpr ⟨p, hp, ?_⟩
    rw [htrim p.1 hpc]
    simp
  have hnewnd : (news.map Prod.fst).Nodup := by
    have h1 : news.map Prod.fst = cs.map (fun c => idS ++ ":".toList ++ TrimSpace c) := by
      show List.map Prod.fst (List.map _ _) = _
      rw [List.map_map]
      have h2 : (cs.zip vs).map Prod.fst = cs := List.map_fst_zip _ _ (by omega)
      conv => rhs; rw [← h2]
      rw [List.map_map]
      rfl
    rw [h1]
    refine List.Nodup.map_on ?_ hnd
    intro x hx y hy e
    rw [htrim x hx, htrim y hy] at e
    exact List.append_cancel_left e
  have hold : ∀ q ∈ b2.kvs, q ∈ b.kvs ∨ q ∈ news := by
    intro q hq
    rw [hkvs] at hq
    exact mem_foldl_putKV news b.kvs hq
  have hnew2 : ∀ q ∈ news, q ∈ b2.kvs := by
    intro q hq
    rw [hkvs]
    exact mem_foldl_putKV_new news b.kvs hnewnd q hq
  -- the headers after the insert hold the declared names
  have hhs : ∀ c ∈ cs, c ∈ allHeaders b2 := by
    intro c hc
    obtain ⟨v, hv⟩ := allHeaders_mem.mp (hdecl c hc)
    refine allHeaders_mem.mpr ⟨v, ?_⟩
    rw [hkvs]
    refine mem_foldl_putKV_old news b.kvs hv ?_
    intro hm
    obtain ⟨q, hq, e⟩ := List.mem_map.mp hm
    obtain ⟨p, _, _, e2⟩ := hnewkey q hq
    have h1 : HasPrefix ("col:".toList ++ c) "col:".toList = true := HasPrefix_append_self _ _
    have h2 : "col:".toList ++ c = idS ++ ':' :: p.1 := by
      have e3 : q.1 = "col:".toList ++ c := e
      rw [← e3, e2]
    rw [h2, HasPrefix_itoa_key] at h1
    exact absurd h1 (by simp)
  -- the cells of the new row id
  have hsound : ∀ col val, cellGet (scanRows (allHeaders b2) b2) idS col = some val →
      ∃ p ∈ cs.zip vs, p.1 = col ∧ val = TrimSpace p.2 := by
    intro col val h
    rcases cellGet_scan_sound _ _ _ _ b2.kvs [] h with h0 | ⟨q, hq, hk, _, hval⟩
    · simp [cellGet, mapGet?_nil] at h0
    · rcases hold q hq with hq1 | hq1
      · exact absurd hk (old_key_not_new_id hinv hq1 col)
      · obtain ⟨p, hp, hk2, hv2⟩ := hnewcell q hq1
        rw [hk2] at hk
        simp only [Option.some.injEq, Prod.mk.injEq, true_and] at hk
        exact ⟨p, hp, hk, by rw [← hval, hv2]⟩
  have hcomplete : ∀ p ∈ cs.zip vs,
      (cellGet (scanRows (allHeaders b2) b2) idS p.1).isSome = true := by
    intro p hp
    have hpc : p.1 ∈ cs := (List.of_mem_zip (a := p.1) (b := p.2) hp).1
    refine cellGet_scan_complete _ _ _ b2.kvs [] (Or.inr ⟨_, hnew2 _ (hnewmem p hp), ?_, hhs _ hpc⟩)
    exact keyCell_itoa_key_plain _ (hcs p.1 hpc).2.2.2
  -- the new row exists
  obtain ⟨c0, cs1, hc0⟩ := List.exists_cons_of_ne_nil hcs0
  obtain ⟨v0, vs1, hv0⟩ := List.exists_cons_of_ne_nil hvs0
  have hp0 : (c0, v0) ∈ cs.zip vs := by rw [hc0, hv0]; exact List.mem_cons_self _ _
  obtain ⟨row, hrow⟩ : ∃ row, mapGet? (scanRows (allHeaders b2) b2) idS = some row := by
    have := hcomplete _ hp0
    unfold cellGet at this
    cases hr : mapGet? (scanRows (allHeaders b2) b2) idS with
    | none => rw [hr] at this; exact absurd this (by simp)
    | some row => exact ⟨row, rfl⟩
  have hcell : ∀ col, cellGet (scanRows (allHeaders b2) b2) idS col = mapGet? row col := by
    intro col
    unfold cellGet
    rw [hrow]
  have htx : insertTx t cs vs db = some (.ok (txSetBucket t b2 db)) := by
    unfold insertTx
    rw [hb]
    simp only [hloop]
  refine ⟨txSetBucket t b2 db, allHeaders b2,
    (scanRows (allHeaders b2) b2).map (fun r => (allHeaders b2).map (rowGet r.2)),
    rowGet row, ?_, ?_, ?_, hhs, ?_, ?_⟩
  · rw [insertIntoTable_stmt db t cs vs ht hcs hvs hcs0 hvs0, htx]
  · unfold selectFromTable
    simp only [parseSelectQuery_selectAll t ht, txBucket_txSetBucket, selectView, selectRows,
      filterRows_nil]
    have hsel : selectHeaders ["*".toList] (allHeaders b2) = allHeaders b2 := by
      simp [selectHeaders]
    rw [hsel]
  · exact List.mem_map.mpr ⟨(idS, row), mapGet?_mem _ hrow, rfl⟩
  · intro p hp
    have h1 := hcomplete p hp
    rw [hcell] at h1
    cases hg : mapGet? row p.1 with
    | none => rw [hg] at h1; exact absurd h1 (by simp)
    | some val =>
      have h2 : cellGet (scanRows (allHeaders b2) b2) idS p.1 = some val := by rw [hcell, hg]
      obtain ⟨q, hq, e1, e2⟩ := hsound _ _ h2
      have : q = p := zip_fst_unique cs vs hnd q hq p hp e1
      unfold rowGet
      rw [hg, e2, this]
      rfl
  · intro h hh
    unfold rowGet
    cases hg : mapGet? row h with
    | none => rfl
    | some val =>
      have h2 : cellGet (scanRows (allHeaders b2) b2) idS h = some val := by rw [hcell, hg]
      obtain ⟨q, hq, e1, _⟩ := hsound _ _ h2
      have : q.1 ∈ cs := (List.of_mem_zip (a := q.1) (b := q.2) hq).1
      rw [e1] at this
      exact absurd this hh

/-- The `users` database is reachable: `CREATE TABLE users (name text, age text)` and then
`INSERT INTO users (name,age) VALUES (Alice,30)` on an empty database. -/
theorem usersDB_reachable : Reachable usersDB := by
  have h1 : createTable (some []) "CREATE TABLE users (name text, age text)".toList =
      some (some [("users".toList,
        Bucket.mk [("col:age".toList, " age text".toList),
          ("col:name".toList, "name text".toList)] 0)],
        .line "Table users created".toList) := by decide
  have h2 : insertIntoTable (some [("users".toList,
        Bucket.mk [("col:age".toList, " age text".toList),
          ("col:name".toList, "name text".toList)] 0)])
        "INSERT INTO users (name,age) VALUES (Alice,30)".toList =
      some (some usersDB, .line "Record inserted into table users".toList) := by decide
  exact Reachable.insert (Reachable.create Reachable.empty h1) (by decide) h2

/-- C6 (witness): the amended round trip at `INSERT INTO users (name,age) VALUES (Bob,41)` on the
`users` database. -/
theorem insert_then_select_all_round_trip_witness :
    ∃ (db1 : DB) (hs : List Str) (rows : List (List Str)) (g : Str → Str),
      insertIntoTable (some usersDB)
          (insertStmt "users".toList ["name".toList, "age".toList]
            ["Bob".toList, "41".toList]) =
        some (some db1, .line ("Record inserted into table ".toList ++ "users".toList)) ∧
      selectFromTable (some db1) (selectAllStmt "users".toList) =
        some (some db1, .table hs rows) ∧
      hs.map g ∈ rows ∧
      (∀ c ∈ ["name".toList, "age".toList], c ∈ hs) ∧
      (∀ p ∈ ["name".toList, "age".toList].zip ["Bob".toList, "41".toList],
        g p.1 = TrimSpace p.2) ∧
      (∀ h, h ∉ ["name".toList, "age".toList] → g h = []) :=
  insert_then_select_all_round_trip usersDB "users".toList usersBucket
    ["name".toList, "age".toList] ["Bob".toList, "41".toList]
    usersDB_reachable (by decide) (by decide) (by decide) (by decide) (by decide) (by decide)
    (by decide) (by decide) (by decide)
/-! ## Evaluations of the statements -/

/-- C1: `deleteFromTable` compares each key's column part with the whole text after `WHERE `,
so `DELETE FROM users WHERE name = Alice` removes no key: after creating the table and
inserting the row name=Alice, age=30, the statement reports success and the bucket still holds
both `1:name` and `1:age` of the matching row. -/
theorem deleteFromTable_equality_filter_removes_nothing :
    mainLoop freshSession
      ["CREATE DATABASE d".toList, "CREATE TABLE users (name text, age text)".toList,
       "INSERT INTO users (name,age) VALUES (Alice,30)".toList,
       "DELETE FROM users WHERE name = Alice".toList] =
    some ({ files := [("d".toList, [("users".toList,
              { kvs := [("1:age".toList, "30".toList), ("1:name".toList, "Alice".toList),
                  ("col:age".toList, " age text".toList),
                  ("col:name".toList, "name text".toList)],
                sequence := 1 })])],
            currentDB := some "d".toList },
      [.line "Database d created and selected".toList, .line "Table users created".toList,
       .line "Record inserted into table users".toList,
       .line "Records deleted from table users".toList]) := by
  decide

/-- C2: `updateTable` compares each key's column part with the whole text after `WHERE `, so
`UPDATE users SET age = 31 WHERE name = Alice` on the table holding name=Alice, age=30 writes
nothing: it reports success, the database is unchanged and `1:age` is still `30`. -/
theorem updateTable_equality_filter_writes_nothing :
    updateTable (some usersDB) "UPDATE users SET age = 31 WHERE name = Alice".toList =
      some (some usersDB, .line "Table users updated".toList) ∧
    usersBucket.Get "1:age".toList = some "30".toList := by
  decide

/-- C3: `selectFromTable` filters the rows after it has dropped the cells of the columns that
are not projected: with the row name=Alice, age=31 stored, `SELECT age FROM users WHERE name =
Alice` renders the header `age` and no row. -/
theorem selectFromTable_filter_on_unprojected_column_emits_nothing :
    mainLoop freshSession
      ["CREATE DATABASE d".toList, "CREATE TABLE users (name text, age text)".toList,
       "INSERT INTO users (name,age) VALUES (Alice,31)".toList,
       "SELECT age FROM users WHERE name = Alice".toList] =
    some ({ files := [("d".toList, [("users".toList,
              { kvs := [("1:age".toList, "31".toList), ("1:name".toList, "Alice".toList),
                  ("col:age".toList, " age text".toList),
                  ("col:name".toList, "name text".toList)],
                sequence := 1 })])],
            currentDB := some "d".toList },
      [.line "Database d created and selected".toList, .line "Table users created".toList,
       .line "Record inserted into table users".toList,
       .table ["age".toList] []]) := by
  decide

/-- C8: `insertIntoTable` pairs the lists without comparing their lengths: with fewer values
than columns it indexes the value list out of range (a panic, no error is reported), and with
more values than columns it reports success and writes the cell of the first pair. -/
theorem insertIntoTable_length_mismatch :
    insertIntoTable (some usersDB) "INSERT INTO users (name,age) VALUES (Bob)".toList = none ∧
    insertIntoTable (some usersDB) "INSERT INTO users (name) VALUES (Bob,40)".toList =
      some (some [("users".toList,
              Bucket.mk [("1:age".toList, "30".toList), ("1:name".toList, "Alice".toList),
                  ("2:name".toList, "Bob".toList),
                  ("col:age".toList, " age text".toList),
                  ("col:name".toList, "name text".toList)] 2)],
        .line "Record inserted into table users".toList) := by
  constructor <;> decide

/-- C9: with a database selected, each of the lines `USE`, `CREATE DATABASE`, `DROP TABLE`,
`SELECT x`, `UPDATE t` and `DELETE FROM t WHERE` makes `processQuery` index or slice out of
range (a panic) instead of reporting invalid syntax. -/
theorem processQuery_malformed_arguments_panic :
    processQuery usersSession "USE".toList = none ∧
    processQuery usersSession "CREATE DATABASE".toList = none ∧
    processQuery usersSession "DROP TABLE".toList = none ∧
    processQuery usersSession "SELECT x".toList = none ∧
    processQuery usersSession "UPDATE t".toList = none ∧
    processQuery usersSession "DELETE FROM t WHERE".toList = none := by
  decide

/-- C10: only the command word is upper-cased before it is compared; the clause keywords are
searched as the upper-case texts `FROM` and `WHERE`.  `parseSelectQuery` returns the columns
`a`, the table `t` and the clause `a = 1` for `SELECT a FROM t WHERE a = 1`, and panics on
`select a from t where a = 1`, as does `processQuery` on that line. -/
theorem parseSelectQuery_lower_case_keywords_panic :
    parseSelectQuery "SELECT a FROM t WHERE a = 1".toList =
      some (["a".toList], "t".toList, "a = 1".toList) ∧
    parseSelectQuery "select a from t where a = 1".toList = none ∧
    processQuery usersSession "select a from t where a = 1".toList = none := by
  decide

/-! ## `filterRows` and conjuncts without `=` -/

theorem mem_TrimSpace {s : Str} {ch : Char} (h : ch ∈ TrimSpace s) : ch ∈ s := by
  unfold TrimSpace at h
  rw [List.mem_reverse] at h
  have h1 := (List.dropWhile_sublist isSpace).subset h
  rw [List.mem_reverse] at h1
  exact (List.dropWhile_sublist isSpace).subset h1

theorem mem_genSplit {sep : Str} :
    ∀ (n : Nat) (s : Str), ∀ piece ∈ genSplit sep n s, ∀ ch ∈ piece, ch ∈ s := by
  intro n
  induction n with
  | zero =>
    intro s piece hp ch hch
    simp only [genSplit, List.mem_singleton] at hp
    rw [hp] at hch; exact hch
  | succ n ih =>
    intro s piece hp ch hch
    rw [genSplit] at hp
    split at hp
    · simp only [List.mem_singleton] at hp
      rw [hp] at hch; exact hch
    · next m _ =>
      rcases List.mem_cons.mp hp with e | hp
      · rw [e] at hch
        exact List.mem_of_mem_take hch
      · exact List.mem_of_mem_drop (ih _ piece hp ch hch)

/-- A condition without `=` is skipped by the inner loop of `filterRows`. -/
theorem matchRow_skip {cond : Str} (h : '=' ∉ cond) (row : List (Str × Str)) (rest : List Str) :
    matchRow row (cond :: rest) = matchRow row rest := by
  have h1 : '=' ∉ TrimSpace cond := fun hm => h (mem_TrimSpace hm)
  have hs : SplitN (TrimSpace cond) "=".toList 2 = [TrimSpace cond] :=
    genSplit_none (indexOf_single_none _ h1) 1
  rw [matchRow, hs]

theorem matchRow_all_skip (row : List (Str × Str)) :
    ∀ conds : List Str, (∀ c ∈ conds, '=' ∉ c) → matchRow row conds = true := by
  intro conds
  induction conds with
  | nil => intro _; rfl
  | cons c conds ih =>
    intro h
    rw [matchRow_skip (h c (List.mem_cons_self _ _))]
    exact ih (fun d hd => h d (List.mem_cons_of_mem _ hd))

theorem matchRow_append (row : List (Str × Str)) :
    ∀ conds1 conds2 : List Str,
      matchRow row (conds1 ++ conds2) = (matchRow row conds1 && matchRow row conds2) := by
  intro conds1
  induction conds1 with
  | nil => intro conds2; simp [matchRow]
  | cons c conds1 ih =>
    intro conds2
    rw [List.cons_append, matchRow, matchRow]
    split
    · split
      · rfl
      · exact ih conds2
    · exact ih conds2

/-- C20: `filterRows` ignores conjuncts without `=`.  For every material row, a condition
without `=` anywhere in a list of conditions can be dropped without changing whether the row
matches; a non-empty WHERE clause without any `=` returns every input row unchanged; and the
result of `filterRows` is always a sublist of its input, so each retained id keeps its row. -/
theorem filterRows_ignores_conjuncts_without_equals (rows : Rows) (whereClause : Str) :
    (∀ (row : List (Str × Str)) (conds1 conds2 : List Str) (cond : Str), '=' ∉ cond →
      matchRow row (conds1 ++ cond :: conds2) = matchRow row (conds1 ++ conds2)) ∧
    ('=' ∉ whereClause → filterRows rows whereClause = rows) ∧
    (filterRows rows whereClause).Sublist rows := by
  refine ⟨?_, ?_, filterRows_sublist rows whereClause⟩
  · intro row conds1 conds2 cond h
    rw [matchRow_append, matchRow_append, matchRow_skip h]
  · intro h
    unfold filterRows
    split
    · rfl
    · rw [List.filter_eq_self]
      intro r _
      refine matchRow_all_skip r.2 _ ?_
      intro c hc hm
      exact h (mem_genSplit _ _ c hc _ hm)

/-- C20 (witness): the clause `name Alice AND age` has no `=`, so no row of the example is
filtered out. -/
theorem filterRows_ignores_conjuncts_without_equals_witness :
    filterRows [("1".toList, [("name".toList, "Alice".toList)])] "name Alice AND age".toList =
      [("1".toList, [("name".toList, "Alice".toList)])] :=
  (filterRows_ignores_conjuncts_without_equals
    [("1".toList, [("name".toList, "Alice".toList)])] "name Alice AND age".toList).2.1
    (by decide)

/-! ## The row scan and keys that are not two-part -/

theorem keyCell_eq_some_iff (k id col : Str) :
    keyCell k = some (id, col) ↔
      HasPrefix k "col:".toList = false ∧ ∃ rest, Split k ":".toList = id :: col :: rest := by
  unfold keyCell
  by_cases hp : HasPrefix k "col:".toList = true
  · rw [if_pos hp]
    constructor
    · intro h; exact absurd h (by simp)
    · rintro ⟨h, _⟩; rw [hp] at h; exact absurd h (by simp)
  · have hp2 : HasPrefix k "col:".toList = false := by simpa using hp
    rw [if_neg hp]
    constructor
    · intro h
      refine ⟨hp2, ?_⟩
      split at h
      · next id1 col1 tl hs =>
        simp only [Option.some.injEq, Prod.mk.injEq] at h
        exact ⟨tl, by rw [hs, h.1, h.2]⟩
      · exact absurd h (by simp)
    · rintro ⟨_, rest, hs⟩
      rw [hs]

/-- C17 (counterexample): the scan only skips data keys with fewer than two parts.  The key
`1:a:b`, written by `INSERT INTO t (a:b) VALUES (x)`, splits into three parts and is read as
the cell `a` of row 1: `SELECT a FROM t` renders the row `x`. -/
theorem scan_reads_three_part_key :
    mainLoop freshSession
      ["CREATE DATABASE d".toList, "CREATE TABLE t (a)".toList,
       "INSERT INTO t (a:b) VALUES (x)".toList, "SELECT a FROM t".toList] =
    some ({ files := [("d".toList, [("t".toList,
              Bucket.mk [("1:a:b".toList, "x".toList), ("col:a".toList, "a".toList)] 1)])],
            currentDB := some "d".toList },
      [.line "Database d created and selected".toList, .line "Table t created".toList,
       .line "Record inserted into table t".toList,
       .table ["a".toList] [["x".toList]]]) := by
  decide

/-- C17 (amended): for every table state and every set of selected columns, the row
materialization of `selectFromTable` is a total function of the bucket; a data key without
`:` (fewer than two parts) changes no row; every materialized cell comes from a data key
whose first two parts are the row id and the column, whatever follows them; and every data
key with at least two parts and a selected column does give its row a cell in that column (so
`1:a:b` contributes to row 1 under column `a`). -/
theorem scanRows_reads_first_two_parts (sel : List Str) (b : Bucket) :
    (∀ (k v : Str) (rows : Rows), ':' ∉ k → scanStep sel rows k v = rows) ∧
    (∀ id col val, cellGet (scanRows sel b) id col = some val →
      ∃ k rest, (k, val) ∈ b.kvs ∧ HasPrefix k "col:".toList = false ∧
        Split k ":".toList = id :: col :: rest ∧ col ∈ sel) ∧
    (∀ k v id col rest, (k, v) ∈ b.kvs → HasPrefix k "col:".toList = false →
      Split k ":".toList = id :: col :: rest → col ∈ sel →
      (cellGet (scanRows sel b) id col).isSome = true) := by
  refine ⟨?_, ?_, ?_⟩
  · intro k v rows h
    rw [scanStep_eq]
    have hk : keyCell k = none := by
      unfold keyCell
      have hs : Split k ":".toList = [k] := Split_single_none h
      split
      · rfl
      · rw [hs]
    rw [hk]
  · intro id col val h
    rcases cellGet_scan_sound sel id col val b.kvs [] h with h0 | ⟨p, hp, hk, hc, hv⟩
    · simp [cellGet, mapGet?_nil] at h0
    · obtain ⟨hpre, rest, hs⟩ := (keyCell_eq_some_iff _ _ _).mp hk
      exact ⟨p.1, rest, by rw [← hv]; exact hp, hpre, hs, hc⟩
  · intro k v id col rest hm hpre hs hc
    exact cellGet_scan_complete sel id col b.kvs []
      (Or.inr ⟨(k, v), hm, (keyCell_eq_some_iff _ _ _).mpr ⟨hpre, rest, hs⟩, hc⟩)

/-- C17 (witness): in a bucket that holds the keys `1:a:b` and `2` (no colon), the key `2`
changes no row and the key `1:a:b` gives row 1 a cell under column `a`. -/
theorem scanRows_reads_first_two_parts_witness :
    scanStep ["a".toList] [] "2".toList "y".toList = [] ∧
    (cellGet (scanRows ["a".toList]
      (Bucket.mk [("1:a:b".toList, "x".toList), ("2".toList, "y".toList)] 1))
      "1".toList "a".toList).isSome = true :=
  ⟨(scanRows_reads_first_two_parts ["a".toList]
      (Bucket.mk [("1:a:b".toList, "x".toList), ("2".toList, "y".toList)] 1)).1
      "2".toList "y".toList [] (by decide),
   (scanRows_reads_first_two_parts ["a".toList]
      (Bucket.mk [("1:a:b".toList, "x".toList), ("2".toList, "y".toList)] 1)).2.2
      "1:a:b".toList "x".toList "1".toList "a".toList ["b".toList]
      (by decide) (by decide) (by decide) (by decide)⟩

/-! ## The key-shape invariant and the scans of UPDATE and DELETE -/

theorem Split_itoa_key (n : Nat) (rest : Str) :
    ∃ col tl, Split (itoa n ++ ':' :: rest) ":".toList = itoa n :: col :: tl := by
  have hs : Split (itoa n ++ ':' :: rest) ":".toList = itoa n :: Split rest ":".toList :=
    Split_single_cons (itoa_no_colon n) rest
  cases h : Split rest ":".toList with
  | nil => exact absurd h (genSplit_ne_nil _ _ _)
  | cons col tl => exact ⟨col, tl, by rw [hs, h]⟩

theorem updateLoop_total (cond sc sv : Str) (s : Nat) :
    ∀ (l : List (Str × Str)) (b : Bucket), (∀ p ∈ l, keyShape s p.1) →
      ∃ b1, updateLoop cond sc sv b l = some b1 := by
  intro l
  induction l with
  | nil => intro b _; exact ⟨b, rfl⟩
  | cons p l ih =>
    obtain ⟨k, v⟩ := p
    intro b hl
    have hl2 : ∀ q ∈ l, keyShape s q.1 := fun q hq => hl q (List.mem_cons_of_mem _ hq)
    rw [updateLoop]
    by_cases hpre : HasPrefix k "col:".toList = true
    · simp only [hpre, Bool.not_true, Bool.false_eq_true, if_false]
      exact ih b hl2
    · rcases hl (k, v) (List.mem_cons_self _ _) with ⟨n, hn, _⟩ | ⟨n, rest, _, _, hn3⟩
      · simp only at hn
        rw [hn, HasPrefix_append_self] at hpre
        exact absurd rfl hpre
      · simp only at hn3
        obtain ⟨col, tl, hs⟩ := Split_itoa_key n rest
        simp only [hn3, HasPrefix_itoa_key, Bool.not_false, if_true, hs, index_cons_zero,
          index_cons_succ]
        by_cases hc : col = cond
        · rw [if_pos hc]; exact ih _ hl2
        · rw [if_neg hc]; exact ih _ hl2

theorem deleteLoop_total (cond : Str) (s : Nat) :
    ∀ (l : List (Str × Str)) (b : Bucket), (∀ p ∈ l, keyShape s p.1) →
      ∃ b1, deleteLoop cond b l = some b1 := by
  intro l
  induction l with
  | nil => intro b _; exact ⟨b, rfl⟩
  | cons p l ih =>
    obtain ⟨k, v⟩ := p
    intro b hl
    have hl2 : ∀ q ∈ l, keyShape s q.1 := fun q hq => hl q (List.mem_cons_of_mem _ hq)
    rw [deleteLoop]
    by_cases hpre : HasPrefix k "col:".toList = true
    · simp only [hpre, Bool.not_true, Bool.false_eq_true, if_false]
      exact ih b hl2
    · rcases hl (k, v) (List.mem_cons_self _ _) with ⟨n, hn, _⟩ | ⟨n, rest, _, _, hn3⟩
      · simp only at hn
        rw [hn, HasPrefix_append_self] at hpre
        exact absurd rfl hpre
      · simp only at hn3
        obtain ⟨col, tl, hs⟩ := Split_itoa_key n rest
        simp only [hn3, HasPrefix_itoa_key, Bool.not_false, if_true, hs, index_cons_zero,
          index_cons_succ]
        by_cases hc : col = cond
        · rw [if_pos hc]; exact ih _ hl2
        · rw [if_neg hc]; exact ih _ hl2

/-- C19: key-shape invariant.  In every database reachable from the empty one by CREATE
TABLE, INSERT, UPDATE and DELETE statements (no sequence counter having wrapped around), every
key of every table either starts with `col:`, or has the form `<n>:<rest>` with `<n>` the
decimal numeral of an integer between 1 and the sequence counter of the table and does not
start with `col:`; and the scans of `updateTable` and `deleteFromTable` over such a table never
index `parts[1]` out of range, whatever the condition and the target are. -/
theorem reachable_key_shape (db : DB) (h : Reachable db) :
    ∀ p ∈ db,
      (∀ q ∈ p.2.kvs,
        HasPrefix q.1 "col:".toList = true ∨
        (HasPrefix q.1 "col:".toList = false ∧
          ∃ (n : Nat) (rest : Str), 1 ≤ n ∧ n ≤ p.2.sequence ∧ q.1 = itoa n ++ ':' :: rest)) ∧
      (∀ cond sc sv : Str, ∃ b1, updateLoop cond sc sv p.2 p.2.kvs = some b1) ∧
      (∀ cond : Str, ∃ b1, deleteLoop cond p.2 p.2.kvs = some b1) := by
  intro p hp
  have hinv : KeyInv p.2 := Reachable_KeyInv h p hp
  refine ⟨?_, ?_, ?_⟩
  · intro q hq
    rcases hinv q hq with ⟨n, hn, _⟩ | ⟨n, rest, h1, h2, h3⟩
    · left; rw [hn]; exact HasPrefix_append_self _ _
    · right
      exact ⟨by rw [h3]; exact HasPrefix_itoa_key n rest, n, rest, h1, h2, h3⟩
  · intro cond sc sv
    exact updateLoop_total cond sc sv p.2.sequence p.2.kvs p.2 hinv
  · intro cond
    exact deleteLoop_total cond p.2.sequence p.2.kvs p.2 hinv

/-- C19 (witness): the invariant on the `users` table of the reachable `users` database. -/
theorem reachable_key_shape_witness :
    Reachable usersDB ∧
      ((∀ q ∈ usersBucket.kvs,
        HasPrefix q.1 "col:".toList = true ∨
        (HasPrefix q.1 "col:".toList = false ∧
          ∃ (n : Nat) (rest : Str),
            1 ≤ n ∧ n ≤ usersBucket.sequence ∧ q.1 = itoa n ++ ':' :: rest)) ∧
      (∀ cond sc sv : Str,
        ∃ b1, updateLoop cond sc sv usersBucket usersBucket.kvs = some b1) ∧
      (∀ cond : Str, ∃ b1, deleteLoop cond usersBucket usersBucket.kvs = some b1)) :=
  ⟨usersDB_reachable,
   reachable_key_shape usersDB usersDB_reachable ("users".toList, usersBucket)
     (List.mem_cons_self _ _)⟩

/-! ## `filterRows` on a conjunction of equalities -/

theorem Split_of_indexOf {sep s : Str} {m : Nat} (hsep : sep ≠ [])
    (h : indexOf sep s = some m) :
    Split s sep = s.take m :: Split (s.drop (m + sep.length)) sep := by
  unfold Split
  have hlt := indexOf_lt_length hsep s m h
  have hlen : s.length = (s.length - 1) + 1 := by omega
  rw [hlen, genSplit_some h]
  have hl : (s.drop (m + sep.length)).length ≤ s.length - 1 := by
    have : 0 < sep.length := List.length_pos.mpr hsep
    simp only [List.length_drop]; omega
  rw [genSplit_fuel hsep (s.length - 1) (s.drop (m + sep.length)).length _ hl (Nat.le_refl _)]

/-- Cutting a text at the keyword `AND` that follows a part without `AND` and a space. -/
theorem Split_AND_cons {x : Str} (hx : indexOf "AND".toList x = none) (y : Str) :
    Split (x ++ ' ' :: ("AND".toList ++ y)) "AND".toList = (x ++ [' ']) :: Split y "AND".toList := by
  have hA : (' ' : Char) ∉ "AND".toList := by decide
  have hne : "AND".toList ≠ [] := by decide
  have i1 : indexOf "AND".toList (x ++ ' ' :: ("AND".toList ++ y)) = some (x.length + 1) := by
    rw [indexOf_append_cons hA hne _ x hx, indexOf_of_HasPrefix (HasPrefix_append_self _ _)]
    simp only [Option.map_some', Nat.zero_add]
  rw [Split_of_indexOf hne i1]
  have e1 : x ++ ' ' :: ("AND".toList ++ y) = (x ++ [' ']) ++ ("AND".toList ++ y) := by simp
  have e2 : x ++ ' ' :: ("AND".toList ++ y) = (x ++ [' '] ++ "AND".toList) ++ y := by simp
  have l1 : x.length + 1 = (x ++ [' ']).length := by simp
  have l2 : x.length + 1 + "AND".toList.length = (x ++ [' '] ++ "AND".toList).length := by
    simp only [List.length_append, List.length_cons, List.length_nil]
  have t1 : (x ++ ' ' :: ("AND".toList ++ y)).take (x.length + 1) = x ++ [' '] := by
    rw [e1, l1, List.take_left]
  have t2 : (x ++ ' ' :: ("AND".toList ++ y)).drop (x.length + 1 + "AND".toList.length) = y := by
    rw [e2, l2, List.drop_left]
  rw [t1, t2]

theorem matchRow_whereConj (row : List (Str × Str)) :
    ∀ (ps : List (Str × Str)) (pad : Str), ps ≠ [] → (pad = [] ∨ pad = [' ']) →
      (∀ p ∈ ps, whereOperand p.1 ∧ whereOperand p.2 ∧ '=' ∉ p.1) →
      matchRow row (Split (pad ++ whereConj ps) "AND".toList) =
        ps.all (fun p => decide (rowGet row p.1 = p.2)) := by
  intro ps
  induction ps with
  | nil => intro pad h; exact absurd rfl h
  | cons p ps ih =>
    intro pad _ hpad hall
    obtain ⟨hc, hv, heq⟩ := hall p (List.mem_cons_self _ _)
    have hA : (' ' : Char) ∉ "AND".toList := by decide
    have hne : "AND".toList ≠ [] := by decide
    have n0 : indexOf "AND".toList (p.1 ++ " = ".toList ++ p.2) = none :=
      indexOf_AND_equality (by simpa [Contains] using hc.2.2) (by simpa [Contains] using hv.2.2)
    have n1 : indexOf "AND".toList (pad ++ (p.1 ++ " = ".toList ++ p.2)) = none := by
      rcases hpad with e | e
      · rw [e]; exact n0
      · rw [e]
        have := indexOf_append_cons hA hne (p.1 ++ " = ".toList ++ p.2) [] (by decide)
        rw [List.nil_append] at this
        show indexOf "AND".toList (' ' :: (p.1 ++ " = ".toList ++ p.2)) = none
        rw [this, n0]; rfl
    have ts : TrimSpace (p.1 ++ " = ".toList ++ p.2) = p.1 ++ " = ".toList ++ p.2 :=
      TrimSpace_sandwich _ hc.2.1 hc.1 hv.2.1 hv.1
    have t0 : TrimSpace (pad ++ (p.1 ++ " = ".toList ++ p.2)) = p.1 ++ " = ".toList ++ p.2 := by
      rcases hpad with e | e
      · rw [e]; exact ts
      · rw [e]
        show TrimSpace (' ' :: (p.1 ++ " = ".toList ++ p.2)) = _
        rw [TrimSpace_cons_space (by decide), ts]
    cases ps with
    | nil =>
      have e : whereConj [p] = p.1 ++ " = ".toList ++ p.2 := rfl
      have hs : Split (pad ++ whereConj [p]) "AND".toList = [pad ++ whereConj [p]] := by
        rw [e]; exact genSplit_none n1 _
      rw [hs, e, matchRow_equality row [] t0 heq hc.2.1 hv.2.1]
      simp [matchRow]
    | cons q ps =>
      have e : pad ++ whereConj (p :: q :: ps) =
          (pad ++ (p.1 ++ " = ".toList ++ p.2)) ++
            ' ' :: ("AND".toList ++ ([' '] ++ whereConj (q :: ps))) := by
        show pad ++ (p.1 ++ " = ".toList ++ p.2 ++ " AND ".toList ++ whereConj (q :: ps)) = _
        simp
      have t1 : TrimSpace (pad ++ (p.1 ++ " = ".toList ++ p.2) ++ [' ']) =
          p.1 ++ " = ".toList ++ p.2 := by
        rw [TrimSpace_append_space (by decide), t0]
      rw [e, Split_AND_cons n1, matchRow_equality row _ t1 heq hc.2.1 hv.2.1,
        ih [' '] (List.cons_ne_nil _ _) (Or.inr rfl)
          (fun r hr => hall r (List.mem_cons_of_mem _ hr))]
      simp only [List.all_cons]

theorem whereConj_ne_nil {ps : List (Str × Str)} (h : ps ≠ []) : whereConj ps ≠ [] := by
  obtain ⟨p, rest, e⟩ := List.exists_cons_of_ne_nil h
  intro hn
  have hl : (whereConj ps).length = 0 := by rw [hn]; rfl
  rw [e] at hl
  cases rest with
  | nil =>
    have : whereConj [p] = p.1 ++ " = ".toList ++ p.2 := rfl
    rw [this] at hl
    simp at hl
  | cons q rest =>
    have : whereConj (p :: q :: rest) =
        p.1 ++ " = ".toList ++ p.2 ++ " AND ".toList ++ whereConj (q :: rest) := rfl
    rw [this] at hl
    simp at hl

/-- C15 (counterexample): a row without a cell for the column passes a conjunct whose literal
is empty.  Row 1 has the only cell `a = x`; `filterRows` with the clause `b =` keeps it. -/
theorem filterRows_empty_literal_matches_missing_cell :
    filterRows [("1".toList, [("a".toList, "x".toList)])] "b =".toList =
      [("1".toList, [("a".toList, "x".toList)])] ∧
    mapGet? [("a".toList, "x".toList)] "b".toList = none := by
  decide

/-- C15 (amended): `filterRows` implements conjunctive equality for non-empty literals.  For
every map of materialized rows and every WHERE clause `c1 = v1 AND .. AND cn = vn` (n ≥ 1)
whose column names and literals are non-empty, have no surrounding white space and do not
contain `AND`, the names being free of `=`: an entry is in the result exactly when it is in
the input and, for every conjunct, its row has a cell for `ci` and that cell equals `vi` (so a
row without a cell for some `ci` is not in the result); and for the empty clause the result is
all rows. -/
theorem filterRows_conjunctive_equality (rows : Rows) (ps : List (Str × Str))
    (hps : ps ≠ [])
    (hall : ∀ p ∈ ps, whereOperand p.1 ∧ whereOperand p.2 ∧ '=' ∉ p.1) :
    filterRows rows [] = rows ∧
    ∀ r, r ∈ filterRows rows (whereConj ps) ↔
      r ∈ rows ∧ ∀ p ∈ ps, mapGet? r.2 p.1 = some p.2 := by
  refine ⟨filterRows_nil rows, ?_⟩
  intro r
  unfold filterRows
  rw [if_neg (whereConj_ne_nil hps), List.mem_filter]
  have hm := matchRow_whereConj r.2 ps [] hps (Or.inl rfl) hall
  rw [List.nil_append] at hm
  rw [hm, List.all_eq_true]
  constructor
  · rintro ⟨hr, h⟩
    refine ⟨hr, fun p hp => ?_⟩
    have := h p hp
    simp only [decide_eq_true_eq] at this
    exact rowGet_eq_some this (hall p hp).2.1.1
  · rintro ⟨hr, h⟩
    refine ⟨hr, fun p hp => ?_⟩
    simp only [decide_eq_true_eq]
    unfold rowGet
    rw [h p hp]
    rfl

/-- C15 (witness): the amended statement at the clause `name = Alice AND age = 30`. -/
theorem filterRows_conjunctive_equality_witness :
    filterRows [("1".toList, [("name".toList, "Alice".toList), ("age".toList, "30".toList)])]
        [] =
      [("1".toList, [("name".toList, "Alice".toList), ("age".toList, "30".toList)])] ∧
    ∀ r, r ∈ filterRows
          [("1".toList, [("name".toList, "Alice".toList), ("age".toList, "30".toList)])]
          (whereConj [("name".toList, "Alice".toList), ("age".toList, "30".toList)]) ↔
      r ∈ [("1".toList, [("name".toList, "Alice".toList), ("age".toList, "30".toList)])] ∧
      ∀ p ∈ [("name".toList, "Alice".toList), ("age".toList, "30".toList)],
        mapGet? r.2 p.1 = some p.2 :=
  filterRows_conjunctive_equality
    [("1".toList, [("name".toList, "Alice".toList), ("age".toList, "30".toList)])]
    [("name".toList, "Alice".toList), ("age".toList, "30".toList)] (by decide) (by decide)

/-! ## CREATE TABLE: the stored column definitions -/

theorem lookup_cons_eq (k k1 : Str) (v1 : Str) (l : List (Str × Str)) :
    List.lookup k ((k1, v1) :: l) = if k = k1 then some v1 else List.lookup k l :=
  mapGet?_cons k k1 v1 l

theorem lookup_putKV_self (k v : Str) :
    ∀ l : List (Str × Str), List.lookup k (putKV k v l) = some v := by
  intro l
  induction l with
  | nil => simp [putKV, lookup_cons_eq]
  | cons q l ih =>
    obtain ⟨k1, v1⟩ := q
    rw [putKV]
    by_cases e : k = k1
    · rw [if_pos e, lookup_cons_eq, if_pos rfl]
    · rw [if_neg e]
      by_cases hlt : keyLt k k1 = true
      · rw [if_pos hlt, lookup_cons_eq, if_pos rfl]
      · rw [if_neg hlt, lookup_cons_eq, if_neg e]
        exact ih

theorem lookup_putKV_ne {k k2 : Str} (v : Str) (hne : k2 ≠ k) :
    ∀ l : List (Str × Str), List.lookup k2 (putKV k v l) = List.lookup k2 l := by
  intro l
  induction l with
  | nil => simp [putKV, lookup_cons_eq, hne]
  | cons q l ih =>
    obtain ⟨k1, v1⟩ := q
    rw [putKV]
    by_cases e : k = k1
    · rw [if_pos e, lookup_cons_eq, lookup_cons_eq, ← e, if_neg hne, if_neg hne]
    · rw [if_neg e]
      by_cases hlt : keyLt k k1 = true
      · rw [if_pos hlt, lookup_cons_eq, if_neg hne]
      · rw [if_neg hlt, lookup_cons_eq, lookup_cons_eq, ih]

/-- After a series of `Put`s, a key holds the value of the last `Put` on it, and its old
value when there was none. -/
theorem lookup_foldl_putKV (k : Str) :
    ∀ (ps l : List (Str × Str)),
      List.lookup k (ps.foldl (fun l p => putKV p.1 p.2 l) l) =
        match ps.reverse.find? (fun p => decide (p.1 = k)) with
        | some p => some p.2
        | none => List.lookup k l := by
  intro ps
  induction ps with
  | nil => intro l; rfl
  | cons p ps ih =>
    intro l
    rw [List.foldl_cons, ih, List.reverse_cons, List.find?_append]
    cases h : ps.reverse.find? (fun p => decide (p.1 = k)) with
    | some q => rfl
    | none =>
      simp only [Option.none_or]
      by_cases e : p.1 = k
      · have : List.find? (fun p => decide (p.1 = k)) [p] = some p := by
          simp [List.find?, e]
        rw [this, ← e]
        exact lookup_putKV_self p.1 p.2 l
      · have : List.find? (fun p => decide (p.1 = k)) [p] = none := by
          simp [List.find?, e]
        rw [this]
        exact lookup_putKV_ne p.2 (fun e2 => e e2.symm) l

theorem keys_foldl_putKV (k : Str) :
    ∀ (ps l : List (Str × Str)),
      k ∈ (ps.foldl (fun l p => putKV p.1 p.2 l) l).map Prod.fst ↔
        k ∈ l.map Prod.fst ∨ k ∈ ps.map Prod.fst := by
  intro ps
  induction ps with
  | nil => intro l; simp
  | cons p ps ih =>
    intro l
    rw [List.foldl_cons, ih]
    have hput : k ∈ (putKV p.1 p.2 l).map Prod.fst ↔ k = p.1 ∨ k ∈ l.map Prod.fst := by
      constructor
      · intro h
        obtain ⟨q, hq, e⟩ := List.mem_map.mp h
        rcases mem_putKV l hq with e2 | h2
        · left; rw [← e, e2]
        · right; exact List.mem_map.mpr ⟨q, h2, e⟩
      · rintro (e | h)
        · rw [e]; exact List.mem_map.mpr ⟨(p.1, p.2), mem_putKV_self _ _ l, rfl⟩
        · by_cases e : k = p.1
          · rw [e]; exact List.mem_map.mpr ⟨(p.1, p.2), mem_putKV_self _ _ l, rfl⟩
          · obtain ⟨q, hq, e2⟩ := List.mem_map.mp h
            exact List.mem_map.mpr ⟨q, mem_putKV_of_mem (by rw [e2]; exact e) l hq, e2⟩
    rw [hput, List.map_cons, List.mem_cons]
    constructor
    · rintro ((h | h) | h)
      · exact Or.inr (Or.inl h)
      · exact Or.inl h
      · exact Or.inr (Or.inr h)
    · rintro (h | h | h)
      · exact Or.inl (Or.inr h)
      · exact Or.inl (Or.inl h)
      · exact Or.inr h

theorem foldl_putKV_pairs_sorted :
    ∀ (ps l : List (Str × Str)), l.Pairwise (fun p q => keyLt p.1 q.1 = true) →
      (ps.foldl (fun l p => putKV p.1 p.2 l) l).Pairwise (fun p q => keyLt p.1 q.1 = true) := by
  intro ps
  induction ps with
  | nil => intro l h; exact h
  | cons p ps ih => intro l h; exact ih _ (putKV_sorted _ _ l h)

/-- The statement `CREATE TABLE t (d1,..,dn)` is read as the table name `t` and the
definitions `d1..dn`. -/
theorem createTable_stmt_token (db : DB) (t : Str) (ds : List Str)
    (h1 : t ≠ []) (h2 : ∀ ch ∈ t, isSpace ch = false) (h3 : '(' ∉ t) :
    createTable (some db) (createTableStmt t ds) =
      match createTableTx t (Split (Join ds ",".toList) ",".toList) db with
      | none => none
      | some db1 => some (some db1, .line ("Table ".toList ++ t ++ " created".toList)) := by
  have e : createTableStmt t ds =
      ("CREATE".toList ++ ' ' :: ("TABLE".toList ++ ' ' :: (t ++ [' ']))) ++
        '(' :: (Join ds ",".toList ++ [')']) := by
    simp [createTableStmt]
  have hp : '(' ∉ ("CREATE".toList ++ ' ' :: ("TABLE".toList ++ ' ' :: (t ++ [' ']))) := by
    simp [h3]
  have hf : Fields ("CREATE".toList ++ ' ' :: ("TABLE".toList ++ ' ' :: (t ++ [' ']))) =
      ["CREATE".toList, "TABLE".toList, t] :=
    Fields_three_words (by decide) (by decide) (by decide) (by decide) h2 h1
  have hs : SplitN (createTableStmt t ds) "(".toList 2 =
      ["CREATE".toList ++ ' ' :: ("TABLE".toList ++ ' ' :: (t ++ [' '])),
        Join ds ",".toList ++ [')']] := by
    rw [e]; exact SplitN_two_single hp _
  have hts : TrimSuffix (Join ds ",".toList ++ [')']) ")".toList = Join ds ",".toList :=
    TrimSuffix_append_single _ _
  unfold createTable
  simp only [hs, index_cons_zero, index_cons_succ, hf, hts]
  rfl

/-- The effect of a well-formed `CREATE TABLE t (d1,..,dn)`: the definitions are `Put` one
after the other into the bucket of `t` (a new empty one when the table is missing). -/
theorem createTable_run (db : DB) (t : Str) (ds : List Str)
    (h1 : t ≠ []) (h2 : ∀ ch ∈ t, isSpace ch = false) (h3 : '(' ∉ t)
    (hds : ds ≠ []) (hcomma : ∀ d ∈ ds, ',' ∉ d)
    (hname : ∀ d ∈ ds, Fields (TrimSpace d) ≠ []) :
    createTable (some db) (createTableStmt t ds) =
      some (some (txSetBucket t
          (ds.foldl (fun b d => b.Put ("col:".toList ++ columnName d) d)
            (txCreateBucketIfNotExists db t)) db),
        .line ("Table ".toList ++ t ++ " created".toList)) := by
  have hsp : Split (Join ds ",".toList) ",".toList = ds := Split_Join_single ds hds hcomma
  rw [createTable_stmt_token db t ds h1 h2 h3, hsp]
  unfold createTableTx
  rw [createTableLoop_eq ds _ hname]

theorem foldl_Put_defs (ds : List Str) :
    ∀ b : Bucket,
      (ds.foldl (fun b d => b.Put ("col:".toList ++ columnName d) d) b).kvs =
        (ds.map (fun d => ("col:".toList ++ columnName d, d))).foldl
          (fun l p => putKV p.1 p.2 l) b.kvs ∧
      (ds.foldl (fun b d => b.Put ("col:".toList ++ columnName d) d) b).sequence =
        b.sequence := by
  induction ds with
  | nil => intro b; exact ⟨rfl, rfl⟩
  | cons d ds ih =>
    intro b
    rw [List.foldl_cons, List.map_cons, List.foldl_cons]
    exact ih (b.Put ("col:".toList ++ columnName d) d)

theorem find?_defs (ds : List Str) (k : Str) :
    (match (ds.map (fun d => ("col:".toList ++ columnName d, d))).reverse.find?
        (fun p => decide (p.1 = k)) with
      | some p => some p.2
      | none => none) =
    ds.reverse.find? (fun d => decide ("col:".toList ++ columnName d = k)) := by
  rw [← List.map_reverse, List.find?_map]
  have hf : ((fun p : Str × Str => decide (p.1 = k)) ∘
      fun d => ("col:".toList ++ columnName d, d)) =
      fun d => decide ("col:".toList ++ columnName d = k) := rfl
  rw [hf]
  cases h : ds.reverse.find? (fun d => decide ("col:".toList ++ columnName d = k)) <;> rfl

/-- C11: CREATE TABLE persists exactly the declared columns.  For every statement `CREATE
TABLE t (d1,..,dn)` (t a non-empty name without white space and `(`; n ≥ 1 comma-free
definitions that each have a first token) executed on a database without table `t`, the
statement succeeds and the bucket of `t` afterwards holds its keys in strictly ascending
order, its keys are exactly the keys `col:` + first token of `di`, and the value stored under
a key is the text of the last definition that names that column, verbatim (no value under any
other key). -/
theorem createTable_persists_declared_columns (db : DB) (t : Str) (ds : List Str)
    (h1 : t ≠ []) (h2 : ∀ ch ∈ t, isSpace ch = false) (h3 : '(' ∉ t)
    (hds : ds ≠ []) (hcomma : ∀ d ∈ ds, ',' ∉ d)
    (hname : ∀ d ∈ ds, Fields (TrimSpace d) ≠ [])
    (habs : txBucket db t = none) :
    ∃ db1 b1,
      createTable (some db) (createTableStmt t ds) =
        some (some db1, .line ("Table ".toList ++ t ++ " created".toList)) ∧
      txBucket db1 t = some b1 ∧
      b1.WF ∧
      (∀ k, k ∈ b1.kvs.map Prod.fst ↔ ∃ d ∈ ds, k = "col:".toList ++ columnName d) ∧
      (∀ k, b1.Get k =
        ds.reverse.find? (fun d => decide ("col:".toList ++ columnName d = k))) := by
  have hb0 : txCreateBucketIfNotExists db t = { kvs := [], sequence := 0 } := by
    unfold txCreateBucketIfNotExists
    rw [habs]
  have hrun := createTable_run db t ds h1 h2 h3 hds hcomma hname
  rw [hb0] at hrun
  obtain ⟨hk, _⟩ := foldl_Put_defs ds { kvs := [], sequence := 0 }
  refine ⟨_, _, hrun, txBucket_txSetBucket _ _ _, ?_, ?_, ?_⟩
  · unfold Bucket.WF
    rw [hk]
    exact foldl_putKV_pairs_sorted _ [] List.Pairwise.nil
  · intro k
    rw [hk, keys_foldl_putKV]
    simp only [List.map_nil, List.not_mem_nil, false_or, List.map_map, List.mem_map,
      Function.comp]
    constructor
    · rintro ⟨d, hd, e⟩; exact ⟨d, hd, e.symm⟩
    · rintro ⟨d, hd, e⟩; exact ⟨d, hd, e.symm⟩
  · intro k
    unfold Bucket.Get
    rw [hk, lookup_foldl_putKV]
    exact find?_defs ds k

/-- C11 (witness): `CREATE TABLE users (name text, age text,name varchar)` on an empty
database; the column `name` is defined twice. -/
theorem createTable_persists_declared_columns_witness :
    ∃ db1 b1,
      createTable (some [])
          (createTableStmt "users".toList
            ["name text".toList, " age text".toList, "name varchar".toList]) =
        some (some db1, .line ("Table ".toList ++ "users".toList ++ " created".toList)) ∧
      txBucket db1 "users".toList = some b1 ∧
      b1.WF ∧
      (∀ k, k ∈ b1.kvs.map Prod.fst ↔
        ∃ d ∈ ["name text".toList, " age text".toList, "name varchar".toList],
          k = "col:".toList ++ columnName d) ∧
      (∀ k, b1.Get k =
        ["name text".toList, " age text".toList, "name varchar".toList].reverse.find?
          (fun d => decide ("col:".toList ++ columnName d = k))) :=
  createTable_persists_declared_columns [] "users".toList
    ["name text".toList, " age text".toList, "name varchar".toList]
    (by decide) (by decide) (by decide) (by decide) (by decide) (by decide) (by decide)

/-! ## CREATE TABLE twice -/

theorem keyLt_irrefl : ∀ a : Str, keyLt a a = false := by
  intro a
  induction a with
  | nil => rfl
  | cons x a ih => rw [keyLt_cons]; simp [ih]

theorem lookup_eq_none_of_sorted {k : Str} :
    ∀ l : List (Str × Str), (∀ p ∈ l, keyLt k p.1 = true) → List.lookup k l = none := by
  intro l
  induction l with
  | nil => intro _; rfl
  | cons p l ih =>
    obtain ⟨k1, v1⟩ := p
    intro h
    have hne : k ≠ k1 := by
      intro e
      have := h (k1, v1) (List.mem_cons_self _ _)
      rw [e, keyLt_irrefl] at this
      exact absurd this (by simp)
    rw [lookup_cons_eq, if_neg hne]
    exact ih (fun q hq => h q (List.mem_cons_of_mem _ hq))

theorem lookup_mem_keys {k v : Str} {l : List (Str × Str)} (h : List.lookup k l = some v) :
    (k, v) ∈ l := mapGet?_mem l h

/-- Two key-sorted lists that hold the same value under every key are equal. -/
theorem sorted_ext :
    ∀ (l1 l2 : List (Str × Str)),
      l1.Pairwise (fun p q => keyLt p.1 q.1 = true) →
      l2.Pairwise (fun p q => keyLt p.1 q.1 = true) →
      (∀ k, List.lookup k l1 = List.lookup k l2) → l1 = l2 := by
  intro l1
  induction l1 with
  | nil =>
    intro l2 _ _ h
    cases l2 with
    | nil => rfl
    | cons p l2 =>
      have := h p.1
      rw [show p = (p.1, p.2) from rfl, lookup_cons_eq, if_pos rfl] at this
      exact absurd this (by simp [List.lookup])
  | cons p l1 ih =>
    obtain ⟨k1, v1⟩ := p
    intro l2 s1 s2 h
    cases l2 with
    | nil =>
      have := h k1
      rw [lookup_cons_eq, if_pos rfl] at this
      exact absurd this (by simp [List.lookup])
    | cons q l2 =>
      obtain ⟨k2, v2⟩ := q
      rw [List.pairwise_cons] at s1 s2
      have e1 := h k1
      have e2 := h k2
      rw [lookup_cons_eq, if_pos rfl, lookup_cons_eq] at e1
      rw [lookup_cons_eq, lookup_cons_eq, if_pos rfl] at e2
      have hk : k1 = k2 := by
        by_contra hne
        rw [if_neg hne] at e1
        have hne2 : k2 ≠ k1 := fun e => hne e.symm
        rw [if_neg hne2] at e2
        have m1 := s2.1 _ (lookup_mem_keys e1.symm)
        have m2 := s1.1 _ (lookup_mem_keys e2)
        have := keyLt_trans _ _ _ m1 m2
        rw [keyLt_irrefl] at this
        exact absurd this (by simp)
      subst hk
      rw [if_pos rfl] at e1
      have hv : v1 = v2 := Option.some.inj e1
      subst hv
      congr 1
      refine ih l2 s1.2 s2.2 ?_
      intro k
      by_cases hk : k = k1
      · rw [hk, lookup_eq_none_of_sorted l1 s1.1, lookup_eq_none_of_sorted l2 s2.1]
      · have := h k
        rw [lookup_cons_eq, lookup_cons_eq, if_neg hk, if_neg hk] at this
        exact this

theorem mapSet_mapSet {β : Type} (k : Str) (v w : β) :
    ∀ m : List (Str × β), mapSet k w (mapSet k v m) = mapSet k w m := by
  intro m
  induction m with
  | nil => simp [mapSet]
  | cons p m ih =>
    obtain ⟨k1, v1⟩ := p
    by_cases h : k1 = k
    · simp [mapSet, h]
    · simp [mapSet, h, ih]

theorem txBucket_txSetBucket_ne {name t : Str} (b : Bucket) (db : DB) (h : name ≠ t) :
    txBucket (txSetBucket t b db) name = txBucket db name := by
  rw [txSetBucket_eq_mapSet]
  exact mapGet?_mapSet_ne b h db

/-- Putting the same definitions a second time changes nothing in a key-sorted bucket. -/
theorem foldl_Put_defs_twice (ds : List Str) (b : Bucket) (hwf : b.WF) :
    ds.foldl (fun b d => b.Put ("col:".toList ++ columnName d) d)
        (ds.foldl (fun b d => b.Put ("col:".toList ++ columnName d) d) b) =
      ds.foldl (fun b d => b.Put ("col:".toList ++ columnName d) d) b := by
  obtain ⟨hk1, hs1⟩ := foldl_Put_defs ds b
  obtain ⟨hk2, hs2⟩ := foldl_Put_defs ds
    (ds.foldl (fun b d => b.Put ("col:".toList ++ columnName d) d) b)
  have w1 : (ds.foldl (fun b d => b.Put ("col:".toList ++ columnName d) d) b).kvs.Pairwise
      (fun p q => keyLt p.1 q.1 = true) := by
    rw [hk1]; exact foldl_putKV_pairs_sorted _ _ hwf
  have w2 : (ds.foldl (fun b d => b.Put ("col:".toList ++ columnName d) d)
      (ds.foldl (fun b d => b.Put ("col:".toList ++ columnName d) d) b)).kvs.Pairwise
      (fun p q => keyLt p.1 q.1 = true) := by
    rw [hk2]; exact foldl_putKV_pairs_sorted _ _ w1
  have hkvs := sorted_ext _ _ w2 w1 (by
    intro k
    rw [hk2, lookup_foldl_putKV, hk1, lookup_foldl_putKV]
    cases (ds.map (fun d => ("col:".toList ++ columnName d, d))).reverse.find?
        (fun p => decide (p.1 = k)) <;> rfl)
  generalize ds.foldl (fun b d => b.Put ("col:".toList ++ columnName d) d)
      (ds.foldl (fun b d => b.Put ("col:".toList ++ columnName d) d) b) = x at *
  generalize ds.foldl (fun b d => b.Put ("col:".toList ++ columnName d) d) b = y at *
  cases x; cases y
  simp only at hkvs hs2
  rw [hkvs, hs2]

/-- C18: CREATE TABLE is idempotent.  For every database state (buckets holding their keys in
ascending order) and every well-formed statement `CREATE TABLE t (d1,..,dn)`, the statement
succeeds and running it a second time leaves the database as the first run left it; when the
table exists already, the run keeps the sequence counter, the value under every key other
than the `col:` keys of the columns it names, and so every key that does not start with
`col:` (all row cells), and it overwrites the specification of each column it names: the key
`col:` + first token of `di` then holds the text of the last definition of the statement that
names that column, whatever it held before; and no other table is touched. -/
theorem createTable_idempotent (db : DB) (t : Str) (ds : List Str)
    (h1 : t ≠ []) (h2 : ∀ ch ∈ t, isSpace ch = false) (h3 : '(' ∉ t)
    (hds : ds ≠ []) (hcomma : ∀ d ∈ ds, ',' ∉ d)
    (hname : ∀ d ∈ ds, Fields (TrimSpace d) ≠ [])
    (hwf : ∀ b, txBucket db t = some b → b.WF) :
    ∃ db1,
      createTable (some db) (createTableStmt t ds) =
        some (some db1, .line ("Table ".toList ++ t ++ " created".toList)) ∧
      createTable (some db1) (createTableStmt t ds) =
        some (some db1, .line ("Table ".toList ++ t ++ " created".toList)) ∧
      (∀ b, txBucket db t = some b →
        ∃ b1, txBucket db1 t = some b1 ∧ b1.sequence = b.sequence ∧
          (∀ k, (∀ d ∈ ds, k ≠ "col:".toList ++ columnName d) → b1.Get k = b.Get k) ∧
          (∀ k, HasPrefix k "col:".toList = false → b1.Get k = b.Get k) ∧
          (∀ d ∈ ds, b1.Get ("col:".toList ++ columnName d) =
            ds.reverse.find? (fun d2 =>
              decide ("col:".toList ++ columnName d2 = "col:".toList ++ columnName d)))) ∧
      (∀ name, name ≠ t → txBucket db1 name = txBucket db name) := by
  have hb0 : (txCreateBucketIfNotExists db t).WF := by
    unfold txCreateBucketIfNotExists
    cases hb : txBucket db t with
    | none => exact List.Pairwise.nil
    | some b => exact hwf b hb
  refine ⟨_, createTable_run db t ds h1 h2 h3 hds hcomma hname, ?_, ?_, ?_⟩
  · rw [createTable_run _ t ds h1 h2 h3 hds hcomma hname]
    have hc : txCreateBucketIfNotExists
        (txSetBucket t (ds.foldl (fun b d => b.Put ("col:".toList ++ columnName d) d)
          (txCreateBucketIfNotExists db t)) db) t =
        ds.foldl (fun b d => b.Put ("col:".toList ++ columnName d) d)
          (txCreateBucketIfNotExists db t) := by
      unfold txCreateBucketIfNotExists
      rw [txBucket_txSetBucket]
    rw [hc, foldl_Put_defs_twice ds _ hb0, txSetBucket_eq_mapSet, txSetBucket_eq_mapSet,
      mapSet_mapSet]
  · intro b hb
    have hc : txCreateBucketIfNotExists db t = b := by
      unfold txCreateBucketIfNotExists
      rw [hb]
    obtain ⟨hk, hs⟩ := foldl_Put_defs ds b
    have hother : ∀ k, (∀ d ∈ ds, k ≠ "col:".toList ++ columnName d) →
        (ds.foldl (fun b d => b.Put ("col:".toList ++ columnName d) d) b).Get k = b.Get k := by
      intro k hkn
      unfold Bucket.Get
      rw [hk, lookup_foldl_putKV]
      have hnone : (ds.map (fun d => ("col:".toList ++ columnName d, d))).reverse.find?
          (fun p => decide (p.1 = k)) = none := by
        rw [List.find?_eq_none]
        intro p hp
        rw [List.mem_reverse] at hp
        obtain ⟨d, hd, e⟩ := List.mem_map.mp hp
        simp only [decide_eq_true_eq]
        intro e2
        exact hkn d hd (by rw [← e2, ← e])
      rw [hnone]
    rw [hc]
    refine ⟨_, txBucket_txSetBucket _ _ _, hs, hother, ?_, ?_⟩
    · intro k hpre
      apply hother
      intro d _ e
      rw [e, HasPrefix_append_self] at hpre
      exact absurd hpre (by simp)
    · intro d hd
      unfold Bucket.Get
      rw [hk, lookup_foldl_putKV]
      have hf := find?_defs ds ("col:".toList ++ columnName d)
      cases hfind : (ds.map (fun d => ("col:".toList ++ columnName d, d))).reverse.find?
          (fun p => decide (p.1 = "col:".toList ++ columnName d)) with
      | none =>
        rw [List.find?_eq_none] at hfind
        have hm : ("col:".toList ++ columnName d, d) ∈
            (ds.map (fun d => ("col:".toList ++ columnName d, d))).reverse :=
          List.mem_reverse.mpr (List.mem_map.mpr ⟨d, hd, rfl⟩)
        have := hfind _ hm
        simp only [decide_True, not_true_eq_false] at this
      | some p =>
        rw [hfind] at hf
        exact hf
  · intro name hne
    exact txBucket_txSetBucket_ne _ _ hne

/-- C18 (witness): `CREATE TABLE users (name varchar, city text)` on the `users` database,
where the table exists, has a row and holds another specification of `name`. -/
theorem createTable_idempotent_witness :
    ∃ db1,
      createTable (some usersDB)
          (createTableStmt "users".toList ["name varchar".toList, " city text".toList]) =
        some (some db1, .line ("Table ".toList ++ "users".toList ++ " created".toList)) ∧
      createTable (some db1)
          (createTableStmt "users".toList ["name varchar".toList, " city text".toList]) =
        some (some db1, .line ("Table ".toList ++ "users".toList ++ " created".toList)) ∧
      (∀ b, txBucket usersDB "users".toList = some b →
        ∃ b1, txBucket db1 "users".toList = some b1 ∧ b1.sequence = b.sequence ∧
          (∀ k, (∀ d ∈ ["name varchar".toList, " city text".toList],
            k ≠ "col:".toList ++ columnName d) → b1.Get k = b.Get k) ∧
          (∀ k, HasPrefix k "col:".toList = false → b1.Get k = b.Get k) ∧
          (∀ d ∈ ["name varchar".toList, " city text".toList],
            b1.Get ("col:".toList ++ columnName d) =
              ["name varchar".toList, " city text".toList].reverse.find? (fun d2 =>
                decide ("col:".toList ++ columnName d2 = "col:".toList ++ columnName d)))) ∧
      (∀ name, name ≠ "users".toList → txBucket db1 name = txBucket usersDB name) :=
  createTable_idempotent usersDB "users".toList ["name varchar".toList, " city text".toList]
    (by decide) (by decide) (by decide) (by decide) (by decide) (by decide)
    (by
      intro b hb
      have : b = usersBucket := by
        have h0 : txBucket usersDB "users".toList = some usersBucket := by decide
        rw [h0] at hb
        exact (Option.some.inj hb).symm
      rw [this]
      decide)

/-! ## INSERT: the cells of the new row -/

theorem WF_Put {b : Bucket} (h : b.WF) (k v : Str) : (b.Put k v).WF :=
  putKV_sorted k v b.kvs h

theorem WF_Delete {b : Bucket} (h : b.WF) (k : Str) : (b.Delete k).WF :=
  List.Pairwise.filter _ h

theorem createTableLoop_WF :
    ∀ (ds : List Str) (b b1 : Bucket), b.WF → createTableLoop b ds = some b1 → b1.WF := by
  intro ds
  induction ds with
  | nil => intro b b1 hb h; rw [createTableLoop] at h; cases h; exact hb
  | cons d ds ih =>
    intro b b1 hb h
    rw [createTableLoop] at h
    split at h
    · exact absurd h (by simp)
    · exact ih _ b1 (WF_Put hb _ _) h

theorem insertLoop_WF (id : Nat) (vals : List Str) :
    ∀ (cols : List Str) (b : Bucket) (i : Nat) (b1 : Bucket), b.WF →
      insertLoop id vals b i cols = some b1 → b1.WF := by
  intro cols
  induction cols with
  | nil => intro b i b1 hb h; rw [insertLoop] at h; cases h; exact hb
  | cons c cols ih =>
    intro b i b1 hb h
    rw [insertLoop] at h
    split at h
    · exact absurd h (by simp)
    · exact ih _ _ b1 (WF_Put hb _ _) h

theorem updateLoop_WF (cond sc sv : Str) :
    ∀ (l : List (Str × Str)) (b b1 : Bucket), b.WF →
      updateLoop cond sc sv b l = some b1 → b1.WF := by
  intro l
  induction l with
  | nil => intro b b1 hb h; rw [updateLoop] at h; cases h; exact hb
  | cons p l ih =>
    obtain ⟨k, v⟩ := p
    intro b b1 hb h
    rw [updateLoop] at h
    split at h
    · simp only at h
      split at h
      · split at h
        · exact ih _ b1 (WF_Put hb _ _) h
        · exact ih b b1 hb h
      · exact absurd h (by simp)
    · exact ih b b1 hb h

theorem deleteLoop_WF (cond : Str) :
    ∀ (l : List (Str × Str)) (b b1 : Bucket), b.WF →
      deleteLoop cond b l = some b1 → b1.WF := by
  intro l
  induction l with
  | nil => intro b b1 hb h; rw [deleteLoop] at h; cases h; exact hb
  | cons p l ih =>
    obtain ⟨k, v⟩ := p
    intro b b1 hb h
    rw [deleteLoop] at h
    split at h
    · simp only at h
      split at h
      · split at h
        · exact ih _ b1 (WF_Delete hb k) h
        · exact ih b b1 hb h
      · exact absurd h (by simp)
    · exact ih b b1 hb h

/-- Every bucket of a reachable database holds its keys in strictly ascending order. -/
theorem Reachable_WF {db : DB} (h : Reachable db) : ∀ p ∈ db, p.2.WF := by
  induction h with
  | empty => intro p hp; simp at hp
  | create _ hrun ih =>
    rcases createTable_inv hrun with e | ⟨name, cols, b1, hloop, e⟩
    · rw [e]; exact ih
    · intro p hp
      rw [e] at hp
      rcases mem_txSetBucket _ hp with e1 | hp
      · rw [e1]
        refine createTableLoop_WF cols _ b1 ?_ hloop
        unfold txCreateBucketIfNotExists
        split
        · next b hb => exact ih (name, b) (txBucket_mem hb)
        · exact List.Pairwise.nil
      · exact ih p hp
  | insert _ _ hrun ih =>
    rcases insertIntoTable_inv hrun with e | ⟨name, cols, vals, b, b1, hb, hloop, e⟩
    · rw [e]; exact ih
    · intro p hp
      rw [e] at hp
      rcases mem_txSetBucket _ hp with e1 | hp
      · rw [e1]
        have hb1 : (b.NextSequence).1.WF := ih (name, b) (txBucket_mem hb)
        exact insertLoop_WF _ vals cols _ 0 b1 hb1 hloop
      · exact ih p hp
  | update _ hrun ih =>
    rcases updateTable_inv hrun with e | ⟨name, cond, sc, sv, b, b1, hb, hloop, e⟩
    · rw [e]; exact ih
    · intro p hp
      rw [e] at hp
      rcases mem_txSetBucket _ hp with e1 | hp
      · rw [e1]
        exact updateLoop_WF cond sc sv b.kvs b b1 (ih (name, b) (txBucket_mem hb)) hloop
      · exact ih p hp
  | delete _ hrun ih =>
    rcases deleteFromTable_inv hrun with e | ⟨name, cond, b, b1, hb, hloop, e⟩
    · rw [e]; exact ih
    · intro p hp
      rw [e] at hp
      rcases mem_txSetBucket _ hp with e1 | hp
      · rw [e1]
        exact deleteLoop_WF cond b.kvs b b1 (ih (name, b) (txBucket_mem hb)) hloop
      · exact ih p hp

/-- The statement `INSERT INTO t (c1,..,cN) VALUES (v1,..,vN)` is read as the table name `t`,
the columns `c1..cN` and the values `v1..vN`. -/
theorem insertIntoTable_stmt_token (db : DB) (t : Str) (cs vs : List Str)
    (h1 : t ≠ []) (h2 : ∀ ch ∈ t, isSpace ch = false) (h3 : '(' ∉ t)
    (hcs : ∀ c ∈ cs, ',' ∉ c ∧ ')' ∉ c) (hvs : ∀ v ∈ vs, ',' ∉ v) (hcs0 : cs ≠ [])
    (hvs0 : vs ≠ []) :
    insertIntoTable (some db) (insertStmt t cs vs) =
      match insertTx t cs vs db with
      | none => none
      | some (.error e) => some (some db, .line ("Error inserting into table: ".toList ++ e))
      | some (.ok db1) =>
        some (some db1, .line ("Record inserted into table ".toList ++ t)) := by
  have e : insertStmt t cs vs =
      ("INSERT".toList ++ ' ' :: ("INTO".toList ++ ' ' :: (t ++ [' ']))) ++
        '(' :: (Join cs ",".toList ++
          ')' :: (" VALUES ".toList ++ '(' :: (Join vs ",".toList ++ [')']))) := by
    simp [insertStmt]
  have hp : '(' ∉ ("INSERT".toList ++ ' ' :: ("INTO".toList ++ ' ' :: (t ++ [' ']))) := by
    simp [h3]
  have hs1 : SplitN (insertStmt t cs vs) "(".toList 2 =
      ["INSERT".toList ++ ' ' :: ("INTO".toList ++ ' ' :: (t ++ [' '])),
        Join cs ",".toList ++
          ')' :: (" VALUES ".toList ++ '(' :: (Join vs ",".toList ++ [')']))] := by
    rw [e]; exact SplitN_two_single hp _
  have hj : ')' ∉ Join cs ",".toList :=
    not_mem_Join (by decide) cs (fun c hc => (hcs c hc).2)
  have hs2 : SplitN (Join cs ",".toList ++
        ')' :: (" VALUES ".toList ++ '(' :: (Join vs ",".toList ++ [')']))) ")".toList 2 =
      [Join cs ",".toList, " VALUES ".toList ++ '(' :: (Join vs ",".toList ++ [')'])] :=
    SplitN_two_single hj _
  have hs3 : SplitN (" VALUES ".toList ++ '(' :: (Join vs ",".toList ++ [')'])) "(".toList 2 =
      [" VALUES ".toList, Join vs ",".toList ++ [')']] :=
    SplitN_two_single (by decide) _
  have hts : TrimSuffix (Join vs ",".toList ++ [')']) ")".toList = Join vs ",".toList :=
    TrimSuffix_append_single _ _
  have hf : Fields ("INSERT".toList ++ ' ' :: ("INTO".toList ++ ' ' :: (t ++ [' ']))) =
      ["INSERT".toList, "INTO".toList, t] :=
    Fields_three_words (by decide) (by decide) (by decide) (by decide) h2 h1
  have hc : Split (Join cs ",".toList) ",".toList = cs :=
    Split_Join_single cs hcs0 (fun c hc => (hcs c hc).1)
  have hv : Split (Join vs ",".toList) ",".toList = vs :=
    Split_Join_single vs hvs0 hvs
  unfold insertIntoTable
  simp only [hs1, index_cons_zero, index_cons_succ, hf, hs2, hs3, hts, hc, hv]
  rfl

/-- C16 (counterexample): when a column is named twice, the key `<id>:<column>` holds the
value of the last pair only, and an insert without a column still writes a key.  After
`CREATE TABLE t (a)`, the statement `INSERT INTO t (a,a) VALUES (1,2)` leaves `1:a = 2` (not
the value `1` of the first pair), and `INSERT INTO t () VALUES ()` adds the key `2:`. -/
theorem insert_duplicate_column_keeps_last_value :
    mainLoop freshSession
      ["CREATE DATABASE d".toList, "CREATE TABLE t (a)".toList,
       "INSERT INTO t (a,a) VALUES (1,2)".toList, "INSERT INTO t () VALUES ()".toList] =
    some ({ files := [("d".toList, [("t".toList,
              Bucket.mk [("1:a".toList, "2".toList), ("2:".toList, []),
                ("col:a".toList, "a".toList)] 2)])],
            currentDB := some "d".toList },
      [.line "Database d created and selected".toList, .line "Table t created".toList,
       .line "Record inserted into table t".toList,
       .line "Record inserted into table t".toList]) := by
  decide

/-- C16 (amended): all cells of one insert share one fresh row id.  For every database
reachable by CREATE TABLE, INSERT, UPDATE and DELETE statements, every table `t` of it whose
sequence counter does not wrap around, and every statement `INSERT INTO t (c1,..,cN) VALUES
(v1,..,vN)` with N ≥ 1 columns and N values (columns free of `,` and `)`, values free of `,`):
the insert succeeds; the row id is the value newly drawn from the sequence counter of `t`,
the counter before plus one; afterwards the value under a key `<id>:<c>`, `c` a trimmed
column of the statement, is the trimmed value of the last pair that names `c`, and the value
under every other key is what it was before; no key of the table before the insert has the
form `<id>:<rest>`; the keys stay in ascending order and no other table is touched. -/
theorem insert_writes_cells_of_fresh_row
    (db : DB) (t : Str) (b : Bucket) (cs vs : List Str)
    (hreach : Reachable db) (hb : txBucket db t = some b)
    (hseq : b.sequence + 1 < 2 ^ 64)
    (hcs0 : cs ≠ []) (hlen : cs.length = vs.length)
    (hcs : ∀ c ∈ cs, ',' ∉ c ∧ ')' ∉ c) (hvs : ∀ v ∈ vs, ',' ∉ v) :
    ∃ db1 b1,
      insertIntoTable (some db) (insertStmt t cs vs) =
        some (some db1, .line ("Record inserted into table ".toList ++ t)) ∧
      txBucket db1 t = some b1 ∧
      b1.WF ∧
      b1.sequence = b.sequence + 1 ∧
      (∀ k, b1.Get k =
        match (cs.zip vs).reverse.find?
          (fun p => decide (itoa (b.sequence + 1) ++ ":".toList ++ TrimSpace p.1 = k)) with
        | some p => some (TrimSpace p.2)
        | none => b.Get k) ∧
      (∀ k ∈ b.kvs.map Prod.fst, ∀ rest, k ≠ itoa (b.sequence + 1) ++ ':' :: rest) ∧
      (∀ name, name ≠ t → txBucket db1 name = txBucket db name) := by
  have hinv : KeyInv b := Reachable_KeyInv hreach _ (txBucket_mem hb)
  have hwf : b.WF := Reachable_WF hreach (t, b) (txBucket_mem hb)
  obtain ⟨h1, h2, h3⟩ := Reachable_names hreach (t, b) (txBucket_mem hb)
  have hvs0 : vs ≠ [] := by
    intro e
    rw [e] at hlen
    exact hcs0 (List.eq_nil_of_length_eq_zero hlen)
  let idS : Str := itoa (b.sequence + 1)
  let news : List (Str × Str) :=
    (cs.zip vs).map (fun p => (idS ++ ":".toList ++ TrimSpace p.1, TrimSpace p.2))
  let b2 : Bucket := news.foldl (fun b p => b.Put p.1 p.2) (b.NextSequence).1
  have hid : (b.NextSequence).2 = b.sequence + 1 := Nat.mod_eq_of_lt hseq
  have hsq : (b.NextSequence).1.sequence = b.sequence + 1 := Nat.mod_eq_of_lt hseq
  have hloop : insertLoop (b.NextSequence).2 vs (b.NextSequence).1 0 cs = some b2 := by
    rw [insertLoop_eq _ vs cs _ 0 (by omega), hid]
    show some _ = some (List.foldl _ _ (List.map _ _))
    rw [List.foldl_map]
    rfl
  obtain ⟨hkvs, hseq2⟩ := foldl_Put_pairs news (b.NextSequence).1
  have hkvs2 : b2.kvs = news.foldl (fun l q => putKV q.1 q.2 l) b.kvs := hkvs
  have htx : insertTx t cs vs db = some (.ok (txSetBucket t b2 db)) := by
    unfold insertTx
    rw [hb]
    simp only [hloop]
  refine ⟨txSetBucket t b2 db, b2, ?_, txBucket_txSetBucket _ _ _, ?_, ?_, ?_, ?_, ?_⟩
  · rw [insertIntoTable_stmt_token db t cs vs h1 h2 h3 hcs hvs hcs0 hvs0, htx]
  · unfold Bucket.WF
    rw [hkvs2]
    exact foldl_putKV_pairs_sorted news b.kvs hwf
  · exact hseq2.trans hsq
  · intro k
    unfold Bucket.Get
    rw [hkvs2, lookup_foldl_putKV]
    have hn : news.reverse = (cs.zip vs).reverse.map
        (fun p => (idS ++ ":".toList ++ TrimSpace p.1, TrimSpace p.2)) :=
      (List.map_reverse _ _).symm
    rw [hn, List.find?_map]
    have hf : ((fun p : Str × Str => decide (p.1 = k)) ∘
        fun p : Str × Str => (idS ++ ":".toList ++ TrimSpace p.1, TrimSpace p.2)) =
        fun p => decide (itoa (b.sequence + 1) ++ ":".toList ++ TrimSpace p.1 = k) := rfl
    rw [hf]
    cases (cs.zip vs).reverse.find?
        (fun p => decide (itoa (b.sequence + 1) ++ ":".toList ++ TrimSpace p.1 = k)) <;> rfl
  · intro k hk rest e
    obtain ⟨q, hq, e2⟩ := List.mem_map.mp hk
    obtain ⟨col, hc⟩ := keyCell_itoa_key (b.sequence + 1) rest
    refine old_key_not_new_id hinv hq col ?_
    rw [e2, e, hc]
  · intro name hne
    exact txBucket_txSetBucket_ne _ _ hne

/-- C16 (witness): the amended statement at `INSERT INTO users (name,age) VALUES (Bob,41)` on
the `users` database. -/
theorem insert_writes_cells_of_fresh_row_witness :
    ∃ db1 b1,
      insertIntoTable (some usersDB)
          (insertStmt "users".toList ["name".toList, "age".toList]
            ["Bob".toList, "41".toList]) =
        some (some db1, .line ("Record inserted into table ".toList ++ "users".toList)) ∧
      txBucket db1 "users".toList = some b1 ∧
      b1.WF ∧
      b1.sequence = usersBucket.sequence + 1 ∧
      (∀ k, b1.Get k =
        match (["name".toList, "age".toList].zip ["Bob".toList, "41".toList]).reverse.find?
          (fun p => decide (itoa (usersBucket.sequence + 1) ++ ":".toList ++ TrimSpace p.1
            = k)) with
        | some p => some (TrimSpace p.2)
        | none => usersBucket.Get k) ∧
      (∀ k ∈ usersBucket.kvs.map Prod.fst, ∀ rest,
        k ≠ itoa (usersBucket.sequence + 1) ++ ':' :: rest) ∧
      (∀ name, name ≠ "users".toList → txBucket db1 name = txBucket usersDB name) :=
  insert_writes_cells_of_fresh_row usersDB "users".toList usersBucket
    ["name".toList, "age".toList] ["Bob".toList, "41".toList]
    usersDB_reachable (by decide) (by decide) (by decide) (by decide) (by decide) (by decide)

/-! ## Row ids along a script -/

namespace strings

theorem TrimSpace_eq (s : Str) : TrimSpace s = trimRight (trimLeft s) := rfl

theorem dropWhile_append_cons_neg {p : Char → Bool} {ch : Char} (hch : p ch = false) (y : Str) :
    ∀ x : Str, (x ++ ch :: y).dropWhile p = x.dropWhile p ++ ch :: y := by
  intro x
  induction x with
  | nil =>
    show (ch :: y).dropWhile p = ch :: y
    exact List.dropWhile_cons_of_neg (by simp [hch])
  | cons a x ih =>
    by_cases hp : p a = true
    · rw [List.cons_append, List.dropWhile_cons_of_pos hp, List.dropWhile_cons_of_pos hp]
      exact ih
    · rw [List.cons_append, List.dropWhile_cons_of_neg hp, List.dropWhile_cons_of_neg hp]
      rfl

theorem dropWhile_dropWhile {p : Char → Bool} :
    ∀ x : Str, (x.dropWhile p).dropWhile p = x.dropWhile p := by
  intro x
  induction x with
  | nil => rfl
  | cons a x ih =>
    by_cases hp : p a = true
    · rw [List.dropWhile_cons_of_pos hp]; exact ih
    · rw [List.dropWhile_cons_of_neg hp, List.dropWhile_cons_of_neg hp]

theorem trimLeft_append_cons {ch : Char} (hch : isSpace ch = false) (x y : Str) :
    trimLeft (x ++ ch :: y) = trimLeft x ++ ch :: y :=
  dropWhile_append_cons_neg hch y x

theorem trimRight_append_cons {ch : Char} (hch : isSpace ch = false) (x y : Str) :
    trimRight (x ++ ch :: y) = x ++ ch :: trimRight y := by
  unfold trimRight
  have e : (x ++ ch :: y).reverse = y.reverse ++ ch :: x.reverse := by simp
  rw [e, dropWhile_append_cons_neg hch]
  simp

theorem trimLeft_trimLeft (x : Str) : trimLeft (trimLeft x) = trimLeft x :=
  dropWhile_dropWhile x

theorem trimRight_trimRight (x : Str) : trimRight (trimRight x) = trimRight x := by
  unfold trimRight
  rw [List.reverse_reverse, dropWhile_dropWhile]

theorem trimRight_cons_space {a : Char} (ha : isSpace a = true) (x : Str) :
    (trimRight x = [] ∧ trimRight (a :: x) = []) ∨
    (trimRight x ≠ [] ∧ trimRight (a :: x) = a :: trimRight x) := by
  unfold trimRight
  rw [List.reverse_cons]
  rcases dropWhile_append_or (p := isSpace) [a] x.reverse with ⟨h1, h2⟩ | ⟨h1, h2⟩
  · left
    rw [h2, h1, List.dropWhile_cons_of_pos ha]
    exact ⟨rfl, rfl⟩
  · right
    rw [h2]
    refine ⟨?_, by simp⟩
    intro h
    exact h1 (List.reverse_eq_nil_iff.mp h)

/-- The two passes of `TrimSpace` commute. -/
theorem trimLeft_trimRight : ∀ x : Str, trimLeft (trimRight x) = trimRight (trimLeft x) := by
  intro x
  induction x with
  | nil => rfl
  | cons a x ih =>
    by_cases ha : isSpace a = true
    · have hl : trimLeft (a :: x) = trimLeft x := List.dropWhile_cons_of_pos ha
      rw [hl, ← ih]
      rcases trimRight_cons_space ha x with ⟨h1, h2⟩ | ⟨_, h2⟩
      · rw [h2, h1]
      · rw [h2]
        exact List.dropWhile_cons_of_pos ha
    · have ha2 : isSpace a = false := by simpa using ha
      have hl : trimLeft (a :: x) = a :: x := List.dropWhile_cons_of_neg ha
      have hr : trimRight (a :: x) = a :: trimRight x := trimRight_append_cons ha2 [] x
      rw [hl, hr]
      exact List.dropWhile_cons_of_neg ha

theorem TrimSpace_trimLeft (x : Str) : TrimSpace (trimLeft x) = TrimSpace x := by
  rw [TrimSpace_eq, TrimSpace_eq, trimLeft_trimLeft]

theorem TrimSpace_trimRight (x : Str) : TrimSpace (trimRight x) = TrimSpace x := by
  rw [TrimSpace_eq, TrimSpace_eq, ← trimLeft_trimRight, ← trimLeft_trimRight,
    trimRight_trimRight]

theorem not_mem_dropWhile {ch : Char} {p : Char → Bool} {x : Str} (h : ch ∉ x) :
    ch ∉ x.dropWhile p :=
  fun hm => h ((List.dropWhile_sublist p).subset hm)

theorem not_mem_trimLeft {ch : Char} {x : Str} (h : ch ∉ x) : ch ∉ trimLeft x :=
  not_mem_dropWhile h

theorem not_mem_trimRight {ch : Char} {x : Str} (h : ch ∉ x) : ch ∉ trimRight x := by
  unfold trimRight
  rw [List.mem_reverse]
  exact not_mem_dropWhile (fun hm => h (List.mem_reverse.mp hm))

theorem trimLeft_Join (x : Str) (rest : List Str) :
    trimLeft (Join (x :: rest) ",".toList) = Join (trimLeft x :: rest) ",".toList := by
  cases rest with
  | nil => rfl
  | cons y rest =>
    show trimLeft (x ++ [','] ++ Join (y :: rest) ",".toList) = _
    rw [List.append_assoc, List.singleton_append, trimLeft_append_cons (by decide)]
    show _ = trimLeft x ++ [','] ++ Join (y :: rest) ",".toList
    rw [List.append_assoc, List.singleton_append]

/-- Cutting a joined column list whose end has been trimmed, and trimming the pieces. -/
theorem Split_trimRight_Join :
    ∀ cs : List Str, cs ≠ [] → (∀ c ∈ cs, ',' ∉ c) →
      (Split (trimRight (Join cs ",".toList)) ",".toList).map TrimSpace = cs.map TrimSpace := by
  intro cs
  induction cs with
  | nil => intro h; exact absurd rfl h
  | cons x rest ih =>
    intro _ hall
    have hx := hall x (List.mem_cons_self _ _)
    cases rest with
    | nil =>
      show (Split (trimRight x) [',']).map TrimSpace = _
      rw [Split_single_none (not_mem_trimRight hx)]
      simp only [List.map_cons, List.map_nil, TrimSpace_trimRight]
    | cons y rest =>
      show (Split (trimRight (x ++ [','] ++ Join (y :: rest) ",".toList)) [',']).map TrimSpace = _
      rw [List.append_assoc, List.singleton_append, trimRight_append_cons (by decide),
        Split_single_cons hx, List.map_cons, List.map_cons]
      have h2 := ih (List.cons_ne_nil _ _) (fun z hz => hall z (List.mem_cons_of_mem _ hz))
      have h3 : Split (trimRight (Join (y :: rest) ",".toList)) [','] =
          Split (trimRight (Join (y :: rest) ",".toList)) ",".toList := rfl
      rw [h3, h2]

/-- The column list that `parseSelectQuery` reads from the text between `SELECT ` and
`FROM`. -/
theorem columns_of_Join (cs : List Str) (hcs : cs ≠ []) (hall : ∀ c ∈ cs, ',' ∉ c) :
    (Split (TrimSpace (Join cs ",".toList ++ [' '])) ",".toList).map TrimSpace =
      cs.map TrimSpace := by
  rw [TrimSpace_append_space (by decide)]
  obtain ⟨x, rest, rfl⟩ := List.exists_cons_of_ne_nil hcs
  rw [TrimSpace_eq, trimLeft_Join,
    Split_trimRight_Join (trimLeft x :: rest) (List.cons_ne_nil _ _)]
  · simp only [List.map_cons, TrimSpace_trimLeft]
  · intro c hc
    rcases List.mem_cons.mp hc with e | hm
    · rw [e]; exact not_mem_trimLeft (hall x (List.mem_cons_self _ _))
    · exact hall c (List.mem_cons_of_mem _ hm)

theorem HasPrefix_append_right : ∀ (sep x : Str) (y : Str),
    HasPrefix x sep = true → HasPrefix (x ++ y) sep = true := by
  intro sep
  induction sep with
  | nil => intro x y _; exact HasPrefix_nil _
  | cons p ps ih =>
    intro x y h
    cases x with
    | nil => simp [HasPrefix] at h
    | cons a x =>
      rw [HasPrefix_cons_cons] at h
      rw [List.cons_append, HasPrefix_cons_cons]
      simp only [Bool.and_eq_true] at h ⊢
      exact ⟨h.1, ih x y h.2⟩

/-- A text without `sep` has no `sep` in any of its prefixes. -/
theorem indexOf_prefix_none {sep : Str} (hsep : sep ≠ []) (y : Str) :
    ∀ x : Str, indexOf sep (x ++ y) = none → indexOf sep x = none := by
  intro x
  induction x with
  | nil => intro _; exact indexOf_nil_sep hsep
  | cons a x ih =>
    intro h
    rw [List.cons_append, indexOf_cons_eq_none] at h
    rw [indexOf_cons_eq_none]
    refine ⟨?_, ih h.2⟩
    cases hp : HasPrefix (a :: x) sep with
    | false => rfl
    | true =>
      have := HasPrefix_append_right sep (a :: x) y hp
      rw [List.cons_append, h.1] at this
      exact absurd this (by simp)

/-- A text without `sep` has no `sep` after its leading characters are dropped. -/
theorem indexOf_dropWhile_none {sep : Str} (p : Char → Bool) :
    ∀ x : Str, indexOf sep x = none → indexOf sep (x.dropWhile p) = none := by
  intro x
  induction x with
  | nil => intro h; exact h
  | cons a x ih =>
    intro h
    by_cases hp : p a = true
    · rw [List.dropWhile_cons_of_pos hp]
      exact ih (indexOf_cons_eq_none.mp h).2
    · rw [List.dropWhile_cons_of_neg hp]
      exact h

theorem trimRight_prefix (x : Str) : ∃ z, trimRight x ++ z = x := by
  obtain ⟨z, hz⟩ := List.dropWhile_suffix isSpace (l := x.reverse)
  refine ⟨z.reverse, ?_⟩
  have := congrArg List.reverse hz
  rw [List.reverse_append, List.reverse_reverse] at this
  exact this

theorem indexOf_TrimSpace_none {sep : Str} (hsep : sep ≠ []) {x : Str}
    (h : indexOf sep x = none) : indexOf sep (TrimSpace x) = none := by
  rw [TrimSpace_eq]
  obtain ⟨z, hz⟩ := trimRight_prefix (trimLeft x)
  apply indexOf_prefix_none hsep z
  rw [hz]
  exact indexOf_dropWhile_none isSpace x h

/-- The first occurrence of a keyword that follows a part without it and a space. -/
theorem indexOf_keyword {sep x : Str} (hsp : ' ' ∉ sep) (hsep : sep ≠ [])
    (hx : indexOf sep x = none) (y : Str) :
    indexOf sep (x ++ [' '] ++ sep ++ y) = some (x ++ [' ']).length := by
  have e : x ++ [' '] ++ sep ++ y = x ++ ' ' :: (sep ++ y) := by simp
  rw [e, indexOf_append_cons hsp hsep _ x hx, indexOf_of_HasPrefix (HasPrefix_append_self _ _)]
  simp

/-- One cut at a known first occurrence of the separator. -/
theorem genSplit_append {sep x y : Str} (h : indexOf sep (x ++ sep ++ y) = some x.length)
    (n : Nat) : genSplit sep (n + 1) (x ++ sep ++ y) = x :: genSplit sep n y := by
  rw [genSplit_some h]
  have e1 : (x ++ sep ++ y).take x.length = x := by
    rw [List.append_assoc, List.take_left]
  have e2 : (x ++ sep ++ y).drop (x.length + sep.length) = y := by
    rw [← List.length_append, List.drop_left]
  rw [e1, e2]

end strings

theorem indexOf_FROM_Join :
    ∀ cs : List Str, (∀ c ∈ cs, indexOf "FROM".toList c = none) →
      indexOf "FROM".toList (Join cs ",".toList) = none := by
  intro cs
  induction cs with
  | nil => intro _; rfl
  | cons x rest ih =>
    intro hall
    cases rest with
    | nil => exact hall x (List.mem_cons_self _ _)
    | cons y rest =>
      show indexOf "FROM".toList (x ++ [','] ++ Join (y :: rest) ",".toList) = none
      rw [List.append_assoc, List.singleton_append,
        indexOf_append_cons (by decide) (by decide) _ x (hall x (List.mem_cons_self _ _)),
        ih (fun z hz => hall z (List.mem_cons_of_mem _ hz))]
      rfl

/-- The cut of a SELECT statement at its keyword `FROM`. -/
theorem SplitN_FROM_select (cs : List Str) (hF : ∀ c ∈ cs, indexOf "FROM".toList c = none)
    (rest : Str) :
    SplitN ("SELECT ".toList ++ Join cs ",".toList ++ " FROM ".toList ++ rest) "FROM".toList 2 =
      ["SELECT ".toList ++ Join cs ",".toList ++ [' '], ' ' :: rest] := by
  have hx : indexOf "FROM".toList ("SELECT ".toList ++ Join cs ",".toList) = none := by
    have e : "SELECT ".toList ++ Join cs ",".toList =
        "SELECT".toList ++ ' ' :: Join cs ",".toList := rfl
    rw [e, indexOf_append_cons (by decide) (by decide) _ _ (by decide), indexOf_FROM_Join cs hF]
    rfl
  have i := indexOf_keyword (by decide) (by decide) hx (' ' :: rest)
  have e : "SELECT ".toList ++ Join cs ",".toList ++ " FROM ".toList ++ rest =
      "SELECT ".toList ++ Join cs ",".toList ++ [' '] ++ "FROM".toList ++ ' ' :: rest := by
    have e2 : " FROM ".toList = [' '] ++ "FROM".toList ++ [' '] := rfl
    rw [e2]
    simp only [List.append_assoc, List.singleton_append]
  rw [e]
  show genSplit "FROM".toList 1 _ = _
  rw [genSplit_append i 0]
  rfl

theorem sliceFrom_SELECT (x : Str) : sliceFrom ("SELECT ".toList ++ x) 7 = some x := by
  unfold sliceFrom
  have hl : 7 ≤ ("SELECT ".toList ++ x).length := by
    rw [List.length_append]
    exact Nat.le_add_right 7 _
  rw [if_pos hl]
  exact congrArg some (List.drop_left' rfl)

/-- Trimming the text `t WHERE cond`. -/
theorem TrimSpace_table_WHERE (t cond : Str) :
    TrimSpace (t ++ " WHERE ".toList ++ cond) =
      trimLeft (t ++ [' ']) ++ "WHERE".toList ++ trimRight (' ' :: cond) := by
  have e1 : t ++ " WHERE ".toList ++ cond =
      (t ++ [' ']) ++ 'W' :: ("HERE".toList ++ ' ' :: cond) := by
    have e : " WHERE ".toList = [' '] ++ 'W' :: ("HERE".toList ++ [' ']) := rfl
    rw [e]
    simp only [List.append_assoc, List.singleton_append, List.cons_append, List.nil_append]
  have hW : isSpace 'W' = false := by decide
  have hE : isSpace 'E' = false := by decide
  rw [TrimSpace_eq, e1, trimLeft_append_cons hW]
  have e2 : trimLeft (t ++ [' ']) ++ 'W' :: ("HERE".toList ++ ' ' :: cond) =
      (trimLeft (t ++ [' ']) ++ "WHER".toList) ++ 'E' :: (' ' :: cond) := by
    have e : "HERE".toList = 'H' :: 'E' :: 'R' :: ['E'] := rfl
    have e3 : "WHER".toList = 'W' :: 'H' :: 'E' :: ['R'] := rfl
    rw [e, e3]
    simp only [List.append_assoc, List.singleton_append, List.cons_append, List.nil_append]
  rw [e2, trimRight_append_cons hE]
  have e4 : "WHERE".toList = "WHER".toList ++ ['E'] := rfl
  rw [e4]
  simp only [List.append_assoc, List.singleton_append, List.cons_append, List.nil_append]

/-- The keyword `WHERE` is found right after the table name. -/
theorem indexOf_WHERE_table {t : Str} (ht : indexOf "WHERE".toList t = none) (y : Str) :
    indexOf "WHERE".toList (trimLeft (t ++ [' ']) ++ "WHERE".toList ++ y) =
      some (trimLeft (t ++ [' '])).length := by
  unfold trimLeft
  rcases dropWhile_append_or (p := isSpace) [' '] t with ⟨_, h2⟩ | ⟨_, h2⟩
  · have h3 : ([' '] : Str).dropWhile isSpace = [] := rfl
    rw [h2, h3]
    exact indexOf_of_HasPrefix (HasPrefix_append_self _ _)
  · rw [h2]
    exact indexOf_keyword (by decide) (by decide) (indexOf_dropWhile_none isSpace t ht) y

/-- **C14.** `parseSelectQuery` extracts trimmed fields: for the statement
`SELECT c1,..,cn FROM t`, with or without ` WHERE cond`, where `n ≥ 1`, no column name
contains `FROM` or a comma and the table name does not contain `WHERE`, it returns the
column names in order, each with its surrounding white space removed, the trimmed table name,
and the trimmed condition text (the empty text when there is no WHERE). -/
theorem parseSelectQuery_trimmed_fields (cs : List Str) (t cond : Str) (hcs : cs ≠ [])
    (hc : ∀ c ∈ cs, indexOf "FROM".toList c = none ∧ ',' ∉ c)
    (ht : indexOf "WHERE".toList t = none) :
    parseSelectQuery (selectStmt cs t) = some (cs.map TrimSpace, TrimSpace t, []) ∧
    parseSelectQuery (selectWhereStmt cs t cond) =
      some (cs.map TrimSpace, TrimSpace t, TrimSpace cond) := by
  have hF : ∀ c ∈ cs, indexOf "FROM".toList c = none := fun c h => (hc c h).1
  have hcols := columns_of_Join cs hcs (fun c h => (hc c h).2)
  have hs : sliceFrom ("SELECT ".toList ++ Join cs ",".toList ++ [' ']) 7 =
      some (Join cs ",".toList ++ [' ']) := by
    rw [List.append_assoc]
    exact sliceFrom_SELECT _
  have hsp : isSpace ' ' = true := by decide
  constructor
  · have hno : Contains (TrimSpace t) "WHERE".toList = false := by
      unfold Contains
      rw [indexOf_TrimSpace_none (by decide) ht]
      rfl
    unfold parseSelectQuery selectStmt
    simp only [SplitN_FROM_select cs hF t, index_cons_zero, index_cons_succ, hs, hcols,
      TrimSpace_cons_space hsp, hno]
    rfl
  · have e : selectWhereStmt cs t cond =
        "SELECT ".toList ++ Join cs ",".toList ++ " FROM ".toList ++
          (t ++ " WHERE ".toList ++ cond) := by
      unfold selectWhereStmt selectStmt
      simp only [List.append_assoc]
    have i := indexOf_WHERE_table ht (trimRight (' ' :: cond))
    have hyes : Contains (trimLeft (t ++ [' ']) ++ "WHERE".toList ++ trimRight (' ' :: cond))
        "WHERE".toList = true := by
      unfold Contains
      rw [i]
      rfl
    have hsplit : SplitN (trimLeft (t ++ [' ']) ++ "WHERE".toList ++ trimRight (' ' :: cond))
        "WHERE".toList 2 = [trimLeft (t ++ [' ']), trimRight (' ' :: cond)] := by
      show genSplit "WHERE".toList 1 _ = _
      rw [genSplit_append i 0]
      rfl
    have h0 : TrimSpace (trimLeft (t ++ [' '])) = TrimSpace t := by
      rw [TrimSpace_trimLeft, TrimSpace_append_space hsp]
    have h1 : TrimSpace (trimRight (' ' :: cond)) = TrimSpace cond := by
      rw [TrimSpace_trimRight, TrimSpace_cons_space hsp]
    rw [e]
    unfold parseSelectQuery
    simp only [SplitN_FROM_select cs hF (t ++ " WHERE ".toList ++ cond), index_cons_zero,
      index_cons_succ, hs, hcols, TrimSpace_cons_space hsp, TrimSpace_table_WHERE, hyes, hsplit,
      h0, h1]
    rfl

theorem parseSelectQuery_trimmed_fields_witness :
    parseSelectQuery (selectStmt [" name".toList, "age  ".toList] " users ".toList) =
        some ([" name".toList, "age  ".toList].map TrimSpace, TrimSpace " users ".toList, []) ∧
      parseSelectQuery
          (selectWhereStmt [" name".toList, "age  ".toList] " users ".toList
            " age = 30 ".toList) =
        some ([" name".toList, "age  ".toList].map TrimSpace, TrimSpace " users ".toList,
          TrimSpace " age = 30 ".toList) :=
  parseSelectQuery_trimmed_fields [" name".toList, "age  ".toList] " users ".toList
    " age = 30 ".toList (by decide) (by decide) (by decide)

/-! ## Statements on a missing table -/

namespace strings

/-- The first occurrence of `sep` in a text that holds `sep` after `x` is not after `x`. -/
theorem indexOf_occurrence_le (sep y : Str) :
    ∀ x : Str, ∃ i, indexOf sep (x ++ sep ++ y) = some i ∧ i ≤ x.length := by
  intro x
  induction x with
  | nil =>
    refine ⟨0, ?_, Nat.le_refl _⟩
    rw [List.nil_append]
    exact indexOf_of_HasPrefix (HasPrefix_append_self _ _)
  | cons a x ih =>
    obtain ⟨i, hi, hle⟩ := ih
    have e : a :: x ++ sep ++ y = a :: (x ++ sep ++ y) := rfl
    rw [e, indexOf_cons]
    by_cases hp : HasPrefix (a :: (x ++ sep ++ y)) sep = true
    · exact ⟨0, by rw [if_pos hp], Nat.zero_le _⟩
    · refine ⟨i + 1, ?_, ?_⟩
      · rw [if_neg hp, hi]; rfl
      · simp only [List.length_cons]; omega

/-- The cut of a text at a keyword that follows a part without it and a space. -/
theorem Split_keyword {sep x : Str} (hsp : ' ' ∉ sep) (hsep : sep ≠ [])
    (hx : indexOf sep x = none) (y : Str) :
    Split (x ++ [' '] ++ sep ++ y) sep = (x ++ [' ']) :: Split y sep := by
  rw [Split_of_indexOf hsep (indexOf_keyword hsp hsep hx y)]
  have e1 : (x ++ [' '] ++ sep ++ y).take (x ++ [' ']).length = x ++ [' '] := by
    rw [List.append_assoc (x ++ [' ']), List.take_left]
  have e2 : (x ++ [' '] ++ sep ++ y).drop ((x ++ [' ']).length + sep.length) = y := by
    rw [← List.length_append, List.drop_left]
  rw [e1, e2]

/-- The first piece of a text that starts with a part `P` without the separator and a
space: `P`, the space and what comes before the next separator. -/
theorem Split_head_of_prefix {sep P : Str} (hsp : ' ' ∉ sep) (hsep : sep ≠ [])
    (hP : indexOf sep P = none) (W : Str) :
    ∃ W1 rest, Split (P ++ ' ' :: W) sep = (P ++ ' ' :: W1) :: rest := by
  have hi := indexOf_append_cons hsp hsep W P hP
  cases hW : indexOf sep W with
  | none =>
    rw [hW] at hi
    exact ⟨W, [], genSplit_none hi _⟩
  | some m =>
    rw [hW] at hi
    have hi2 : indexOf sep (P ++ ' ' :: W) = some (m + (P.length + 1)) := hi
    refine ⟨W.take m, Split ((P ++ ' ' :: W).drop (m + (P.length + 1) + sep.length)) sep, ?_⟩
    rw [Split_of_indexOf hsep hi2]
    have e : P ++ ' ' :: W = (P ++ [' ']) ++ W := by simp
    have hl : m + (P.length + 1) = (P ++ [' ']).length + m := by
      simp only [List.length_append, List.length_cons, List.length_nil]; omega
    have e3 : (P ++ ' ' :: W).take (m + (P.length + 1)) = P ++ ' ' :: W.take m := by
      rw [e, hl, List.take_append]
      simp
    rw [e3]

theorem Fields_cons_space (s : Str) : Fields (' ' :: s) = Fields s := by
  unfold Fields
  rw [fieldsAux]
  simp [isSpace]

/-- The cut in two at the first occurrence of a character that the text holds. -/
theorem SplitN_two_of_mem {ch : Char} {s : Str} (h : ch ∈ s) :
    ∃ x y, s = x ++ ch :: y ∧ ch ∉ x ∧ SplitN s [ch] 2 = [x, y] := by
  obtain ⟨x, y, e, hx⟩ := List.eq_append_cons_of_mem h
  exact ⟨x, y, e, hx, by rw [e]; exact SplitN_two_single hx y⟩

/-- What follows a later occurrence of a character also follows its first occurrence. -/
theorem mem_after_first {ch : Char} {x y X Z : Str} (e : x ++ ch :: y = X ++ ch :: Z)
    (hx : ch ∉ x) : ∀ a ∈ Z, a ∈ y := by
  intro a ha
  rcases List.append_eq_append_iff.mp e with ⟨m, _, h2⟩ | ⟨m, h1, h2⟩
  · cases m with
    | nil =>
      rw [List.nil_append] at h2
      rw [(List.cons.inj h2).2]
      exact ha
    | cons d m =>
      rw [List.cons_append] at h2
      rw [(List.cons.inj h2).2]
      exact List.mem_append_right _ (List.mem_cons_of_mem _ ha)
  · cases m with
    | nil =>
      rw [List.nil_append] at h2
      rw [← (List.cons.inj h2).2]
      exact ha
    | cons d m =>
      rw [List.cons_append] at h2
      have hd : ch = d := (List.cons.inj h2).1
      exact absurd (by rw [h1, hd]; simp) hx

end strings

/-- The slice `query[whereIndex+6:]` is in range when `WHERE` and one more character occur
in the statement. -/
theorem sliceFrom_WHERE (x y : Str) :
    ∃ s, sliceFrom (x ++ "WHERE".toList ++ ' ' :: y)
      (Index (x ++ "WHERE".toList ++ ' ' :: y) "WHERE".toList + 6).toNat = some s := by
  obtain ⟨i, hi, hle⟩ := indexOf_occurrence_le "WHERE".toList (' ' :: y) x
  have hidx : Index (x ++ "WHERE".toList ++ ' ' :: y) "WHERE".toList = (i : Int) := by
    unfold Index
    rw [hi]
  have hn : ((i : Int) + 6).toNat = i + 6 := by omega
  have hlen : i + 6 ≤ (x ++ "WHERE".toList ++ ' ' :: y).length := by
    simp only [List.length_append, List.length_cons]
    have : "WHERE".toList.length = 5 := rfl
    omega
  rw [hidx, hn]
  unfold sliceFrom
  rw [if_pos hlen]
  exact ⟨_, rfl⟩

theorem txBucket_filter_ne (t : Str) :
    ∀ db : DB, txBucket (db.filter (fun p => p.1 ≠ t)) t = none := by
  intro db
  induction db with
  | nil => rfl
  | cons p db ih =>
    obtain ⟨n, b⟩ := p
    by_cases h : n = t
    · have : List.filter (fun p : Str × Bucket => decide (p.1 ≠ t)) ((n, b) :: db) =
          List.filter (fun p : Str × Bucket => decide (p.1 ≠ t)) db := by
        rw [List.filter_cons]
        simp [h]
      rw [this]; exact ih
    · have : List.filter (fun p : Str × Bucket => decide (p.1 ≠ t)) ((n, b) :: db) =
          (n, b) :: List.filter (fun p : Str × Bucket => decide (p.1 ≠ t)) db := by
        rw [List.filter_cons]
        simp [h]
      rw [this]
      have h2 : t ≠ n := fun e => h e.symm
      show mapGet? ((n, b) :: _) t = none
      rw [mapGet?_cons, if_neg h2]
      exact ih

/-- The state left by a `DROP TABLE t` that reports success has no table `t`. -/
theorem dropTable_dropped {db0 db : DB} {t : Str}
    (h : dropTable (some db0) t =
      some (some db, .line ("Table ".toList ++ t ++ " dropped".toList))) :
    txBucket db t = none := by
  unfold dropTable txDeleteBucket at h
  cases hb : txBucket db0 t with
  | none =>
    simp only [hb] at h
    simp at h
  | some b =>
    simp only [hb, Option.some.injEq, Prod.mk.injEq] at h
    rw [← h.1]
    exact txBucket_filter_ne t db0

/-- An `INSERT INTO t (..) VALUES (..)` statement on a database without table `t`. -/
theorem insertIntoTable_stmt_missing (db : DB) (t : Str) (cs vs : List Str)
    (h1 : t ≠ []) (h2 : ∀ ch ∈ t, isSpace ch = false) (h3 : '(' ∉ t)
    (habs : txBucket db t = none) :
    insertIntoTable (some db) (insertStmt t cs vs) =
      some (some db, .line ("Error inserting into table: ".toList ++
        ("table ".toList ++ t ++ " does not exist".toList))) := by
  have e : insertStmt t cs vs =
      ("INSERT".toList ++ ' ' :: ("INTO".toList ++ ' ' :: (t ++ [' ']))) ++
        '(' :: (Join cs ",".toList ++
          ')' :: (" VALUES ".toList ++ '(' :: (Join vs ",".toList ++ [')']))) := by
    simp [insertStmt]
  have hp : '(' ∉ ("INSERT".toList ++ ' ' :: ("INTO".toList ++ ' ' :: (t ++ [' ']))) := by
    simp [h3]
  have hs1 : SplitN (insertStmt t cs vs) "(".toList 2 =
      ["INSERT".toList ++ ' ' :: ("INTO".toList ++ ' ' :: (t ++ [' '])),
        Join cs ",".toList ++
          ')' :: (" VALUES ".toList ++ '(' :: (Join vs ",".toList ++ [')']))] := by
    rw [e]; exact SplitN_two_single hp _
  have hf : Fields ("INSERT".toList ++ ' ' :: ("INTO".toList ++ ' ' :: (t ++ [' ']))) =
      ["INSERT".toList, "INTO".toList, t] :=
    Fields_three_words (by decide) (by decide) (by decide) (by decide) h2 h1
  have hmem : ')' ∈ Join cs ",".toList ++
      ')' :: (" VALUES ".toList ++ '(' :: (Join vs ",".toList ++ [')'])) :=
    List.mem_append_right _ (List.mem_cons_self _ _)
  obtain ⟨x, y, ex, hx, hs2⟩ := SplitN_two_of_mem hmem
  have hy : '(' ∈ y :=
    mem_after_first ex.symm hx '('
      (List.mem_append_right _ (List.mem_cons_self _ _))
  obtain ⟨x2, y2, _, _, hs3⟩ := SplitN_two_of_mem hy
  have hs2a : SplitN (Join cs ",".toList ++
      ')' :: (" VALUES ".toList ++ '(' :: (Join vs ",".toList ++ [')']))) ")".toList 2 =
      [x, y] := hs2
  have hs3a : SplitN y "(".toList 2 = [x2, y2] := hs3
  unfold insertIntoTable
  simp only [hs1, index_cons_zero, index_cons_succ, hf, hs2a, hs3a, insertTx, habs]
  rfl

/-- The table name and the condition that `parseSelectQuery` reads from a SELECT statement
whose column names do not contain `FROM` and whose table name does not contain `WHERE`. -/
theorem parseSelectQuery_table (cs : List Str) (t cond : Str)
    (hF : ∀ c ∈ cs, indexOf "FROM".toList c = none)
    (ht : indexOf "WHERE".toList t = none) :
    parseSelectQuery (selectStmt cs t) =
      some ((Split (TrimSpace (Join cs ",".toList)) ",".toList).map TrimSpace,
        TrimSpace t, []) ∧
    parseSelectQuery (selectWhereStmt cs t cond) =
      some ((Split (TrimSpace (Join cs ",".toList)) ",".toList).map TrimSpace,
        TrimSpace t, TrimSpace cond) := by
  have hs : sliceFrom ("SELECT ".toList ++ Join cs ",".toList ++ [' ']) 7 =
      some (Join cs ",".toList ++ [' ']) := by
    rw [List.append_assoc]
    exact sliceFrom_SELECT _
  have hsp : isSpace ' ' = true := by decide
  constructor
  · have hno : Contains (TrimSpace t) "WHERE".toList = false := by
      unfold Contains
      rw [indexOf_TrimSpace_none (by decide) ht]
      rfl
    unfold parseSelectQuery selectStmt
    simp only [SplitN_FROM_select cs hF t, index_cons_zero, index_cons_succ, hs,
      TrimSpace_cons_space hsp, TrimSpace_append_space hsp, hno]
    rfl
  · have e : selectWhereStmt cs t cond =
        "SELECT ".toList ++ Join cs ",".toList ++ " FROM ".toList ++
          (t ++ " WHERE ".toList ++ cond) := by
      unfold selectWhereStmt selectStmt
      simp only [List.append_assoc]
    have i := indexOf_WHERE_table ht (trimRight (' ' :: cond))
    have hyes : Contains (trimLeft (t ++ [' ']) ++ "WHERE".toList ++ trimRight (' ' :: cond))
        "WHERE".toList = true := by
      unfold Contains
      rw [i]
      rfl
    have hsplit : SplitN (trimLeft (t ++ [' ']) ++ "WHERE".toList ++ trimRight (' ' :: cond))
        "WHERE".toList 2 = [trimLeft (t ++ [' ']), trimRight (' ' :: cond)] := by
      show genSplit "WHERE".toList 1 _ = _
      rw [genSplit_append i 0]
      rfl
    have h0 : TrimSpace (trimLeft (t ++ [' '])) = TrimSpace t := by
      rw [TrimSpace_trimLeft, TrimSpace_append_space hsp]
    have h1 : TrimSpace (trimRight (' ' :: cond)) = TrimSpace cond := by
      rw [TrimSpace_trimRight, TrimSpace_cons_space hsp]
    rw [e]
    unfold parseSelectQuery
    simp only [SplitN_FROM_select cs hF (t ++ " WHERE ".toList ++ cond), index_cons_zero,
      index_cons_succ, hs, TrimSpace_cons_space hsp, TrimSpace_append_space hsp,
      TrimSpace_table_WHERE, hyes, hsplit, h0, h1]
    rfl

/-- An `UPDATE t SET c = v WHERE cond` statement on a database without table `t`. -/
theorem updateTable_stmt_missing (db : DB) (t c v cond : Str)
    (h1 : t ≠ []) (h2 : ∀ ch ∈ t, isSpace ch = false)
    (hts : indexOf "SET".toList t = none)
    (hc1 : c ≠ []) (hc2 : ∀ ch ∈ c, isSpace ch = false) (hcs : indexOf "SET".toList c = none)
    (hv1 : v ≠ []) (hv2 : ∀ ch ∈ v, isSpace ch = false) (hvs : indexOf "SET".toList v = none)
    (habs : txBucket db t = none) :
    updateTable (some db) (updateStmt t c v cond) =
      some (some db, .line ("Error updating table: table ".toList ++ t ++
        " does not exist".toList)) := by
  have hsp : (' ' : Char) ∉ "SET".toList := by decide
  have hne : "SET".toList ≠ [] := by decide
  have hx : indexOf "SET".toList ("UPDATE".toList ++ ' ' :: t) = none := by
    rw [indexOf_append_cons hsp hne _ _ (by decide), hts]
    rfl
  have hP : indexOf "SET".toList (' ' :: (c ++ ' ' :: ('=' :: ' ' :: v))) = none := by
    have e : ' ' :: (c ++ ' ' :: ('=' :: ' ' :: v)) = [] ++ ' ' :: (c ++ ' ' :: (['='] ++ ' ' :: v)) :=
      rfl
    rw [e, indexOf_append_cons hsp hne _ _ (by decide), indexOf_append_cons hsp hne _ _ hcs,
      indexOf_append_cons hsp hne _ _ (by decide), hvs]
    rfl
  have eq1 : updateStmt t c v cond =
      ("UPDATE".toList ++ ' ' :: t) ++ [' '] ++ "SET".toList ++
        ((' ' :: (c ++ ' ' :: ('=' :: ' ' :: v))) ++ ' ' :: ("WHERE".toList ++ ' ' :: cond)) := by
    simp [updateStmt]
  have hsplit : Split (updateStmt t c v cond) "SET".toList =
      (("UPDATE".toList ++ ' ' :: t) ++ [' ']) ::
        Split ((' ' :: (c ++ ' ' :: ('=' :: ' ' :: v))) ++
          ' ' :: ("WHERE".toList ++ ' ' :: cond)) "SET".toList := by
    rw [eq1]
    exact Split_keyword hsp hne hx _
  obtain ⟨W1, rest, hY⟩ := Split_head_of_prefix hsp hne hP ("WHERE".toList ++ ' ' :: cond)
  have hf0 : Fields (("UPDATE".toList ++ ' ' :: t) ++ [' ']) = ["UPDATE".toList, t] := by
    have e : ("UPDATE".toList ++ ' ' :: t) ++ [' '] = "UPDATE".toList ++ ' ' :: (t ++ ' ' :: []) := by
      simp
    rw [e, Fields_word_space (by decide) (by decide), Fields_word_space h2 h1, Fields_nil]
  have hf1 : Fields ((' ' :: (c ++ ' ' :: ('=' :: ' ' :: v))) ++ ' ' :: W1) =
      c :: "=".toList :: v :: Fields W1 := by
    have e : (' ' :: (c ++ ' ' :: ('=' :: ' ' :: v))) ++ ' ' :: W1 =
        ' ' :: (c ++ ' ' :: ("=".toList ++ ' ' :: (v ++ ' ' :: W1))) := by
      simp
    rw [e, Fields_cons_space, Fields_word_space hc2 hc1,
      Fields_word_space (by decide) (by decide), Fields_word_space hv2 hv1]
  have eq2 : updateStmt t c v cond =
      ("UPDATE ".toList ++ t ++ " SET ".toList ++ c ++ " = ".toList ++ v ++ [' ']) ++
        "WHERE".toList ++ ' ' :: cond := by
    simp [updateStmt]
  obtain ⟨s, hslice⟩ := sliceFrom_WHERE
    ("UPDATE ".toList ++ t ++ " SET ".toList ++ c ++ " = ".toList ++ v ++ [' ']) cond
  rw [← eq2] at hslice
  unfold updateTable
  simp only [hsplit, hY, index_cons_zero, index_cons_succ, hf0, hf1, hslice, habs]

/-- A `DELETE FROM t WHERE cond` statement on a database without table `t`. -/
theorem deleteFromTable_stmt_missing (db : DB) (t cond : Str)
    (h1 : t ≠ []) (h2 : ∀ ch ∈ t, isSpace ch = false)
    (htf : indexOf "FROM".toList t = none)
    (habs : txBucket db t = none) :
    deleteFromTable (some db) (deleteStmt t cond) =
      some (some db, .line ("Error deleting from table: table ".toList ++ t ++
        " does not exist".toList)) := by
  have hsp : (' ' : Char) ∉ "FROM".toList := by decide
  have hne : "FROM".toList ≠ [] := by decide
  have hP : indexOf "FROM".toList (' ' :: t) = none := by
    have e : ' ' :: t = [] ++ ' ' :: t := rfl
    rw [e, indexOf_append_cons hsp hne _ _ (by decide), htf]
    rfl
  have eq1 : deleteStmt t cond =
      "DELETE".toList ++ [' '] ++ "FROM".toList ++
        ((' ' :: t) ++ ' ' :: ("WHERE".toList ++ ' ' :: cond)) := by
    simp [deleteStmt]
  have hsplit : Split (deleteStmt t cond) "FROM".toList =
      ("DELETE".toList ++ [' ']) ::
        Split ((' ' :: t) ++ ' ' :: ("WHERE".toList ++ ' ' :: cond)) "FROM".toList := by
    rw [eq1]
    exact Split_keyword hsp hne (by decide) _
  obtain ⟨W1, rest, hY⟩ := Split_head_of_prefix hsp hne hP ("WHERE".toList ++ ' ' :: cond)
  have hf1 : Fields ((' ' :: t) ++ ' ' :: W1) = t :: Fields W1 := by
    have e : (' ' :: t) ++ ' ' :: W1 = ' ' :: (t ++ ' ' :: W1) := rfl
    rw [e, Fields_cons_space, Fields_word_space h2 h1]
  have eq2 : deleteStmt t cond =
      ("DELETE FROM ".toList ++ t ++ [' ']) ++ "WHERE".toList ++ ' ' :: cond := by
    simp [deleteStmt]
  obtain ⟨s, hslice⟩ := sliceFrom_WHERE ("DELETE FROM ".toList ++ t ++ [' ']) cond
  rw [← eq2] at hslice
  unfold deleteFromTable
  simp only [hsplit, hY, index_cons_zero, index_cons_succ, hf1, hslice, habs]

/-- C13 (counterexample): the table name is found by cutting the statement at the keyword
texts and at `(`, so a statement on a missing table is not always answered with `table <name>
does not exist`.  On the `users` database, which has no table `WHEREHOUSE`, `ASSETS`,
`FROMAGE`, `ghosts` or `gh(osts`: `SELECT * FROM WHEREHOUSE` reports that the table with the
empty name does not exist; `UPDATE ASSETS SET a = 1 WHERE b = 2` and `DELETE FROM FROMAGE
WHERE a = 1` panic; `SELECT FROMAGE FROM ghosts` reports the table `AGE FROM ghosts`; `UPDATE
ghosts SET a = SETTINGS WHERE b = 2` and `UPDATE ghosts SET ASSET = 1 WHERE b = 2` panic; and
`INSERT INTO gh(osts (a) VALUES (1)` reports the table `gh`. -/
theorem missing_table_not_reported_by_name :
    selectFromTable (some usersDB) "SELECT * FROM WHEREHOUSE".toList =
      some (some usersDB, .line "Error selecting from table: table  does not exist".toList) ∧
    updateTable (some usersDB) "UPDATE ASSETS SET a = 1 WHERE b = 2".toList = none ∧
    deleteFromTable (some usersDB) "DELETE FROM FROMAGE WHERE a = 1".toList = none ∧
    selectFromTable (some usersDB) "SELECT FROMAGE FROM ghosts".toList =
      some (some usersDB,
        .line "Error selecting from table: table AGE FROM ghosts does not exist".toList) ∧
    updateTable (some usersDB) "UPDATE ghosts SET a = SETTINGS WHERE b = 2".toList = none ∧
    updateTable (some usersDB) "UPDATE ghosts SET ASSET = 1 WHERE b = 2".toList = none ∧
    insertIntoTable (some usersDB) "INSERT INTO gh(osts (a) VALUES (1)".toList =
      some (some usersDB,
        .line "Error inserting into table: table gh does not exist".toList) := by
  refine ⟨?_, ?_, ?_, ?_, ?_, ?_, ?_⟩ <;> decide

/-- C13 (amended): a missing table is an error with no writes.  Let `t` be a non-empty name
without white space, and `db` a database state without table `t`, or the state left by a
`DROP TABLE t` that reported success.  Then each of the following statements reports `table t
does not exist` after the label of its operation and returns the database unchanged: `INSERT
INTO t (c1,..,cn) VALUES (v1,..,vm)` for all column and value lists, when `t` has no `(`;
`SELECT c1,..,cn FROM t` and `SELECT c1,..,cn FROM t WHERE cond` for every condition text,
when no column name contains `FROM` and `t` does not contain `WHERE`; `UPDATE t SET c = v
WHERE cond` for every condition text, when `c` and `v` are non-empty texts without white
space and none of `t`, `c`, `v` contains `SET`; `DELETE FROM t WHERE cond` for every condition
text, when `t` does not contain `FROM`.  And `DROP TABLE t` on a database that has table `t`
reports success and leaves a state without table `t`. -/
theorem missing_table_reported_without_writes (db : DB) (t : Str)
    (h1 : t ≠ []) (h2 : ∀ ch ∈ t, isSpace ch = false)
    (habs : txBucket db t = none ∨
      ∃ db0, dropTable (some db0) t =
        some (some db, .line ("Table ".toList ++ t ++ " dropped".toList))) :
    (∀ cs vs : List Str, '(' ∉ t →
      insertIntoTable (some db) (insertStmt t cs vs) =
        some (some db, .line ("Error inserting into table: ".toList ++
          ("table ".toList ++ t ++ " does not exist".toList)))) ∧
    (∀ (cs : List Str) (cond : Str), (∀ c ∈ cs, indexOf "FROM".toList c = none) →
      indexOf "WHERE".toList t = none →
      selectFromTable (some db) (selectStmt cs t) =
        some (some db, .line ("Error selecting from table: table ".toList ++ t ++
          " does not exist".toList)) ∧
      selectFromTable (some db) (selectWhereStmt cs t cond) =
        some (some db, .line ("Error selecting from table: table ".toList ++ t ++
          " does not exist".toList))) ∧
    (∀ c v cond : Str, c ≠ [] → (∀ ch ∈ c, isSpace ch = false) →
      v ≠ [] → (∀ ch ∈ v, isSpace ch = false) →
      indexOf "SET".toList t = none → indexOf "SET".toList c = none →
      indexOf "SET".toList v = none →
      updateTable (some db) (updateStmt t c v cond) =
        some (some db, .line ("Error updating table: table ".toList ++ t ++
          " does not exist".toList))) ∧
    (∀ cond : Str, indexOf "FROM".toList t = none →
      deleteFromTable (some db) (deleteStmt t cond) =
        some (some db, .line ("Error deleting from table: table ".toList ++ t ++
          " does not exist".toList))) ∧
    (∀ db0 b, txBucket db0 t = some b →
      ∃ db1, dropTable (some db0) t =
          some (some db1, .line ("Table ".toList ++ t ++ " dropped".toList)) ∧
        txBucket db1 t = none) := by
  have hno : txBucket db t = none := by
    rcases habs with h | ⟨db0, h⟩
    · exact h
    · exact dropTable_dropped h
  refine ⟨?_, ?_, ?_, ?_, ?_⟩
  · intro cs vs h3
    exact insertIntoTable_stmt_missing db t cs vs h1 h2 h3 hno
  · intro cs cond hF ht
    obtain ⟨p1, p2⟩ := parseSelectQuery_table cs t cond hF ht
    rw [TrimSpace_no_space h2] at p1 p2
    constructor
    · simp only [selectFromTable, p1, hno]
    · simp only [selectFromTable, p2, hno]
  · intro c v cond hc1 hc2 hv1 hv2 hts hcs hvs
    exact updateTable_stmt_missing db t c v cond h1 h2 hts hc1 hc2 hcs hv1 hv2 hvs hno
  · intro cond htf
    exact deleteFromTable_stmt_missing db t cond h1 h2 htf hno
  · intro db0 b hb
    refine ⟨db0.filter (fun p => p.1 ≠ t), ?_, txBucket_filter_ne t db0⟩
    simp only [dropTable, txDeleteBucket, hb]

/-- C13 (witness): `DROP TABLE users` on the `users` database leaves the empty database, on
which an INSERT, two SELECTs, an UPDATE and a DELETE on `users` report the missing table and
change nothing. -/
theorem missing_table_reported_without_writes_witness :
    dropTable (some usersDB) "users".toList =
      some (some [], .line ("Table ".toList ++ "users".toList ++ " dropped".toList)) ∧
    insertIntoTable (some [])
        (insertStmt "users".toList ["name".toList, "age".toList] ["Bob".toList]) =
      some (some [], .line ("Error inserting into table: ".toList ++
        ("table ".toList ++ "users".toList ++ " does not exist".toList))) ∧
    selectFromTable (some []) (selectStmt ["*".toList] "users".toList) =
      some (some [], .line ("Error selecting from table: table ".toList ++ "users".toList ++
        " does not exist".toList)) ∧
    selectFromTable (some [])
        (selectWhereStmt ["name".toList, " age".toList] "users".toList
          "name = Alice AND age = 30".toList) =
      some (some [], .line ("Error selecting from table: table ".toList ++ "users".toList ++
        " does not exist".toList)) ∧
    updateTable (some [])
        (updateStmt "users".toList "age".toList "31".toList "name = Alice".toList) =
      some (some [], .line ("Error updating table: table ".toList ++ "users".toList ++
        " does not exist".toList)) ∧
    deleteFromTable (some []) (deleteStmt "users".toList "name = Alice".toList) =
      some (some [], .line ("Error deleting from table: table ".toList ++ "users".toList ++
        " does not exist".toList)) := by
  have hd : dropTable (some usersDB) "users".toList =
      some (some [], .line ("Table ".toList ++ "users".toList ++ " dropped".toList)) := by
    decide
  have h := missing_table_reported_without_writes [] "users".toList (by decide) (by decide)
    (Or.inr ⟨usersDB, hd⟩)
  exact ⟨hd, h.1 _ _ (by decide),
    (h.2.1 ["*".toList] [] (by decide) (by decide)).1,
    (h.2.1 ["name".toList, " age".toList] "name = Alice AND age = 30".toList
      (by decide) (by decide)).2,
    h.2.2.1 "age".toList "31".toList "name = Alice".toList
      (by decide) (by decide) (by decide) (by decide) (by decide) (by decide) (by decide),
    h.2.2.2.1 "name = Alice".toList (by decide)⟩
